import Mathlib

/-!
setpci: operation parser and execution engine.

A shallow embedding of `src/setpci.c` (The PCI Utilities, `setpci`).

Conventions of the embedding.

* A C string is a `List Char`: the bytes before the terminating NUL.  A pointer
  that may be `NULL` is an `Option`.
* `unsigned int` values are natural numbers; every place where the C code can
  wrap around carries an explicit `% 2 ^ 32`.  `unsigned long` is 64 bits wide
  (LP64).  A C `int` is an `Int`; conversions between `unsigned int` and `int`
  are `to_int` and `to_uint` (two's complement).
* `parse_err` and `die` terminate the program: the functions that can reach them
  return an error value (`parse_op`) or stop and record the error
  (`exec_op`).
* `struct op` ends in a flexible array `values[0]` of `num_values` entries: the
  model keeps the list `values`, and `num_values` is its length.
-/

set_option linter.dupNamespace false

namespace Setpci

/-! ## C library helpers -/

/-- The C conversion of an `unsigned int` to `int` (two's complement). -/
def to_int (n : Nat) : Int :=
  if n % 2 ^ 32 < 2 ^ 31 then ((n % 2 ^ 32 : Nat) : Int) else ((n % 2 ^ 32 : Nat) : Int) - 2 ^ 32

/-- The C conversion of an `int` to `unsigned int` (reduction modulo `2 ^ 32`). -/
def to_uint (i : Int) : Nat :=
  (i % 2 ^ 32).toNat

/-- The C library `isspace` in the C locale. -/
def isspace (c : Char) : Bool :=
  c.toNat == 32 || (9 ≤ c.toNat && c.toNat ≤ 13)

/-- The C library `tolower` in the C locale, on character codes. -/
def tolower (c : Char) : Nat :=
  if 65 ≤ c.toNat ∧ c.toNat ≤ 90 then c.toNat + 32 else c.toNat

/-- Value of a hexadecimal digit, if the character is one. -/
def hex_digit (c : Char) : Option Nat :=
  let n := c.toNat
  if 48 ≤ n ∧ n ≤ 57 then some (n - 48)
  else if 97 ≤ n ∧ n ≤ 102 then some (n - 87)
  else if 65 ≤ n ∧ n ≤ 70 then some (n - 55)
  else none

/-- Whether `strcasecmp (a, b) == 0`. -/
def strcasecmp_eq (a b : List Char) : Bool :=
  a.map tolower == b.map tolower

/-- Whether `strncasecmp (a, b, n) == 0`, for a string `b` of exactly `n` characters. -/
def strncasecmp_eq (a b : List Char) (n : Nat) : Bool :=
  (a.take n).map tolower == b.map tolower

/-- The call `strchr (s, c)` followed by `*p++ = 0`: the text before the first `c`, and the
text after it when `c` occurs (`none` is the NULL pointer). -/
def strchr_split (c : Char) : List Char → List Char × Option (List Char)
  | [] => ([], none)
  | x :: xs =>
    if x = c then ([], some xs)
    else ((x :: (strchr_split c xs).1), (strchr_split c xs).2)

/-- Skip the leading white space, as `strtoul` does. -/
def skip_space : List Char → List Char
  | [] => []
  | x :: xs => if isspace x then skip_space xs else x :: xs

/-- The value of the longest prefix of hexadecimal digits, the number of digits
read, and the rest of the string; `acc` is the value read so far. -/
def read_hex (acc : Nat) : List Char → Nat × Nat × List Char
  | [] => (acc, 0, [])
  | x :: xs =>
    match hex_digit x with
    | some d => ((read_hex (acc * 16 + d) xs).1, (read_hex (acc * 16 + d) xs).2.1 + 1,
                 (read_hex (acc * 16 + d) xs).2.2)
    | none => (acc, 0, x :: xs)

/-- Result of `strtoul`: the value, the stop pointer, and whether `errno` was set. -/
structure strtoul_result where
  val : Nat
  stop : List Char
  errno : Bool
deriving DecidableEq

/-- The optional sign accepted by `strtoul`. -/
def strip_sign : List Char → Bool × List Char
  | [] => (false, [])
  | x :: xs => if x = '-' then (true, xs) else if x = '+' then (false, xs) else (false, x :: xs)

/-- The optional `0x` accepted by `strtoul` in base 16: it is skipped only when
a hexadecimal digit follows (otherwise the `0` alone is the number). -/
def strip_0x : List Char → List Char
  | [] => []
  | [a] => [a]
  | [a, b] => [a, b]
  | a :: b :: d :: r =>
    if a = '0' ∧ (b = 'x' ∨ b = 'X') ∧ (hex_digit d).isSome then d :: r else a :: b :: d :: r

/-- The C library `strtoul (c, &stop, 16)` with a 64-bit `unsigned long`: white
space, an optional sign, an optional `0x`, then hexadecimal digits.  Without any
digit nothing is converted and `stop` is `c`; a value that does not fit yields
`ULONG_MAX` and sets `errno`; a minus sign negates modulo `2 ^ 64`. -/
def strtoul (c : List Char) : strtoul_result :=
  let s := strip_sign (skip_space c)
  let r := read_hex 0 (strip_0x s.2)
  if r.2.1 = 0 then ⟨0, c, false⟩
  else if 2 ^ 64 ≤ r.1 then ⟨2 ^ 64 - 1, r.2.2, true⟩
  else ⟨if s.1 then (2 ^ 64 - r.1) % 2 ^ 64 else r.1, r.2.2, false⟩

/-! ## Data model -/

/-- The C `struct value`. -/
structure value where
  value : Nat
  mask : Nat
deriving DecidableEq

/-- Modelled from the spec: the tag of a normal capability (`capability_type`
is one of none, normal, extended; `cap_type` is `PCI_CAP_xxx or 0`).  The header
that defines the constant is not among the sources. -/
def PCI_CAP_NORMAL : Nat := 1

/-- Modelled from the spec: the tag of an extended capability; see
`PCI_CAP_NORMAL`. -/
def PCI_CAP_EXTENDED : Nat := 2

/-- Modelled from the spec: the offset of the header-type register, `0x0e`, the
offset the register table gives for `HEADER_TYPE`. -/
def PCI_HEADER_TYPE : Int := 0x0e

/-- The C `struct op` (without the list link); `name` is `none` for the NULL pointer. -/
structure op where
  cap_type : Nat
  cap_id : Nat
  name : Option String
  hdr_type_mask : Nat
  addr : Nat
  width : Nat
  number : Nat
  values : List value
deriving DecidableEq

/-- The field `num_values`: the number of entries of `values`. -/
def op.num_values (o : op) : Nat :=
  o.values.length

/-- The array `max_values[]`; an index outside the array reads as 0 in the model (no width
other than 1, 2 or 4 comes out of `parse_op`). -/
def max_values (width : Nat) : Nat :=
  [0, 0xff, 0xffff, 0, 0xffffffff].getD width 0

/-- The C `struct reg_name`. -/
structure reg_name where
  cap : Nat
  offset : Nat
  width : Nat
  hdr_type_mask : Nat
  name : String
deriving DecidableEq

/-- The table `pci_reg_names[]`, without the terminating entry whose name is NULL. -/
def pci_reg_names : List reg_name :=
  [
    reg_name.mk 0 0x00 2 0x0 "VENDOR_ID",
    reg_name.mk 0 0x02 2 0x0 "DEVICE_ID",
    reg_name.mk 0 0x04 2 0x0 "COMMAND",
    reg_name.mk 0 0x06 2 0x0 "STATUS",
    reg_name.mk 0 0x08 1 0x0 "REVISION",
    reg_name.mk 0 0x09 1 0x0 "CLASS_PROG",
    reg_name.mk 0 0x0a 2 0x0 "CLASS_DEVICE",
    reg_name.mk 0 0x0c 1 0x0 "CACHE_LINE_SIZE",
    reg_name.mk 0 0x0d 1 0x0 "LATENCY_TIMER",
    reg_name.mk 0 0x0e 1 0x0 "HEADER_TYPE",
    reg_name.mk 0 0x0f 1 0x0 "BIST",
    reg_name.mk 0 0x10 4 0x3 "BASE_ADDRESS_0",
    reg_name.mk 0 0x14 4 0x3 "BASE_ADDRESS_1",
    reg_name.mk 0 0x18 4 0x1 "BASE_ADDRESS_2",
    reg_name.mk 0 0x1c 4 0x1 "BASE_ADDRESS_3",
    reg_name.mk 0 0x20 4 0x1 "BASE_ADDRESS_4",
    reg_name.mk 0 0x24 4 0x1 "BASE_ADDRESS_5",
    reg_name.mk 0 0x28 4 0x1 "CARDBUS_CIS",
    reg_name.mk 0 0x2c 2 0x1 "SUBSYSTEM_VENDOR_ID",
    reg_name.mk 0 0x2e 2 0x1 "SUBSYSTEM_ID",
    reg_name.mk 0 0x30 4 0x1 "ROM_ADDRESS",
    reg_name.mk 0 0x34 1 0x3 "CAPABILITIES",
    reg_name.mk 0 0x3c 1 0x3 "INTERRUPT_LINE",
    reg_name.mk 0 0x3d 1 0x3 "INTERRUPT_PIN",
    reg_name.mk 0 0x3e 1 0x1 "MIN_GNT",
    reg_name.mk 0 0x3f 1 0x1 "MAX_LAT",
    reg_name.mk 0 0x18 1 0x2 "PRIMARY_BUS",
    reg_name.mk 0 0x19 1 0x2 "SECONDARY_BUS",
    reg_name.mk 0 0x1a 1 0x2 "SUBORDINATE_BUS",
    reg_name.mk 0 0x1b 1 0x2 "SEC_LATENCY_TIMER",
    reg_name.mk 0 0x1c 1 0x2 "IO_BASE",
    reg_name.mk 0 0x1d 1 0x2 "IO_LIMIT",
    reg_name.mk 0 0x1e 2 0x2 "SEC_STATUS",
    reg_name.mk 0 0x20 2 0x2 "MEMORY_BASE",
    reg_name.mk 0 0x22 2 0x2 "MEMORY_LIMIT",
    reg_name.mk 0 0x24 2 0x2 "PREF_MEMORY_BASE",
    reg_name.mk 0 0x26 2 0x2 "PREF_MEMORY_LIMIT",
    reg_name.mk 0 0x28 4 0x2 "PREF_BASE_UPPER32",
    reg_name.mk 0 0x2c 4 0x2 "PREF_LIMIT_UPPER32",
    reg_name.mk 0 0x30 2 0x2 "IO_BASE_UPPER16",
    reg_name.mk 0 0x32 2 0x2 "IO_LIMIT_UPPER16",
    reg_name.mk 0 0x38 4 0x2 "BRIDGE_ROM_ADDRESS",
    reg_name.mk 0 0x3e 2 0x2 "BRIDGE_CONTROL",
    reg_name.mk 0 0x10 4 0x4 "CB_CARDBUS_BASE",
    reg_name.mk 0 0x14 2 0x4 "CB_CAPABILITIES",
    reg_name.mk 0 0x16 2 0x4 "CB_SEC_STATUS",
    reg_name.mk 0 0x18 1 0x4 "CB_BUS_NUMBER",
    reg_name.mk 0 0x19 1 0x4 "CB_CARDBUS_NUMBER",
    reg_name.mk 0 0x1a 1 0x4 "CB_SUBORDINATE_BUS",
    reg_name.mk 0 0x1b 1 0x4 "CB_CARDBUS_LATENCY",
    reg_name.mk 0 0x1c 4 0x4 "CB_MEMORY_BASE_0",
    reg_name.mk 0 0x20 4 0x4 "CB_MEMORY_LIMIT_0",
    reg_name.mk 0 0x24 4 0x4 "CB_MEMORY_BASE_1",
    reg_name.mk 0 0x28 4 0x4 "CB_MEMORY_LIMIT_1",
    reg_name.mk 0 0x2c 2 0x4 "CB_IO_BASE_0",
    reg_name.mk 0 0x2e 2 0x4 "CB_IO_BASE_0_HI",
    reg_name.mk 0 0x30 2 0x4 "CB_IO_LIMIT_0",
    reg_name.mk 0 0x32 2 0x4 "CB_IO_LIMIT_0_HI",
    reg_name.mk 0 0x34 2 0x4 "CB_IO_BASE_1",
    reg_name.mk 0 0x36 2 0x4 "CB_IO_BASE_1_HI",
    reg_name.mk 0 0x38 2 0x4 "CB_IO_LIMIT_1",
    reg_name.mk 0 0x3a 2 0x4 "CB_IO_LIMIT_1_HI",
    reg_name.mk 0 0x40 2 0x4 "CB_SUBSYSTEM_VENDOR_ID",
    reg_name.mk 0 0x42 2 0x4 "CB_SUBSYSTEM_ID",
    reg_name.mk 0 0x44 4 0x4 "CB_LEGACY_MODE_BASE",
    reg_name.mk 0x10001 0 0 0x0 "CAP_PM",
    reg_name.mk 0x10002 0 0 0x0 "CAP_AGP",
    reg_name.mk 0x10003 0 0 0x0 "CAP_VPD",
    reg_name.mk 0x10004 0 0 0x0 "CAP_SLOTID",
    reg_name.mk 0x10005 0 0 0x0 "CAP_MSI",
    reg_name.mk 0x10006 0 0 0x0 "CAP_CHSWP",
    reg_name.mk 0x10007 0 0 0x0 "CAP_PCIX",
    reg_name.mk 0x10008 0 0 0x0 "CAP_HT",
    reg_name.mk 0x10009 0 0 0x0 "CAP_VNDR",
    reg_name.mk 0x1000a 0 0 0x0 "CAP_DBG",
    reg_name.mk 0x1000b 0 0 0x0 "CAP_CCRC",
    reg_name.mk 0x1000c 0 0 0x0 "CAP_HOTPLUG",
    reg_name.mk 0x1000d 0 0 0x0 "CAP_SSVID",
    reg_name.mk 0x1000e 0 0 0x0 "CAP_AGP3",
    reg_name.mk 0x1000f 0 0 0x0 "CAP_SECURE",
    reg_name.mk 0x10010 0 0 0x0 "CAP_EXP",
    reg_name.mk 0x10011 0 0 0x0 "CAP_MSIX",
    reg_name.mk 0x10012 0 0 0x0 "CAP_SATA",
    reg_name.mk 0x10013 0 0 0x0 "CAP_AF",
    reg_name.mk 0x10014 0 0 0x0 "CAP_EA",
    reg_name.mk 0x20001 0 0 0x0 "ECAP_AER",
    reg_name.mk 0x20002 0 0 0x0 "ECAP_VC",
    reg_name.mk 0x20003 0 0 0x0 "ECAP_DSN",
    reg_name.mk 0x20004 0 0 0x0 "ECAP_PB",
    reg_name.mk 0x20005 0 0 0x0 "ECAP_RCLINK",
    reg_name.mk 0x20006 0 0 0x0 "ECAP_RCILINK",
    reg_name.mk 0x20007 0 0 0x0 "ECAP_RCEC",
    reg_name.mk 0x20008 0 0 0x0 "ECAP_MFVC",
    reg_name.mk 0x20009 0 0 0x0 "ECAP_VC2",
    reg_name.mk 0x2000a 0 0 0x0 "ECAP_RBCB",
    reg_name.mk 0x2000b 0 0 0x0 "ECAP_VNDR",
    reg_name.mk 0x2000d 0 0 0x0 "ECAP_ACS",
    reg_name.mk 0x2000e 0 0 0x0 "ECAP_ARI",
    reg_name.mk 0x2000f 0 0 0x0 "ECAP_ATS",
    reg_name.mk 0x20010 0 0 0x0 "ECAP_SRIOV",
    reg_name.mk 0x20011 0 0 0x0 "ECAP_MRIOV",
    reg_name.mk 0x20012 0 0 0x0 "ECAP_MCAST",
    reg_name.mk 0x20013 0 0 0x0 "ECAP_PRI",
    reg_name.mk 0x20015 0 0 0x0 "ECAP_REBAR",
    reg_name.mk 0x20016 0 0 0x0 "ECAP_DPA",
    reg_name.mk 0x20017 0 0 0x0 "ECAP_TPH",
    reg_name.mk 0x20018 0 0 0x0 "ECAP_LTR",
    reg_name.mk 0x20019 0 0 0x0 "ECAP_SECPCI",
    reg_name.mk 0x2001a 0 0 0x0 "ECAP_PMUX",
    reg_name.mk 0x2001b 0 0 0x0 "ECAP_PASID",
    reg_name.mk 0x2001c 0 0 0x0 "ECAP_LNR",
    reg_name.mk 0x2001d 0 0 0x0 "ECAP_DPC",
    reg_name.mk 0x2001e 0 0 0x0 "ECAP_L1PM",
    reg_name.mk 0x2001f 0 0 0x0 "ECAP_PTM",
    reg_name.mk 0x20020 0 0 0x0 "ECAP_M_PCIE",
    reg_name.mk 0x20021 0 0 0x0 "ECAP_FRS",
    reg_name.mk 0x20022 0 0 0x0 "ECAP_RTR",
    reg_name.mk 0x20023 0 0 0x0 "ECAP_DVSEC",
    reg_name.mk 0x20024 0 0 0x0 "ECAP_VF_REBAR",
    reg_name.mk 0x20025 0 0 0x0 "ECAP_DLNK",
    reg_name.mk 0x20026 0 0 0x0 "ECAP_16GT",
    reg_name.mk 0x20027 0 0 0x0 "ECAP_LMR",
    reg_name.mk 0x20028 0 0 0x0 "ECAP_HIER_ID",
    reg_name.mk 0x20029 0 0 0x0 "ECAP_NPEM",
    reg_name.mk 0x2002a 0 0 0x0 "ECAP_32GT",
    reg_name.mk 0x20030 0 0 0x0 "ECAP_IDE",
    reg_name.mk 0x20031 0 0 0x0 "ECAP_64GT"
  ]

/-! ## Parsing one operation -/

/-- The messages of `parse_err` that `parse_op` and `parse_register` can raise. -/
inductive parse_error where
  /-- Message `Missing value` -/
  | missing_value
  /-- Message `Invalid width "..."` -/
  | invalid_width
  /-- Message `Invalid number "..."` -/
  | invalid_number
  /-- Message `Unknown register "..."` -/
  | unknown_register
  /-- Message `Missing width` -/
  | missing_width
  /-- Message `Invalid offset "..."` -/
  | invalid_offset
  /-- Message `Register number ... out of range` -/
  | register_out_of_range
  /-- Message `Unaligned register address ...` -/
  | unaligned_register
  /-- Message `Invalid value "..."` -/
  | invalid_value
  /-- Message `Value "..." is out of range` -/
  | value_out_of_range
  /-- Message `Invalid mask "..."` -/
  | invalid_mask
  /-- Message `Mask "..." is out of range` -/
  | mask_out_of_range
deriving DecidableEq

/-- The function `parse_reg_name`: the first table entry whose name equals `name` up to case. -/
def parse_reg_name (name : List Char) : Option reg_name :=
  pci_reg_names.find? (fun r => strcasecmp_eq r.name.toList name)

/-- What `parse_x32` hands back: the return value, the pointer stored through
`stopp` (`none` is NULL, also when nothing is stored) and the number stored
through `resp` (`none` when nothing is stored). -/
structure x32_result where
  ret : Int
  stop : Option (List Char)
  res : Option Nat
deriving DecidableEq

/-- The function `parse_x32`: -1 on an empty string, a range error or a value above 32 bits;
0 when text is left after the number; 1 when the whole string was read. -/
def parse_x32 (c : List Char) : x32_result :=
  if c = [] then ⟨-1, none, none⟩
  else if (strtoul c).errno then ⟨-1, none, none⟩
  else if (strtoul c).val % 2 ^ 32 ≠ (strtoul c).val then ⟨-1, none, none⟩
  else if (strtoul c).stop ≠ [] then ⟨0, some (strtoul c).stop, some (strtoul c).val⟩
  else ⟨1, none, some (strtoul c).val⟩

/-- The function `parse_register`.  The first `parse_x32` writes `op->addr` also when it
returns 0; every later successful branch overwrites it. -/
def parse_register (o : op) (base : List Char) : Except parse_error op :=
  let o1 : op := { o with cap_type := 0, cap_id := 0, addr := (parse_x32 base).res.getD o.addr }
  if (parse_x32 base).ret > 0 then .ok o1
  else
    match parse_reg_name base with
    | some r =>
      .ok { o1 with
        cap_type :=
          if r.cap &&& 0xff0000 = 0x10000 then PCI_CAP_NORMAL
          else if r.cap &&& 0xff0000 = 0x20000 then PCI_CAP_EXTENDED
          else o1.cap_type,
        cap_id := r.cap &&& 0xffff,
        addr := r.offset,
        hdr_type_mask := r.hdr_type_mask,
        name := some r.name,
        width := if r.width ≠ 0 ∧ o1.width = 0 then r.width else o1.width }
    | none =>
      if strncasecmp_eq base ['C', 'A', 'P'] 3 then
        if (parse_x32 (base.drop 3)).ret > 0 ∧ (parse_x32 (base.drop 3)).res.getD 0 < 0x100 then
          .ok { o1 with cap_type := PCI_CAP_NORMAL,
                        cap_id := (parse_x32 (base.drop 3)).res.getD 0, addr := 0 }
        else .error .unknown_register
      else if strncasecmp_eq base ['E', 'C', 'A', 'P'] 4 then
        if (parse_x32 (base.drop 4)).ret > 0 ∧ (parse_x32 (base.drop 4)).res.getD 0 < 0x1000 then
          .ok { o1 with cap_type := PCI_CAP_EXTENDED,
                        cap_id := (parse_x32 (base.drop 4)).res.getD 0, addr := 0 }
        else .error .unknown_register
      else .error .unknown_register

/-- The pieces of a token after "Split the argument": `base` and the four
optional suffixes. -/
structure op_split where
  base : List Char
  offset : Option (List Char)
  width : Option (List Char)
  value : Option (List Char)
  number : Option (List Char)
deriving DecidableEq

/-- The section "Split the argument": `=` is looked for in the whole token, `@` in what is
before the `=`, `.` in what is before the `@`, `+` in what is before the `.`. -/
def split_op (c : List Char) : op_split :=
  let s1 := strchr_split '=' c
  let s2 := strchr_split '@' s1.1
  let s3 := strchr_split '.' s2.1
  let s4 := strchr_split '+' s3.1
  { base := s4.1, offset := s4.2, width := s3.2, value := s1.2, number := s2.2 }

/-- The section "Look for setting of values and count how many". -/
def count_values : Option (List Char) → Except parse_error Nat
  | none => .ok 0
  | some [] => .error .missing_value
  | some (x :: xs) => .ok (1 + (x :: xs).count ',')

/-- The section "What is the width suffix?"  An empty suffix is rejected: the test
`width[1]` then reads the byte after the terminator, and whatever it holds the
function ends in one of the two `Invalid width` messages.  The letter is a
byte, so a character above 255 is no width letter. -/
def parse_width : Option (List Char) → Except parse_error Nat
  | none => .ok 0
  | some [] => .error .invalid_width
  | some [c] =>
    if c.toNat < 256 ∧ c.toNat &&& 0xdf = 'B'.toNat then .ok 1
    else if c.toNat < 256 ∧ c.toNat &&& 0xdf = 'W'.toNat then .ok 2
    else if c.toNat < 256 ∧ c.toNat &&& 0xdf = 'L'.toNat then .ok 4
    else .error .invalid_width
  | some (_ :: _ :: _) => .error .invalid_width

/-- The section "Check which n-th capability of the same id we want". -/
def parse_number : Option (List Char) → Except parse_error Nat
  | none => .ok 0
  | some s =>
    if (parse_x32 s).ret ≤ 0 ∨ to_int ((parse_x32 s).res.getD 0) < 0 then .error .invalid_number
    else .ok ((parse_x32 s).res.getD 0)

/-- The section "Add offset"; the addition is an `unsigned int` addition. -/
def add_offset (o : op) : Option (List Char) → Except parse_error op
  | none => .ok o
  | some s =>
    if (parse_x32 s).ret ≤ 0 ∨ (parse_x32 s).res.getD 0 ≥ 0x1000 then .error .invalid_offset
    else .ok { o with addr := (o.addr + (parse_x32 s).res.getD 0) % 2 ^ 32 }

/-- The operation as assembled before "Check range", with the number `n` of
values and the text of the values. -/
structure op_assembled where
  o : op
  n : Nat
  value : Option (List Char)
deriving DecidableEq

/-- The first part of `parse_op`, up to and including "Add offset". -/
def parse_op_assemble (c : List Char) : Except parse_error op_assembled :=
  match count_values (split_op c).value with
  | .error e => .error e
  | .ok n =>
    match parse_width (split_op c).width with
    | .error e => .error e
    | .ok w =>
      match parse_number (split_op c).number with
      | .error e => .error e
      | .ok num =>
        match parse_register
            { cap_type := 0, cap_id := 0, name := none, hdr_type_mask := 0, addr := 0,
              width := w, number := num, values := [] } (split_op c).base with
        | .error e => .error e
        | .ok o =>
          if o.width = 0 then .error .missing_width
          else
            match add_offset o (split_op c).offset with
            | .error e => .error e
            | .ok o2 => .ok { o := o2, n := n, value := (split_op c).value }

/-- The section "Check range" and the alignment test, in `unsigned int` arithmetic. -/
def parse_op_check (o : op) (n : Nat) : Except parse_error Unit :=
  if o.addr ≥ 0x1000 ∨ (o.addr + o.width * (if n ≠ 0 then n else 1)) % 2 ^ 32 > 0x1000 then
    .error .register_out_of_range
  else if o.addr &&& ((o.width + (2 ^ 32 - 1)) % 2 ^ 32) ≠ 0 then .error .unaligned_register
  else .ok ()

/-- The body of the loop "Parse the values" for one element `value` (the text
up to the next comma). -/
def parse_value (width : Nat) (value : List Char) : Except parse_error Setpci.value :=
  if (parse_x32 value).ret < 0 then .error .invalid_value
  else
    match (parse_x32 value).stop with
    | some (f :: m) =>
      if f ≠ ':' then .error .invalid_value
      else if (parse_x32 value).res.getD 0 > max_values width
          ∧ (parse_x32 value).res.getD 0 < 0xffffffff - max_values width then
        .error .value_out_of_range
      else if (parse_x32 m).ret ≤ 0 then .error .invalid_mask
      else if (parse_x32 m).res.getD 0 > max_values width
          ∧ (parse_x32 m).res.getD 0 < 0xffffffff - max_values width then
        .error .mask_out_of_range
      else
        .ok { value := (parse_x32 value).res.getD 0 &&& (parse_x32 m).res.getD 0,
              mask := (parse_x32 m).res.getD 0 }
    | _ =>
      if (parse_x32 value).res.getD 0 > max_values width
          ∧ (parse_x32 value).res.getD 0 < 0xffffffff - max_values width then
        .error .value_out_of_range
      else .ok { value := (parse_x32 value).res.getD 0, mask := 0xffffffff }

/-- The loop "Parse the values": `n` elements, each cut at the next comma.  The
count `n` is one more than the number of commas, so the text never runs out
before the loop ends (the second case is not reached). -/
def parse_values (width : Nat) : Nat → Option (List Char) → Except parse_error (List value)
  | 0, _ => .ok []
  | _ + 1, none => .error .invalid_value
  | n + 1, some value =>
    match parse_value width (strchr_split ',' value).1 with
    | .error e => .error e
    | .ok v =>
      match parse_values width n (strchr_split ',' value).2 with
      | .error e => .error e
      | .ok vs => .ok (v :: vs)

/-- The function `parse_op`: the operation a token stands for, or the parse error. -/
def parse_op (c : List Char) : Except parse_error op :=
  match parse_op_assemble c with
  | .error e => .error e
  | .ok a =>
    match parse_op_check a.o a.n with
    | .error e => .error e
    | .ok _ =>
      match parse_values a.o.width a.n a.value with
      | .error e => .error e
      | .ok vs => .ok { a.o with values := vs }

/-! ## Devices and the access layer -/

/-- Modelled from the spec: a capability of a device, `struct pci_cap` of the
access library: its id, its type (`PCI_CAP_NORMAL` or `PCI_CAP_EXTENDED`) and
its base address. -/
structure pci_cap where
  id : Nat
  type : Nat
  addr : Nat
deriving DecidableEq

/-- Modelled from the spec: a device as the access layer presents it: the
capabilities in device order, and the configuration space as a plain register
map from byte positions to bytes. -/
structure pci_dev where
  caps : List pci_cap
  cfg : Int → Nat

/-- Modelled from the spec: the capabilities of a device with a given id and
type, in device order. -/
def matching_caps (d : pci_dev) (id type : Nat) : List pci_cap :=
  d.caps.filter (fun c => c.type = type ∧ c.id = id)

/-- Modelled from the spec: `pci_find_cap_nr` of the access library, "locate the
instance-th capability of a given id/type on a device, returning its base
address or a count of how many exist".  The first component is the capability
found (`none` is NULL), the second the count written back through the last
argument. -/
def pci_find_cap_nr (d : pci_dev) (id type cap_number : Nat) : Option pci_cap × Nat :=
  ((matching_caps d id type)[cap_number]?, (matching_caps d id type).length)

/-- Modelled from the spec: `pci_read_byte`, a byte of the configuration space. -/
def pci_read_byte (d : pci_dev) (pos : Int) : Nat :=
  d.cfg pos % 256

/-- Modelled from the spec: `pci_read_word`, two bytes, little-endian. -/
def pci_read_word (d : pci_dev) (pos : Int) : Nat :=
  pci_read_byte d pos + 256 * pci_read_byte d (pos + 1)

/-- Modelled from the spec: `pci_read_long`, four bytes, little-endian. -/
def pci_read_long (d : pci_dev) (pos : Int) : Nat :=
  pci_read_word d pos + 65536 * pci_read_word d (pos + 2)

/-- Modelled from the spec: `pci_write_byte`; the argument is converted to a
byte. -/
def pci_write_byte (d : pci_dev) (pos : Int) (data : Nat) : pci_dev :=
  { d with cfg := fun p => if p = pos then data % 256 else d.cfg p }

/-- Modelled from the spec: `pci_write_word`; the argument is converted to 16
bits and stored little-endian. -/
def pci_write_word (d : pci_dev) (pos : Int) (data : Nat) : pci_dev :=
  pci_write_byte (pci_write_byte d pos data) (pos + 1) (data / 256)

/-- Modelled from the spec: `pci_write_long`; 32 bits, stored little-endian. -/
def pci_write_long (d : pci_dev) (pos : Int) (data : Nat) : pci_dev :=
  pci_write_word (pci_write_word d pos data) (pos + 2) (data / 65536)

/-! ## Executing one operation -/

/-- The messages of `die` in `exec_op`, with the arguments that vary (the device
slot that starts every message is left out). -/
inductive exec_error where
  /-- Message `Instance #%d of %s %04x not found - there are no capabilities with that id.` -/
  | no_caps (number : Nat) (kind : String) (cap_id : Nat)
  /-- Message `Instance #%d of %s %04x not found - there %s only %d %s with that id.` -/
  | only_caps (number : Nat) (kind : String) (cap_id : Nat) (verb : String) (cap_nr : Nat)
      (noun : String)
  /-- Message `Unaligned access of width %d to register %04x` -/
  | unaligned (width : Int) (addr : Int)
  /-- Message `Access of width %d to register %04x out of range` -/
  | out_of_range (width : Int) (addr : Int)
  /-- Message `Does not have register %s.` -/
  | no_register (name : Option String)
deriving DecidableEq

/-- What `exec_op` does that can be observed, in order: the calls of the access
layer (`len` is 1, 2 or 4 for the byte, word and long function; `data` is the
argument as `exec_op` passes it), the two `trace` calls that report values, and
the `printf` of a read.  The `trace` calls that only report the slot and the
address are not recorded. -/
inductive event where
  /-- The call `pci_read_byte/word/long (dev, pos)` returned `val` -/
  | read (pos : Int) (len : Nat) (val : Nat)
  /-- The call `pci_write_byte/word/long (dev, pos, data)` -/
  | write (pos : Int) (len : Nat) (data : Nat)
  /-- The call `trace (formats[width], value)` -/
  | trace_value (x : Nat)
  /-- The call `trace (mask_formats[width], y, value, mask, x)` -/
  | trace_masked (y : Nat) (value : Nat) (mask : Nat) (x : Nat)
  /-- The call `printf (formats[width]+1, x)` -/
  | print (width : Int) (x : Nat)
deriving DecidableEq

/-- The `switch (width)` that picks the read function. -/
def read_switch (d : pci_dev) (width : Int) (addr : Int) : Nat :=
  if width = 1 then pci_read_byte d addr
  else if width = 2 then pci_read_word d addr
  else pci_read_long d addr

/-- The `switch (width)` that picks the write function. -/
def write_switch (d : pci_dev) (width : Int) (addr : Int) (x : Nat) : pci_dev :=
  if width = 1 then pci_write_byte d addr x
  else if width = 2 then pci_write_word d addr x
  else pci_write_long d addr x

/-- Number of bytes of the access function that `switch (width)` picks. -/
def switch_len (width : Int) : Nat :=
  if width = 1 then 1 else if width = 2 then 2 else 4

/-- The 32-bit complement `~m`. -/
def not32 (m : Nat) : Nat :=
  0xffffffff ^^^ (m % 2 ^ 32)

/-- The capability part of `exec_op`: the value of `addr` before `op->addr` is
added, or the error of a failed lookup. -/
def exec_op_cap (o : op) (dev : pci_dev) : Except exec_error Int :=
  if o.cap_type ≠ 0 then
    match (pci_find_cap_nr dev o.cap_id o.cap_type o.number).1 with
    | some cap => .ok (to_int cap.addr)
    | none =>
      if (pci_find_cap_nr dev o.cap_id o.cap_type o.number).2 = 0 then
        .error (.no_caps o.number
          (if o.cap_type = PCI_CAP_NORMAL then "Capability" else "Extended capability") o.cap_id)
      else
        .error (.only_caps o.number
          (if o.cap_type = PCI_CAP_NORMAL then "Capability" else "Extended capability") o.cap_id
          (if (pci_find_cap_nr dev o.cap_id o.cap_type o.number).2 = 1 then "is" else "are")
          (pci_find_cap_nr dev o.cap_id o.cap_type o.number).2
          (if (pci_find_cap_nr dev o.cap_id o.cap_type o.number).2 = 1 then "capability"
           else "capabilities"))
  else .ok 0

/-- The final address of `exec_op` (`addr += op->addr`, an `unsigned int`
addition stored in an `int`) after the alignment and range tests, or the error
that stops `exec_op` before them or at them. -/
def exec_op_addr (o : op) (dev : pci_dev) : Except exec_error Int :=
  match exec_op_cap o dev with
  | .error e => .error e
  | .ok base =>
    if to_uint (to_int (to_uint base + o.addr)) &&& to_uint (to_int o.width - 1) ≠ 0 then
      .error (.unaligned (to_int o.width) (to_int (to_uint base + o.addr)))
    else if to_int (to_uint base + o.addr) + to_int o.width > 0x1000 then
      .error (.out_of_range (to_int o.width) (to_int (to_uint base + o.addr)))
    else .ok (to_int (to_uint base + o.addr))

/-- The header-type test of `exec_op`: the events it adds, and the error when
the test fails. -/
def exec_op_hdr (o : op) (dev : pci_dev) : List event × Option exec_error :=
  if o.hdr_type_mask ≠ 0 then
    if pci_read_byte dev PCI_HEADER_TYPE &&& 0x7f > 2
        ∨ (1 <<< (pci_read_byte dev PCI_HEADER_TYPE &&& 0x7f)) &&& o.hdr_type_mask = 0 then
      ([.read PCI_HEADER_TYPE 1 (pci_read_byte dev PCI_HEADER_TYPE)], some (.no_register o.name))
    else ([.read PCI_HEADER_TYPE 1 (pci_read_byte dev PCI_HEADER_TYPE)], none)
  else ([], none)

/-- The state of the loop over the values: the device, `addr`, and the events
so far. -/
structure exec_state where
  dev : pci_dev
  addr : Int
  log : List event

/-- The value `x` that the loop body computes for one value at a state. -/
def exec_x (width : Int) (s : exec_state) (v : value) : Nat :=
  if v.mask &&& max_values width.toNat = max_values width.toNat then v.value
  else (read_switch s.dev width s.addr &&& not32 v.mask) ||| v.value

/-- The body of the loop over the values.  `addr += width` is a signed
addition, which C leaves undefined on overflow; the sum is taken in `Int` (it
stays below `2 ^ 31` unless the list has some `2 ^ 29` values). -/
def exec_value (demo : Bool) (width : Int) (s : exec_state) (v : value) : exec_state :=
  { dev := if demo then s.dev else write_switch s.dev width s.addr (exec_x width s v),
    addr := s.addr + width,
    log := s.log
      ++ (if v.mask &&& max_values width.toNat = max_values width.toNat then
            [event.trace_value v.value]
          else
            [event.read s.addr (switch_len width) (read_switch s.dev width s.addr),
             event.trace_masked (read_switch s.dev width s.addr) v.value v.mask
               (exec_x width s v)])
      ++ (if demo then [] else [event.write s.addr (switch_len width) (exec_x width s v)]) }

/-- The loop over the values. -/
def exec_values (demo : Bool) (width : Int) (s : exec_state) (vs : List value) : exec_state :=
  vs.foldl (exec_value demo width) s

/-- What a run of `exec_op` leaves: the device, the events, and the error it
died with, if any. -/
structure exec_result where
  dev : pci_dev
  log : List event
  err : Option exec_error

/-- The function `exec_op`; `demo` is the global `demo_mode`. -/
def exec_op (demo : Bool) (o : op) (dev : pci_dev) : exec_result :=
  match exec_op_addr o dev with
  | .error e => { dev := dev, log := [], err := some e }
  | .ok addr =>
    match (exec_op_hdr o dev).2 with
    | some e => { dev := dev, log := (exec_op_hdr o dev).1, err := some e }
    | none =>
      if o.num_values ≠ 0 then
        { dev := (exec_values demo (to_int o.width) ⟨dev, addr, (exec_op_hdr o dev).1⟩ o.values).dev,
          log := (exec_values demo (to_int o.width) ⟨dev, addr, (exec_op_hdr o dev).1⟩ o.values).log,
          err := none }
      else
        { dev := dev,
          log := (exec_op_hdr o dev).1 ++
            [event.read addr (switch_len (to_int o.width)) (read_switch dev (to_int o.width) addr),
             event.print (to_int o.width) (read_switch dev (to_int o.width) addr)],
          err := none }

/-- The position and length of the register access an event stands for. -/
def event.access : event → Option (Int × Nat)
  | .read pos len _ => some (pos, len)
  | .write pos len _ => some (pos, len)
  | _ => none

/-- Whether an event is a register write. -/
def event.writes : event → Bool
  | .write _ _ _ => true
  | _ => false

/-- The elements of the text after `=`: the pieces between the commas, as the
loop "Parse the values" cuts them. -/
def value_elems : List Char → List (List Char)
  | [] => [[]]
  | x :: xs =>
    if x = ',' then [] :: value_elems xs
    else
      match value_elems xs with
      | [] => [[x]]
      | e :: es => (x :: e) :: es

/-! ## Concrete operations and devices used below -/

/-- The operation of the token `COMMAND=0100:0100`. -/
def command_op : op :=
  { cap_type := 0, cap_id := 0, name := some "COMMAND", hdr_type_mask := 0, addr := 4,
    width := 2, number := 0, values := [⟨0x100, 0x100⟩] }

/-- A device without capabilities whose word at 0x04 reads 0x0006. -/
def command_dev : pci_dev :=
  { caps := [], cfg := fun p => if p = 4 then 6 else 0 }

/-- The operation of the token `ECAP_VNDR+8.L=0,0,0`. -/
def vndr_op : op :=
  { cap_type := 2, cap_id := 0xb, name := some "ECAP_VNDR", hdr_type_mask := 0, addr := 8,
    width := 4, number := 0,
    values := [⟨0, 0xffffffff⟩, ⟨0, 0xffffffff⟩, ⟨0, 0xffffffff⟩] }

/-- A device whose vendor-specific extended capability sits at 0xff0, the last
16 bytes of the configuration space. -/
def vndr_dev : pci_dev :=
  { caps := [⟨0xb, 2, 0xff0⟩], cfg := fun _ => 0 }

/-- The operation of the token `CAP_PM+4.B@1`. -/
def pm_op : op :=
  { cap_type := 1, cap_id := 1, name := some "CAP_PM", hdr_type_mask := 0, addr := 4,
    width := 1, number := 1, values := [] }

/-- A device with two Power-Management capabilities, at 0x40 and at 0x50, and
an MSI capability between them. -/
def pm_dev : pci_dev :=
  { caps := [⟨1, 1, 0x40⟩, ⟨5, 1, 0x48⟩, ⟨1, 1, 0x50⟩],
    cfg := fun p => if p = 0x54 then 0xab else 0 }

/-- The operation of the token `BASE_ADDRESS_2`. -/
def bar2_op : op :=
  { cap_type := 0, cap_id := 0, name := some "BASE_ADDRESS_2", hdr_type_mask := 1, addr := 0x18,
    width := 4, number := 0, values := [] }

/-- A multi-function bridge: the header-type register reads 0x81. -/
def bridge_dev : pci_dev :=
  { caps := [], cfg := fun p => if p = 0x0e then 0x81 else 0 }

/-! ## Numbers as `parse_x32` reads them, and as `printf` writes them -/

/-- The number that `parse_x32` reads from a text it reads completely (return
value 1: a full, or complete, hexadecimal number), `none` for any other text. -/
def complete_x32 (s : List Char) : Option Nat :=
  if (parse_x32 s).ret > 0 then (parse_x32 s).res else none

/-- Whether `strtoul` can take the character into a number it reads: white
space, a sign, the `x` of `0x`, or a hexadecimal digit. -/
def numeric_char (c : Char) : Bool :=
  isspace c || c.toNat == 45 || c.toNat == 43 || c.toNat == 120 || c.toNat == 88
    || (hex_digit c).isSome

/-- The codes, after `tolower`, of the characters that `numeric_char` admits. -/
def numeric_code (n : Nat) : Bool :=
  n == 32 || (9 ≤ n && n ≤ 13) || n == 45 || n == 43 || n == 120 || (48 ≤ n && n ≤ 57)
    || (97 ≤ n && n ≤ 102)

/-- The lower-case hexadecimal digit of a value below 16. -/
def hex_char (d : Nat) : Char :=
  if d < 10 then Char.ofNat (48 + d) else Char.ofNat (87 + d)

/-- The `k` low-order hexadecimal digits of `x`, most significant first. -/
def hex_fixed : Nat → Nat → List Char
  | 0, _ => []
  | k + 1, x => hex_fixed k (x / 16) ++ [hex_char (x % 16)]

/-- Drop up to `n` leading zero digits. -/
def strip_zeros : Nat → List Char → List Char
  | 0, s => s
  | _ + 1, [] => []
  | n + 1, c :: s => if c = '0' then strip_zeros n s else c :: s

/-- The conversion `%0Nx` of `printf` applied to an `unsigned int`: the
hexadecimal digits of `x`, padded with zeros to at least `minw` digits
(`minw` between 1 and 8). -/
def printf_x (minw : Nat) (x : Nat) : List Char :=
  strip_zeros (8 - minw) (hex_fixed 8 (x % 2 ^ 32))

/-- The array `formats[]` of `exec_op` after the leading blank (`formats[width]+1`):
the `N` of `%0Nx`; `none` is the NULL entry (an index outside the array reads
as NULL in the model). -/
def formats (width : Int) : Option Nat :=
  if width = 1 then some 2 else if width = 2 then some 4 else if width = 4 then some 8 else none

/-- The text that `printf (formats[width]+1, x); putchar ('\n')` writes for a
read, the text of the event `print width x`. -/
def print_text (width : Int) (x : Nat) : Option (List Char) :=
  (formats width).map (fun m => printf_x m x ++ ['\n'])

/-! ## Groups and the command line -/

/-- The C `struct group` (without the list links).  The filter is kept as the
list of the filter options applied to it, in order: the letter (`s` or `d`) and
the text handed to the access library. -/
structure group where
  filter : List (Char × List Char)
  ops : List op
deriving DecidableEq

/-- The messages of `parse_err` that `parse_ops` and `parse_filter` can raise,
and the errors of `parse_op`. -/
inductive ops_error where
  /-- Message `Invalid option -%c` -/
  | invalid_option
  /-- Message `Option -%c requires an argument` -/
  | requires_argument
  /-- Message `Unable to parse filter -s %s` or `-d %s` -/
  | unable_to_parse_filter
  /-- Message `Filter specification expected` -/
  | filter_expected
  /-- Message `No operation specified` -/
  | no_operation
  /-- An error of `parse_op` -/
  | in_op (e : parse_error)
deriving DecidableEq

/-- The function `new_group`: a group with the initial filter and no operation. -/
def new_group : group :=
  { filter := [], ops := [] }

/-- The function `parse_filter` for the argument `c` (which starts with `-`),
`rest` being the arguments after it.  `filter_ok k d` says whether the access
library (`pci_filter_parse_slot` for `s`, `pci_filter_parse_id` for `d`, not
part of the sources) accepts the text `d`.  The result is the group with the
filter applied and whether the next argument was used as the text. -/
def parse_filter (filter_ok : Char → List Char → Bool) (c : List Char)
    (rest : List (List Char)) (g : group) : Except ops_error (group × Bool) :=
  match c with
  | _ :: k :: t =>
    if k ≠ 's' ∧ k ≠ 'd' then .error .invalid_option
    else
      match t with
      | t0 :: ts =>
        if filter_ok k (if t0 = '=' then ts else t0 :: ts) then
          .ok ({ g with filter := g.filter ++ [(k, if t0 = '=' then ts else t0 :: ts)] }, false)
        else .error .unable_to_parse_filter
      | [] =>
        match rest with
        | d :: _ =>
          if filter_ok k d then .ok ({ g with filter := g.filter ++ [(k, d)] }, true)
          else .error .unable_to_parse_filter
        | [] => .error .requires_argument
  | _ => .error .invalid_option

/-- The loop of `parse_ops` over the arguments that are left: `done` are the
groups before the current one, `cur` is the current group (`none` is the NULL
pointer).  The result is the list of groups from `first_group` on. -/
def parse_ops_loop (filter_ok : Char → List Char → Bool) :
    List (List Char) → List group → Option group → Except ops_error (List group)
  | [], _, none => .error .no_operation
  | [], done, some g => .ok (done ++ [g])
  | c :: rest, done, cur =>
    if c.head? = some '-' then
      match parse_filter filter_ok c rest
          (match cur with
           | none => new_group
           | some g => if g.ops ≠ [] then new_group else g) with
      | .error e => .error e
      | .ok (g2, used) =>
        if used then
          match rest with
          | [] => .error .requires_argument
          | _ :: rest2 =>
            parse_ops_loop filter_ok rest2
              (match cur with
               | none => done
               | some g => if g.ops ≠ [] then done ++ [g] else done) (some g2)
        else
          parse_ops_loop filter_ok rest
            (match cur with
             | none => done
             | some g => if g.ops ≠ [] then done ++ [g] else done) (some g2)
    else
      match cur with
      | none => .error .filter_expected
      | some g =>
        match parse_op c with
        | .error e => .error (.in_op e)
        | .ok o => parse_ops_loop filter_ok rest done (some { g with ops := g.ops ++ [o] })

/-- The function `parse_ops` on the arguments `argv[i]`, ..., `argv[argc-1]`. -/
def parse_ops (filter_ok : Char → List Char → Bool) (args : List (List Char)) :
    Except ops_error (List group) :=
  parse_ops_loop filter_ok args [] none

/-- Modelled from the spec: the filter parsers of the access library
(`pci_filter_parse_slot` and `pci_filter_parse_id`, which are not part of the
sources).  The filter of a group is opaque, and this library accepts every
filter text. -/
def any_filter : Char → List Char → Bool :=
  fun _ _ => true

/-! ## Further concrete operations and devices -/

/-- The operation of the token `40.W=1,2:ff,3`. -/
def words_op : op :=
  { cap_type := 0, cap_id := 0, name := none, hdr_type_mask := 0, addr := 0x40,
    width := 2, number := 0, values := [⟨1, 0xffffffff⟩, ⟨2, 0xff⟩, ⟨3, 0xffffffff⟩] }

/-- A device without capabilities whose word at 0x42 reads 0x1200. -/
def words_dev : pci_dev :=
  { caps := [], cfg := fun p => if p = 0x43 then 0x12 else 0 }

/-! ## Numbers in the words of the specification

These definitions follow the wording, not the source: they are written without
`strtoul` and `parse_x32`, to compare with what the parser accepts. -/

/-- A hexadecimal number in the plain sense: a non-empty string of hexadecimal
digits. -/
def spec_hex_number (s : List Char) : Bool :=
  !s.isEmpty && s.all (fun c => (hex_digit c).isSome)

/-- The value of a string of hexadecimal digits, most significant digit first. -/
def spec_hex_value (s : List Char) : Nat :=
  s.foldl (fun a c => a * 16 + (hex_digit c).getD 0) 0

/-- A hexadecimal number in the wide sense, and its value: the text is any
white space, then an optional sign `+` or `-`, then an optional `0x` or `0X`,
then a plain hexadecimal number that runs to the end of the text; the value of
the digits is below `2 ^ 64`; after a minus sign it is negated modulo `2 ^ 64`;
and the result is below `2 ^ 32`.  Every other text is no number. -/
def spec_wide_hex_number (s : List Char) : Option Nat :=
  let t := s.dropWhile isspace
  let u := if t.head? = some '-' ∨ t.head? = some '+' then t.tail else t
  let d := if u.take 2 = ['0', 'x'] ∨ u.take 2 = ['0', 'X'] then u.drop 2 else u
  let v := if t.head? = some '-' then (2 ^ 64 - spec_hex_value d) % 2 ^ 64 else spec_hex_value d
  if spec_hex_number d = true ∧ spec_hex_value d < 2 ^ 64 ∧ v < 2 ^ 32 then some v else none

/-! ## Lemmas on `exec_op` -/

theorem exec_values_nil (demo : Bool) (w : Int) (s : exec_state) :
    exec_values demo w s [] = s := rfl

theorem exec_values_cons (demo : Bool) (w : Int) (s : exec_state) (v : value) (vs : List value) :
    exec_values demo w s (v :: vs) = exec_values demo w (exec_value demo w s v) vs := rfl

theorem exec_values_append (demo : Bool) (w : Int) (s : exec_state) (a b : List value) :
    exec_values demo w s (a ++ b) = exec_values demo w (exec_values demo w s a) b := by
  simp [exec_values, List.foldl_append]

theorem exec_values_addr (demo : Bool) (w : Int) (vs : List value) :
    ∀ s : exec_state, (exec_values demo w s vs).addr = s.addr + (vs.length : Int) * w := by
  induction vs with
  | nil => intro s; simp [exec_values_nil]
  | cons v vs ih =>
    intro s
    rw [exec_values_cons, ih]
    simp only [exec_value, List.length_cons]
    push_cast
    ring

theorem exec_values_log_prefix (demo : Bool) (w : Int) (vs : List value) :
    ∀ s : exec_state, ∃ rest, (exec_values demo w s vs).log = s.log ++ rest := by
  induction vs with
  | nil => intro s; exact ⟨[], by simp [exec_values_nil]⟩
  | cons v vs ih =>
    intro s
    obtain ⟨r, hr⟩ := ih (exec_value demo w s v)
    rw [exec_values_cons, hr]
    simp only [exec_value, List.append_assoc]
    exact ⟨_, rfl⟩

theorem exec_op_err_none (demo : Bool) (o : op) (dev : pci_dev) :
    (exec_op demo o dev).err = none ↔
      (∃ a, exec_op_addr o dev = .ok a) ∧ (exec_op_hdr o dev).2 = none := by
  unfold exec_op
  cases h1 : exec_op_addr o dev with
  | error e => simp
  | ok a =>
    cases h2 : (exec_op_hdr o dev).2 with
    | some e => simp
    | none =>
      by_cases h3 : o.num_values ≠ 0 <;> simp [h3]

theorem exec_op_log_values (demo : Bool) (o : op) (dev : pci_dev) (addr : Int)
    (haddr : exec_op_addr o dev = .ok addr) (hhdr : (exec_op_hdr o dev).2 = none)
    (hn : o.values ≠ []) :
    (exec_op demo o dev).log =
      (exec_values demo (to_int o.width) ⟨dev, addr, (exec_op_hdr o dev).1⟩ o.values).log := by
  have h3 : o.num_values ≠ 0 := by
    simpa [op.num_values] using hn
  simp [exec_op, haddr, hhdr, h3]

theorem width_cases (w : Nat) (hw : w = 1 ∨ w = 2 ∨ w = 4) :
    to_int w = (w : Int) ∧ (to_int w).toNat = w ∧ switch_len (to_int w) = w := by
  rcases hw with h | h | h <;> subst h <;> decide

theorem testBit_not32 (m j : Nat) (hj : j < 32) : (not32 m).testBit j = !m.testBit j := by
  unfold not32
  rw [Nat.testBit_xor, Nat.testBit_mod_two_pow]
  have h : (0xffffffff : Nat) = 2 ^ 32 - 1 := by norm_num
  rw [h, Nat.testBit_two_pow_sub_one]
  simp [hj]

theorem exec_values_access (demo : Bool) (w : Int) (vs : List value) :
    ∀ (s : exec_state) (e : event), e ∈ (exec_values demo w s vs).log →
      e ∈ s.log ∨ e.access = none ∨
        ∃ i : Nat, i < vs.length ∧ e.access = some (s.addr + (i : Int) * w, switch_len w) := by
  induction vs with
  | nil => intro s e h; exact Or.inl h
  | cons v vs ih =>
    intro s e h
    rw [exec_values_cons] at h
    rcases ih _ e h with h1 | h1 | ⟨i, hi, h1⟩
    · simp only [exec_value, List.mem_append] at h1
      rcases h1 with (h1 | h1) | h1
      · exact Or.inl h1
      · right
        split at h1
        · simp at h1; subst h1; left; rfl
        · simp at h1
          rcases h1 with h1 | h1
          · subst h1; right; exact ⟨0, by simp, by simp [event.access]⟩
          · subst h1; left; rfl
      · right
        cases demo
        · simp at h1; subst h1; right; exact ⟨0, by simp, by simp [event.access]⟩
        · simp at h1
    · exact Or.inr (Or.inl h1)
    · right; right
      refine ⟨i + 1, by simp; omega, ?_⟩
      rw [h1]
      simp only [exec_value]
      congr 2
      push_cast
      ring

theorem to_uint_and_width (w : Nat) (a : Int) (hw : w = 1 ∨ w = 2 ∨ w = 4) :
    to_uint a &&& to_uint (to_int w - 1) = 0 ↔ (w : Int) ∣ a := by
  rcases hw with h | h | h <;> subst h
  · have h1 : to_uint (to_int 1 - 1) = 0 := by decide
    rw [h1]; simp
  · have h1 : to_uint (to_int 2 - 1) = 2 ^ 1 - 1 := by decide
    rw [h1, Nat.and_pow_two_sub_one_eq_mod]
    unfold to_uint
    omega
  · have h1 : to_uint (to_int 4 - 1) = 2 ^ 2 - 1 := by decide
    rw [h1, Nat.and_pow_two_sub_one_eq_mod]
    unfold to_uint
    omega

theorem to_int_add_dvd (w : Nat) (b : Int) (a : Nat) (hw : w = 1 ∨ w = 2 ∨ w = 4) :
    (w : Int) ∣ to_int (to_uint b + a) ↔ (w : Int) ∣ b + a := by
  unfold to_int to_uint
  rcases hw with h | h | h <;> subst h <;> split <;> omega

theorem exec_op_addr_error (demo : Bool) (o : op) (dev : pci_dev) (e : exec_error)
    (h : exec_op_addr o dev = .error e) :
    (exec_op demo o dev).err = some e ∧ (exec_op demo o dev).log = [] := by
  simp [exec_op, h]

theorem exec_op_addr_ok_err (demo : Bool) (o : op) (dev : pci_dev) (a : Int)
    (h : exec_op_addr o dev = .ok a) :
    (exec_op demo o dev).err = (exec_op_hdr o dev).2 := by
  unfold exec_op
  rw [h]
  cases h2 : (exec_op_hdr o dev).2 with
  | some e => simp
  | none => by_cases h3 : o.num_values ≠ 0 <;> simp [h3]

theorem exec_op_addr_of_cap (o : op) (dev : pci_dev) (base : Int)
    (h : exec_op_cap o dev = .ok base) :
    exec_op_addr o dev =
      if to_uint (to_int (to_uint base + o.addr)) &&& to_uint (to_int o.width - 1) ≠ 0 then
        .error (.unaligned (to_int o.width) (to_int (to_uint base + o.addr)))
      else if to_int (to_uint base + o.addr) + to_int o.width > 0x1000 then
        .error (.out_of_range (to_int o.width) (to_int (to_uint base + o.addr)))
      else .ok (to_int (to_uint base + o.addr)) := by
  simp [exec_op_addr, h]

theorem exec_op_cap_error (o : op) (dev : pci_dev) (e : exec_error)
    (h : exec_op_cap o dev = .error e) :
    exec_op_addr o dev = .error e ∧ (∀ w a, e ≠ .unaligned w a) ∧ (∀ w a, e ≠ .out_of_range w a)
      ∧ ∀ n, e ≠ .no_register n := by
  refine ⟨by simp [exec_op_addr, h], ?_⟩
  unfold exec_op_cap at h
  split at h
  · split at h
    · simp at h
    · split at h <;> simp at h <;> subst h <;> simp
  · simp at h

theorem exec_op_addr_ok (o : op) (dev : pci_dev) (a : Int) (h : exec_op_addr o dev = .ok a) :
    ∃ base, exec_op_cap o dev = .ok base ∧ a = to_int (to_uint base + o.addr)
      ∧ to_uint a &&& to_uint (to_int o.width - 1) = 0 ∧ a + to_int o.width ≤ 0x1000 := by
  cases hc : exec_op_cap o dev with
  | error e => simp [exec_op_addr, hc] at h
  | ok base =>
    rw [exec_op_addr_of_cap o dev base hc] at h
    split at h
    · simp at h
    · split at h
      · simp at h
      · rename_i h1 h2
        simp only [Except.ok.injEq] at h
        subst h
        refine ⟨base, rfl, rfl, ?_, ?_⟩
        · simpa using h1
        · omega

theorem exec_op_hdr_err (o : op) (dev : pci_dev) :
    (exec_op_hdr o dev).2 = none ∨ (exec_op_hdr o dev).2 = some (.no_register o.name) := by
  unfold exec_op_hdr
  split
  · split <;> simp
  · simp

theorem exec_op_log_read (demo : Bool) (o : op) (dev : pci_dev) (addr : Int)
    (haddr : exec_op_addr o dev = .ok addr) (hhdr : (exec_op_hdr o dev).2 = none)
    (hn : o.values = []) :
    (exec_op demo o dev).log = (exec_op_hdr o dev).1 ++
      [event.read addr (switch_len (to_int o.width)) (read_switch dev (to_int o.width) addr),
       event.print (to_int o.width) (read_switch dev (to_int o.width) addr)] := by
  have h3 : ¬ (o.num_values ≠ 0) := by
    simp [op.num_values, hn]
  simp only [exec_op, haddr, hhdr, if_neg h3]

theorem to_int_to_uint_add (n a : Nat) : to_int (to_uint (to_int n) + a) = to_int (n + a) := by
  unfold to_int to_uint
  split_ifs <;> omega

theorem one_shiftLeft_and_eq_zero (t m : Nat) : (1 <<< t) &&& m = 0 ↔ m.testBit t = false := by
  rw [Nat.one_shiftLeft, Nat.and_comm, Nat.and_two_pow]
  cases m.testBit t <;> simp

theorem read_switch_congr (d1 d2 : pci_dev) (w a : Int)
    (h : ∀ p, a ≤ p → d1.cfg p = d2.cfg p) : read_switch d1 w a = read_switch d2 w a := by
  simp only [read_switch, pci_read_long, pci_read_word, pci_read_byte]
  rw [h a (le_refl a), h (a + 1) (by omega), h (a + 2) (by omega), h (a + 2 + 1) (by omega)]

theorem write_switch_cfg (d : pci_dev) (w : Nat) (hw : w = 1 ∨ w = 2 ∨ w = 4) (a : Int) (x : Nat)
    (p : Int) (hp : a + w ≤ p) : (write_switch d w a x).cfg p = d.cfg p := by
  rcases hw with h | h | h <;> subst h <;>
    simp only [write_switch, pci_write_long, pci_write_word, pci_write_byte] <;>
    norm_num <;> (try split_ifs) <;> first | rfl | omega

theorem exec_values_demo_dev (w : Int) (vs : List value) :
    ∀ s : exec_state, (exec_values true w s vs).dev = s.dev := by
  induction vs with
  | nil => intro s; rfl
  | cons v vs ih => intro s; rw [exec_values_cons, ih]; simp [exec_value]

theorem exec_values_demo_sim (w : Nat) (hw : w = 1 ∨ w = 2 ∨ w = 4) (vs : List value) :
    ∀ sd sn : exec_state, sd.addr = sn.addr →
      (∀ p, sn.addr ≤ p → sd.dev.cfg p = sn.dev.cfg p) →
      sd.log = sn.log.filter (fun e => !e.writes) →
      (exec_values true w sd vs).log =
        (exec_values false w sn vs).log.filter (fun e => !e.writes) := by
  induction vs with
  | nil => intro sd sn _ _ hl; simpa [exec_values_nil] using hl
  | cons v vs ih =>
    intro sd sn ha hc hl
    rw [exec_values_cons, exec_values_cons]
    have hr : read_switch sd.dev w sn.addr = read_switch sn.dev w sn.addr :=
      read_switch_congr _ _ _ _ hc
    have hx : exec_x w sd v = exec_x w sn v := by
      simp only [exec_x, ha, hr]
    apply ih
    · simp [exec_value, ha]
    · intro p hp
      simp only [exec_value] at hp ⊢
      simp only [Bool.false_eq_true, if_false, if_true]
      rw [write_switch_cfg _ w hw _ _ p hp]
      exact hc p (by omega)
    · simp only [exec_value, hl, hx, ha, hr, List.filter_append]
      split <;> simp [event.writes]

theorem exec_values_writes (w : Int) (vs : List value) :
    ∀ s : exec_state, ∃ L : List event,
      (exec_values false w s vs).log.filter (fun e => e.writes) =
        s.log.filter (fun e => e.writes) ++ L ∧
      L.length = vs.length ∧
      ∀ (i : Nat) (v : value), vs[i]? = some v →
        L[i]? = some (event.write (s.addr + (i : Int) * w) (switch_len w)
          (exec_x w (exec_values false w s (vs.take i)) v)) := by
  induction vs with
  | nil => intro s; exact ⟨[], by simp [exec_values_nil], rfl, by simp⟩
  | cons v vs ih =>
    intro s
    obtain ⟨L, hL, hlen, hget⟩ := ih (exec_value false w s v)
    refine ⟨event.write s.addr (switch_len w) (exec_x w s v) :: L, ?_, by simp [hlen], ?_⟩
    · rw [exec_values_cons, hL]
      simp only [exec_value, List.filter_append, Bool.false_eq_true, if_false]
      split <;> simp [event.writes]
    · intro i u hu
      cases i with
      | zero =>
        simp only [List.getElem?_cons_zero, Option.some.injEq] at hu
        subst hu
        simp [exec_values_nil]
      | succ i =>
        simp only [List.getElem?_cons_succ] at hu ⊢
        rw [hget i u hu, List.take_succ_cons, exec_values_cons]
        simp only [exec_value]
        congr 2
        push_cast
        ring

theorem exec_op_hdr_no_write (o : op) (dev : pci_dev) :
    (exec_op_hdr o dev).1.filter (fun e => e.writes) = [] := by
  unfold exec_op_hdr
  split
  · split <;> simp [event.writes]
  · simp

theorem read_switch_lt (d : pci_dev) (w : Nat) (hw : w = 1 ∨ w = 2 ∨ w = 4) (a : Int) :
    read_switch d w a < 16 ^ (2 * w) := by
  rcases hw with h | h | h <;> subst h <;>
    simp only [read_switch, pci_read_long, pci_read_word, pci_read_byte] <;>
    norm_num <;> omega

theorem hex_digit_hex_char (d : Nat) (h : d < 16) : hex_digit (hex_char d) = some d := by
  interval_cases d <;> decide

theorem hex_fixed_length (k : Nat) : ∀ x, (hex_fixed k x).length = k := by
  induction k with
  | zero => intro x; rfl
  | succ k ih => intro x; simp [hex_fixed, ih]

theorem hex_fixed_digits (k : Nat) : ∀ x, ∀ c ∈ hex_fixed k x, (hex_digit c).isSome = true := by
  induction k with
  | zero => intro x c hc; simp [hex_fixed] at hc
  | succ k ih =>
    intro x c hc
    simp only [hex_fixed, List.mem_append, List.mem_singleton] at hc
    rcases hc with hc | hc
    · exact ih _ c hc
    · subst hc
      rw [hex_digit_hex_char _ (Nat.mod_lt _ (by norm_num))]
      rfl

theorem read_hex_append (s t : List Char) : ∀ acc, (∀ c ∈ s, (hex_digit c).isSome = true) →
    read_hex acc (s ++ t) =
      ((read_hex (read_hex acc s).1 t).1, s.length + (read_hex (read_hex acc s).1 t).2.1,
       (read_hex (read_hex acc s).1 t).2.2) := by
  induction s with
  | nil => intro acc _; simp [read_hex]
  | cons a s ih =>
    intro acc h
    have ha := h a (List.mem_cons_self _ _)
    cases hd : hex_digit a with
    | none => rw [hd] at ha; simp at ha
    | some d =>
      have h2 := ih (acc * 16 + d) (fun c hc => h c (List.mem_cons_of_mem _ hc))
      rw [List.cons_append]
      simp only [read_hex, hd, h2, List.length_cons]
      simp only [Prod.mk.injEq, true_and, and_true]
      omega

/-- The digits that `hex_fixed` writes read back as the number. -/
theorem read_hex_hex_fixed (k : Nat) : ∀ acc x,
    read_hex acc (hex_fixed k x) = (acc * 16 ^ k + x % 16 ^ k, k, []) := by
  induction k with
  | zero => intro acc x; simp [hex_fixed, read_hex, Nat.mod_one]
  | succ k ih =>
    intro acc x
    simp only [hex_fixed]
    rw [read_hex_append _ _ _ (hex_fixed_digits k _), ih, hex_fixed_length]
    simp only [read_hex, hex_digit_hex_char _ (Nat.mod_lt x (show 16 > 0 by norm_num))]
    simp only [Prod.mk.injEq, and_true, zero_add, true_and]
    rw [pow_succ', Nat.mod_mul]
    ring

theorem hex_fixed_add (m : Nat) : ∀ j x,
    hex_fixed (j + m) x = hex_fixed j (x / 16 ^ m) ++ hex_fixed m x := by
  induction m with
  | zero => intro j x; simp [hex_fixed]
  | succ m ih =>
    intro j x
    have h1 : j + (m + 1) = (j + m) + 1 := by omega
    rw [h1]
    simp only [hex_fixed]
    rw [ih, Nat.div_div_eq_div_mul, pow_succ, List.append_assoc, Nat.mul_comm]

theorem hex_fixed_zero (j : Nat) : hex_fixed j 0 = List.replicate j '0' := by
  induction j with
  | zero => rfl
  | succ j ih =>
    simp only [hex_fixed, Nat.zero_div, ih, Nat.zero_mod]
    rw [List.replicate_succ']
    rfl

theorem strip_zeros_replicate (j : Nat) (s : List Char) :
    strip_zeros j (List.replicate j '0' ++ s) = s := by
  induction j with
  | zero => rfl
  | succ j ih =>
    rw [List.replicate_succ, List.cons_append]
    simp only [strip_zeros, if_true]
    exact ih

/-- The conversion `%0Nx` of a value that fits `N` digits writes exactly `N`
digits. -/
theorem printf_x_fits (m : Nat) (hm : m ≤ 8) (x : Nat) (hx : x < 16 ^ m) :
    printf_x m x = hex_fixed m x := by
  have h32 : x < 2 ^ 32 := by
    have h1 : (16 : Nat) ^ m ≤ 16 ^ 8 := Nat.pow_le_pow_right (by norm_num) hm
    have h2 : (16 : Nat) ^ 8 = 2 ^ 32 := by norm_num
    omega
  unfold printf_x
  rw [Nat.mod_eq_of_lt h32]
  have h8 : 8 = (8 - m) + m := by omega
  conv_lhs => rw [h8]
  rw [hex_fixed_add, Nat.div_eq_of_lt hx, hex_fixed_zero]
  have h9 : 8 - m + m - m = 8 - m := by omega
  rw [h9, strip_zeros_replicate]

/-! ## Lemmas on the parser -/

theorem parse_x32_res_lt (c : List Char) : (parse_x32 c).res.getD 0 < 2 ^ 32 := by
  unfold parse_x32
  split_ifs with h1 h2 h3 h4
  · simp
  · simp
  · simp
  · simp only [Option.getD_some]
    have := Nat.mod_lt (strtoul c).val (show 2 ^ 32 > 0 by norm_num)
    omega
  · simp only [Option.getD_some]
    have := Nat.mod_lt (strtoul c).val (show 2 ^ 32 > 0 by norm_num)
    omega

theorem skip_space_subset (s : List Char) : ∀ x ∈ skip_space s, x ∈ s := by
  induction s with
  | nil => intro x hx; simp [skip_space] at hx
  | cons a s ih =>
    intro x hx
    unfold skip_space at hx
    split at hx
    · exact List.mem_cons_of_mem _ (ih x hx)
    · exact hx

theorem strip_sign_subset (s : List Char) : ∀ x ∈ (strip_sign s).2, x ∈ s := by
  intro x hx
  cases s with
  | nil => simp [strip_sign] at hx
  | cons a s =>
    simp only [strip_sign] at hx
    split_ifs at hx
    · exact List.mem_cons_of_mem _ hx
    · exact List.mem_cons_of_mem _ hx
    · exact hx

theorem strip_0x_subset (s : List Char) : ∀ x ∈ strip_0x s, x ∈ s := by
  intro x hx
  unfold strip_0x at hx
  split at hx
  · exact hx
  · exact hx
  · exact hx
  · split_ifs at hx
    · exact List.mem_cons_of_mem _ (List.mem_cons_of_mem _ hx)
    · exact hx

theorem read_hex_subset (s : List Char) : ∀ (acc : Nat), ∀ x ∈ (read_hex acc s).2.2, x ∈ s := by
  induction s with
  | nil => intro acc x hx; simp [read_hex] at hx
  | cons a s ih =>
    intro acc x hx
    unfold read_hex at hx
    split at hx
    · exact List.mem_cons_of_mem _ (ih _ x hx)
    · exact hx

theorem strtoul_stop_subset (c : List Char) : ∀ x ∈ (strtoul c).stop, x ∈ c := by
  intro x hx
  have hsub : ∀ y ∈ (read_hex 0 (strip_0x (strip_sign (skip_space c)).2)).2.2, y ∈ c := by
    intro y hy
    exact skip_space_subset _ _ (strip_sign_subset _ _ (strip_0x_subset _ _
      (read_hex_subset _ _ _ hy)))
  unfold strtoul at hx
  simp only at hx
  split_ifs at hx
  all_goals first | exact hx | exact hsub x hx

theorem parse_x32_stop_subset (c s : List Char) (h : (parse_x32 c).stop = some s) :
    ∀ x ∈ s, x ∈ c := by
  unfold parse_x32 at h
  split_ifs at h
  simp at h
  subst h
  exact strtoul_stop_subset c

/-- What an accepted value element looks like. -/
theorem parse_value_ok (w : Nat) (e : List Char) (v : value) (h : parse_value w e = .ok v) :
    v.value &&& v.mask = v.value ∧ (':' ∉ e → v.mask = 0xffffffff) ∧
      v.value < 2 ^ 32 ∧ v.mask < 2 ^ 32 := by
  unfold parse_value at h
  by_cases h0 : (parse_x32 e).ret < 0
  · rw [if_pos h0] at h
    simp at h
  rw [if_neg h0] at h
  split at h
  · rename_i f m hstop
    split_ifs at h with h1
    simp only [Except.ok.injEq] at h
    subst h
    have hf : f = ':' := by simpa using h1
    have hmem : ':' ∈ e := parse_x32_stop_subset e (f :: m) hstop ':' (by simp [hf])
    have hm := parse_x32_res_lt m
    refine ⟨?_, fun hn => absurd hmem hn, ?_, hm⟩
    · simp only [Nat.and_assoc, Nat.and_self]
    · exact lt_of_le_of_lt Nat.and_le_right hm
  · split_ifs at h
    simp only [Except.ok.injEq] at h
    subst h
    have hv := parse_x32_res_lt e
    refine ⟨?_, fun _ => rfl, hv, by norm_num⟩
    have h2 : (0xffffffff : Nat) = 2 ^ 32 - 1 := by norm_num
    simp only [h2, Nat.and_pow_two_sub_one_eq_mod]
    exact Nat.mod_eq_of_lt hv

theorem parse_values_ok (w : Nat) : ∀ (n : Nat) (s : Option (List Char)) (vs : List value),
    parse_values w n s = .ok vs →
      vs.length = n ∧ ∀ v ∈ vs, ∃ e, parse_value w e = .ok v := by
  intro n
  induction n with
  | zero =>
    intro s vs h
    simp only [parse_values, Except.ok.injEq] at h
    subst h
    simp
  | succ n ih =>
    intro s vs h
    cases s with
    | none => simp [parse_values] at h
    | some text =>
      unfold parse_values at h
      split at h
      · simp at h
      · rename_i v hv
        split at h
        · simp at h
        · rename_i vs2 hvs
          simp only [Except.ok.injEq] at h
          subst h
          obtain ⟨hl, hall⟩ := ih _ _ hvs
          refine ⟨by simp [hl], ?_⟩
          intro x hx
          rcases List.mem_cons.1 hx with hx | hx
          · exact ⟨_, hx ▸ hv⟩
          · exact hall x hx

theorem parse_width_ok (s : Option (List Char)) (w : Nat) (h : parse_width s = .ok w) :
    w = 0 ∨ w = 1 ∨ w = 2 ∨ w = 4 := by
  unfold parse_width at h
  split at h
  · simp at h; omega
  · simp at h
  · split_ifs at h <;> simp at h <;> omega
  · simp at h

set_option maxRecDepth 100000 in
theorem pci_reg_names_width : ∀ r ∈ pci_reg_names, r.width = 0 ∨ r.width = 1 ∨ r.width = 2 ∨ r.width = 4 := by
  decide

set_option maxRecDepth 100000 in
theorem pci_reg_names_hdr : ∀ r ∈ pci_reg_names, r.hdr_type_mask ≠ 0 → r.cap = 0 := by
  decide

theorem parse_reg_name_mem (name : List Char) (r : reg_name) (h : parse_reg_name name = some r) :
    r ∈ pci_reg_names :=
  List.mem_of_find?_eq_some h

theorem parse_register_width (o o2 : op) (base : List Char) (h : parse_register o base = .ok o2)
    (hw : o.width = 0 ∨ o.width = 1 ∨ o.width = 2 ∨ o.width = 4) :
    (o2.width = 0 ∨ o2.width = 1 ∨ o2.width = 2 ∨ o2.width = 4) ∧ o2.values = o.values
      ∧ o2.number = o.number := by
  unfold parse_register at h
  simp only at h
  by_cases h1 : (parse_x32 base).ret > 0
  · rw [if_pos h1] at h
    simp only [Except.ok.injEq] at h
    subst h
    exact ⟨hw, rfl, rfl⟩
  · rw [if_neg h1] at h
    split at h
    · rename_i r hr
      have hrw := pci_reg_names_width r (parse_reg_name_mem _ _ hr)
      simp only [Except.ok.injEq] at h
      subst h
      refine ⟨?_, rfl, rfl⟩
      simp only
      split_ifs
      · exact hrw
      · exact hw
    · split_ifs at h
      all_goals
        simp only [Except.ok.injEq] at h
        subst h
        exact ⟨hw, rfl, rfl⟩

theorem add_offset_ok (o o2 : op) (s : Option (List Char)) (h : add_offset o s = .ok o2) :
    o2.width = o.width ∧ o2.values = o.values ∧ o2.number = o.number
      ∧ o2.hdr_type_mask = o.hdr_type_mask ∧ o2.cap_type = o.cap_type := by
  unfold add_offset at h
  split at h
  · simp only [Except.ok.injEq] at h
    subst h
    simp
  · split_ifs at h
    simp only [Except.ok.injEq] at h
    subst h
    simp

theorem strchr_split_length (c : Char) (s : List Char) :
    ∀ b, (strchr_split c s).2 = some b → b.length < s.length := by
  induction s with
  | nil => intro b h; simp [strchr_split] at h
  | cons x xs ih =>
    intro b h
    unfold strchr_split at h
    split_ifs at h
    · simp at h; subst h; simp
    · have := ih b h
      simp only [List.length_cons]
      omega

theorem count_values_ok (s : Option (List Char)) (n : Nat) (h : count_values s = .ok n) :
    (s = none ∧ n = 0) ∨ ∃ text, s = some text ∧ n = 1 + text.count ',' := by
  unfold count_values at h
  split at h
  · simp at h; exact Or.inl ⟨rfl, h.symm⟩
  · simp at h
  · simp only [Except.ok.injEq] at h
    exact Or.inr ⟨_, rfl, h.symm⟩

/-- What the assembled operation of an accepted first part looks like. -/
theorem parse_op_assemble_ok (c : List Char) (a : op_assembled)
    (h : parse_op_assemble c = .ok a) :
    (a.o.width = 1 ∨ a.o.width = 2 ∨ a.o.width = 4) ∧ a.value = (split_op c).value
      ∧ count_values (split_op c).value = .ok a.n ∧ a.n ≤ c.length := by
  unfold parse_op_assemble at h
  split at h
  · simp at h
  · rename_i n hn
    split at h
    · simp at h
    · rename_i w hw
      split at h
      · simp at h
      · rename_i num hnum
        split at h
        · simp at h
        · rename_i o ho
          split_ifs at h with hz
          split at h
          · simp at h
          · rename_i o2 ho2
            simp only [Except.ok.injEq] at h
            subst h
            obtain ⟨hw1, _, _⟩ := parse_register_width _ _ _ ho
              (by simpa using parse_width_ok _ _ hw)
            obtain ⟨hw2, _⟩ := add_offset_ok _ _ _ ho2
            refine ⟨by simp only; omega, rfl, hn, ?_⟩
            simp only
            rcases count_values_ok _ _ hn with ⟨_, h0⟩ | ⟨text, ht, hc⟩
            · omega
            · have h1 : (strchr_split '=' c).2 = some text := by
                simpa [split_op] using ht
              have h2 := strchr_split_length '=' c text h1
              have h3 : text.count ',' ≤ text.length := List.count_le_length _ _
              omega

theorem parse_op_ok (c : List Char) (o : op) (h : parse_op c = .ok o) :
    ∃ a vs, parse_op_assemble c = .ok a ∧ parse_op_check a.o a.n = .ok ()
      ∧ parse_values a.o.width a.n a.value = .ok vs ∧ o = { a.o with values := vs } := by
  unfold parse_op at h
  split at h
  · simp at h
  · rename_i a ha
    split at h
    · simp at h
    · rename_i u hu
      split at h
      · simp at h
      · rename_i vs hvs
        simp only [Except.ok.injEq] at h
        exact ⟨a, vs, ha, hu, hvs, h.symm⟩

theorem width_sub_one (w : Nat) (hw : w = 1 ∨ w = 2 ∨ w = 4) (x : Nat) :
    x &&& ((w + (2 ^ 32 - 1)) % 2 ^ 32) = x % w := by
  rcases hw with h | h | h <;> subst h
  · simp [Nat.mod_one]
  · exact Nat.and_pow_two_sub_one_eq_mod x 1
  · exact Nat.and_pow_two_sub_one_eq_mod x 2

/-- The range and alignment test of `parse_op`, for a count of values that is
small enough for the `unsigned int` arithmetic not to wrap. -/
theorem parse_op_check_ok (o : op) (n : Nat) (hw : o.width = 1 ∨ o.width = 2 ∨ o.width = 4)
    (hn : n < 2 ^ 29) :
    (parse_op_check o n = .ok () ↔
      (o.addr < 0x1000 ∧ o.addr + o.width * max n 1 ≤ 0x1000 ∧ o.addr % o.width = 0)) ∧
    (parse_op_check o n = .ok () ∨ parse_op_check o n = .error .register_out_of_range
      ∨ parse_op_check o n = .error .unaligned_register) := by
  have hmax : (if n ≠ 0 then n else 1) = max n 1 := by
    split_ifs <;> omega
  unfold parse_op_check
  rw [hmax, width_sub_one o.width hw]
  have hprod : o.width * max n 1 ≤ 4 * 2 ^ 29 := by
    have h1 : o.width ≤ 4 := by omega
    have h2 : max n 1 ≤ 2 ^ 29 := by omega
    exact Nat.mul_le_mul h1 h2
  by_cases h1 : o.addr ≥ 0x1000
  · simp [h1]
  · have hlt : o.addr + o.width * max n 1 < 2 ^ 32 := by omega
    rw [Nat.mod_eq_of_lt hlt]
    by_cases h2 : o.addr + o.width * max n 1 > 0x1000
    · simp [h2]
    · by_cases h3 : o.addr % o.width = 0
      · simp [h1, h2, h3]
        omega
      · simp [h1, h2, h3]

theorem value_elems_ne_nil (s : List Char) : value_elems s ≠ [] := by
  cases s with
  | nil => simp [value_elems]
  | cons x xs =>
    simp only [value_elems]
    split_ifs
    · simp
    · split <;> simp

theorem value_elems_split (s : List Char) :
    ((strchr_split ',' s).2 = none → value_elems s = [(strchr_split ',' s).1]) ∧
    (∀ r, (strchr_split ',' s).2 = some r →
      value_elems s = (strchr_split ',' s).1 :: value_elems r) := by
  induction s with
  | nil => simp [value_elems, strchr_split]
  | cons x xs ih =>
    by_cases hx : x = ','
    · simp [value_elems, strchr_split, hx]
    · simp only [value_elems, strchr_split, if_neg hx]
      constructor
      · intro h
        rw [ih.1 h]
      · intro r h
        rw [ih.2 r h]

theorem count_comma_split (s : List Char) :
    ((strchr_split ',' s).2 = none → s.count ',' = 0) ∧
    (∀ r, (strchr_split ',' s).2 = some r → s.count ',' = r.count ',' + 1) := by
  induction s with
  | nil => simp [strchr_split]
  | cons x xs ih =>
    by_cases hx : x = ','
    · simp [strchr_split, hx]
    · have hc : (x :: xs).count ',' = xs.count ',' := by
        rw [List.count_cons]
        simp [hx]
      simp only [strchr_split, if_neg hx, hc]
      exact ih

theorem value_elems_length (s : List Char) : (value_elems s).length = s.count ',' + 1 := by
  induction s with
  | nil => simp [value_elems]
  | cons x xs ih =>
    by_cases hx : x = ','
    · simp [value_elems, hx, ih]
    · have hc : (x :: xs).count ',' = xs.count ',' := by
        rw [List.count_cons]
        simp [hx]
      rw [hc, ← ih]
      simp only [value_elems, if_neg hx]
      split
      · rename_i h; exact absurd h (value_elems_ne_nil xs)
      · rename_i e es h; rw [h]; simp

/-- The values of an accepted list are the results of `parse_value` on the
elements of the text, in order. -/
theorem parse_values_elems (w : Nat) : ∀ (n : Nat) (s : List Char) (vs : List value),
    parse_values w n (some s) = .ok vs → n = s.count ',' + 1 →
      List.Forall₂ (fun e v => parse_value w e = .ok v) (value_elems s) vs := by
  intro n
  induction n with
  | zero => intro s vs _ hn; omega
  | succ n ih =>
    intro s vs h hn
    unfold parse_values at h
    split at h
    · simp at h
    · rename_i v hv
      split at h
      · simp at h
      · rename_i vs2 hvs
        simp only [Except.ok.injEq] at h
        subst h
        cases hr : (strchr_split ',' s).2 with
        | none =>
          rw [(value_elems_split s).1 hr]
          have hcount := (count_comma_split s).1 hr
          rw [hr] at hvs
          have hn0 : n = 0 := by omega
          subst hn0
          simp only [parse_values, Except.ok.injEq] at hvs
          subst hvs
          exact List.Forall₂.cons hv List.Forall₂.nil
        | some r =>
          rw [(value_elems_split s).2 r hr]
          have hcount := (count_comma_split s).2 r hr
          rw [hr] at hvs
          exact List.Forall₂.cons hv (ih r vs2 hvs (by omega))

theorem parse_register_hdr (o o2 : op) (base : List Char) (h : parse_register o base = .ok o2)
    (h0 : o.hdr_type_mask = 0) : o2.hdr_type_mask ≠ 0 → o2.cap_type = 0 := by
  unfold parse_register at h
  simp only at h
  by_cases h1 : (parse_x32 base).ret > 0
  · rw [if_pos h1] at h
    simp only [Except.ok.injEq] at h
    subst h
    intro hm
    exact absurd h0 hm
  · rw [if_neg h1] at h
    split at h
    · rename_i r hr
      have hrc := pci_reg_names_hdr r (parse_reg_name_mem _ _ hr)
      simp only [Except.ok.injEq] at h
      subst h
      intro hm
      have hc : r.cap = 0 := hrc hm
      simp [hc]
    · split_ifs at h
      all_goals
        simp only [Except.ok.injEq] at h
        subst h
        intro hm
        exact absurd h0 hm

theorem parse_op_assemble_hdr (c : List Char) (a : op_assembled)
    (h : parse_op_assemble c = .ok a) : a.o.hdr_type_mask ≠ 0 → a.o.cap_type = 0 := by
  unfold parse_op_assemble at h
  split at h
  · simp at h
  · split at h
    · simp at h
    · split at h
      · simp at h
      · split at h
        · simp at h
        · rename_i o ho
          split_ifs at h with hz
          split at h
          · simp at h
          · rename_i o2 ho2
            simp only [Except.ok.injEq] at h
            subst h
            obtain ⟨_, _, _, hh, hc⟩ := add_offset_ok _ _ _ ho2
            simp only
            rw [hh, hc]
            exact parse_register_hdr _ _ _ ho rfl

theorem parse_op_check_aligned (o : op) (n : Nat) (hw : o.width = 1 ∨ o.width = 2 ∨ o.width = 4)
    (h : parse_op_check o n = .ok ()) : o.addr < 0x1000 ∧ o.addr % o.width = 0 := by
  unfold parse_op_check at h
  rw [width_sub_one o.width hw] at h
  by_cases h1 : o.addr ≥ 0x1000 ∨ (o.addr + o.width * (if n ≠ 0 then n else 1)) % 2 ^ 32 > 0x1000
  · rw [if_pos h1] at h
    simp at h
  · rw [if_neg h1] at h
    by_cases h2 : o.addr % o.width ≠ 0
    · rw [if_pos h2] at h
      simp at h
    · constructor
      · omega
      · simpa using h2

/-- An operation of `parse_op` that carries a header-type mask has no
capability, and on every device `exec_op` reaches the header-type test with
the address `op.addr`. -/
theorem parse_op_reaches_hdr_test (c : List Char) (o : op) (dev : pci_dev)
    (h : parse_op c = .ok o) (hm : o.hdr_type_mask ≠ 0) :
    o.cap_type = 0 ∧ exec_op_addr o dev = .ok (o.addr : Int) := by
  obtain ⟨a, vs, ha, hu, _, ho⟩ := parse_op_ok c o h
  obtain ⟨hw, _⟩ := parse_op_assemble_ok c a ha
  have hcap := parse_op_assemble_hdr c a ha
  obtain ⟨hlt, hal⟩ := parse_op_check_aligned a.o a.n hw hu
  subst ho
  simp only at hm ⊢
  have hc0 : a.o.cap_type = 0 := hcap hm
  refine ⟨hc0, ?_⟩
  have hbase : exec_op_cap { a.o with values := vs } dev = .ok 0 := by
    simp [exec_op_cap, hc0]
  rw [exec_op_addr_of_cap _ dev 0 hbase]
  simp only
  have hadd : to_int (to_uint 0 + a.o.addr) = (a.o.addr : Int) := by
    have h0 : to_uint 0 = 0 := by decide
    rw [h0]
    unfold to_int
    split_ifs <;> omega
  obtain ⟨hwi, _, _⟩ := width_cases a.o.width hw
  rw [hadd]
  have hdvd : (a.o.width : Int) ∣ (a.o.addr : Int) := by
    exact Int.natCast_dvd_natCast.2 (Nat.dvd_of_mod_eq_zero hal)
  have hz : to_uint (a.o.addr : Int) &&& to_uint (to_int a.o.width - 1) = 0 :=
    (to_uint_and_width a.o.width _ hw).2 hdvd
  rw [if_neg (by simpa using hz), hwi]
  have hr : ¬ ((a.o.addr : Int) + (a.o.width : Int) > 0x1000) := by
    rcases hw with h1 | h1 | h1 <;> rw [h1] at hal ⊢ <;> omega
  rw [if_neg hr]

theorem parse_x32_ret_cases (s : List Char) :
    ((parse_x32 s).ret = -1 ∧ (parse_x32 s).stop = none ∧ (parse_x32 s).res = none) ∨
    ((parse_x32 s).ret = 0 ∧ ∃ v, (parse_x32 s).res = some v) ∨
    ((parse_x32 s).ret = 1 ∧ (parse_x32 s).stop = none ∧ ∃ v, (parse_x32 s).res = some v) := by
  unfold parse_x32
  split_ifs <;> simp

theorem complete_x32_eq_some (s : List Char) (n : Nat) :
    complete_x32 s = some n ↔ parse_x32 s = ⟨1, none, some n⟩ := by
  unfold complete_x32
  rcases parse_x32_ret_cases s with ⟨h1, h2, h3⟩ | ⟨h1, v, h3⟩ | ⟨h1, h2, v, h3⟩
  · rw [h1]
    constructor
    · intro h; simp at h
    · intro h; rw [h] at h1; simp at h1
  · rw [h1]
    constructor
    · intro h; simp at h
    · intro h; rw [h] at h1; simp at h1
  · rw [h1, h3]
    simp only [gt_iff_lt, zero_lt_one, if_true, Option.some.injEq]
    constructor
    · intro h
      subst h
      cases hp : parse_x32 s with
      | mk r st re =>
        rw [hp] at h1 h2 h3
        simp only at h1 h2 h3
        rw [h1, h2, h3]
    · intro h
      rw [h] at h3
      simpa using h3.symm

theorem complete_x32_eq_none (s : List Char) :
    complete_x32 s = none ↔ (parse_x32 s).ret ≤ 0 := by
  unfold complete_x32
  rcases parse_x32_ret_cases s with ⟨h1, _, _⟩ | ⟨h1, _, _⟩ | ⟨h1, _, v, h3⟩
  · rw [h1]; simp
  · rw [h1]; simp
  · rw [h1, h3]; simp

theorem complete_x32_lt (s : List Char) (n : Nat) (h : complete_x32 s = some n) : n < 2 ^ 32 := by
  have h1 := parse_x32_res_lt s
  rw [(complete_x32_eq_some s n).1 h] at h1
  simpa using h1

theorem read_hex_nil_all (s : List Char) :
    ∀ acc, (read_hex acc s).2.2 = [] → ∀ c ∈ s, (hex_digit c).isSome = true := by
  induction s with
  | nil => intro acc _ c hc; simp at hc
  | cons a s ih =>
    intro acc h c hc
    simp only [read_hex] at h
    cases hd : hex_digit a with
    | none => rw [hd] at h; simp at h
    | some d =>
      rw [hd] at h
      simp only at h
      rcases List.mem_cons.1 hc with hc | hc
      · subst hc; rw [hd]; rfl
      · exact ih _ h c hc

theorem hex_digit_numeric (c : Char) (h : (hex_digit c).isSome = true) : numeric_char c = true := by
  simp [numeric_char, h]

theorem skip_space_mem (s : List Char) :
    ∀ c ∈ s, c ∈ skip_space s ∨ numeric_char c = true := by
  induction s with
  | nil => intro c hc; simp at hc
  | cons a s ih =>
    intro c hc
    simp only [skip_space]
    by_cases ha : isspace a = true
    · rw [if_pos ha]
      rcases List.mem_cons.1 hc with hc | hc
      · subst hc; right; simp [numeric_char, ha]
      · exact ih c hc
    · rw [if_neg ha]
      exact Or.inl hc

theorem strip_sign_mem (s : List Char) :
    ∀ c ∈ s, c ∈ (strip_sign s).2 ∨ numeric_char c = true := by
  intro c hc
  cases s with
  | nil => simp at hc
  | cons a s =>
    simp only [strip_sign]
    split_ifs with h1 h2
    · rcases List.mem_cons.1 hc with hc | hc
      · right; rw [hc, h1]; decide
      · exact Or.inl hc
    · rcases List.mem_cons.1 hc with hc | hc
      · right; rw [hc, h2]; decide
      · exact Or.inl hc
    · exact Or.inl hc

theorem strip_0x_mem (s : List Char) :
    ∀ c ∈ s, c ∈ strip_0x s ∨ numeric_char c = true := by
  intro c hc
  unfold strip_0x
  split
  · exact Or.inl hc
  · exact Or.inl hc
  · exact Or.inl hc
  · rename_i a b d r
    split_ifs with h
    · simp only [List.mem_cons] at hc ⊢
      rcases hc with hc | hc | hc | hc
      · right; rw [hc, h.1]; decide
      · right
        rcases h.2.1 with hb | hb
        · rw [hc, hb]; decide
        · rw [hc, hb]; decide
      · exact Or.inl (Or.inl hc)
      · exact Or.inl (Or.inr hc)
    · exact Or.inl hc

/-- A text that `parse_x32` reads completely consists of white space, signs,
`x` and hexadecimal digits only. -/
theorem complete_x32_numeric (s : List Char) (n : Nat) (h : complete_x32 s = some n) :
    ∀ c ∈ s, numeric_char c = true := by
  have hp := (complete_x32_eq_some s n).1 h
  have hstop : (strtoul s).stop = [] ∧ s ≠ [] := by
    unfold parse_x32 at hp
    split_ifs at hp with h1 h2 h3 h4
    all_goals simp at hp
    exact ⟨by simpa using h4, h1⟩
  obtain ⟨hst, hne⟩ := hstop
  have hrest : (read_hex 0 (strip_0x (strip_sign (skip_space s)).2)).2.2 = [] := by
    unfold strtoul at hst
    simp only at hst
    split_ifs at hst
    · exact absurd hst hne
    · exact hst
    · exact hst
    · exact hst
  intro c hc
  rcases skip_space_mem s c hc with h1 | h1
  · rcases strip_sign_mem _ c h1 with h2 | h2
    · rcases strip_0x_mem _ c h2 with h3 | h3
      · exact hex_digit_numeric c (read_hex_nil_all _ 0 hrest c h3)
      · exact h3
    · exact h2
  · exact h1

theorem hex_digit_not_space (c : Char) (h : (hex_digit c).isSome = true) : isspace c = false := by
  unfold hex_digit at h
  simp only at h
  unfold isspace
  split_ifs at h with h1 h2 h3
  · simp; omega
  · simp; omega
  · simp; omega
  · simp at h

theorem hex_digit_not_sign (c : Char) (h : (hex_digit c).isSome = true) :
    c ≠ '-' ∧ c ≠ '+' ∧ c ≠ 'x' ∧ c ≠ 'X' := by
  refine ⟨?_, ?_, ?_, ?_⟩ <;> intro hc <;> subst hc <;> revert h <;> decide

theorem read_hex_all (s : List Char) : ∀ acc, (∀ c ∈ s, (hex_digit c).isSome = true) →
    (read_hex acc s).2.1 = s.length ∧ (read_hex acc s).2.2 = [] := by
  induction s with
  | nil => intro acc _; simp [read_hex]
  | cons a s ih =>
    intro acc h
    have ha := h a (List.mem_cons_self _ _)
    cases hd : hex_digit a with
    | none => rw [hd] at ha; simp at ha
    | some d =>
      simp only [read_hex, hd, List.length_cons]
      obtain ⟨h1, h2⟩ := ih (acc * 16 + d) (fun c hc => h c (List.mem_cons_of_mem _ hc))
      exact ⟨by rw [h1], h2⟩

/-- A non-empty string of hexadecimal digits whose value is below `2 ^ 32` is
read completely by `parse_x32`, as that value. -/
theorem hex_digits_complete (s : List Char) (hne : s ≠ [])
    (hall : ∀ c ∈ s, (hex_digit c).isSome = true) (hlt : (read_hex 0 s).1 < 2 ^ 32) :
    complete_x32 s = some (read_hex 0 s).1 := by
  obtain ⟨hlen, hrest⟩ := read_hex_all s 0 hall
  have hskip : skip_space s = s := by
    cases s with
    | nil => rfl
    | cons a r =>
      simp [skip_space, hex_digit_not_space a (hall a (List.mem_cons_self _ _))]
  have hsign : strip_sign s = (false, s) := by
    cases s with
    | nil => rfl
    | cons a r =>
      obtain ⟨h1, h2, _, _⟩ := hex_digit_not_sign a (hall a (List.mem_cons_self _ _))
      simp [strip_sign, h1, h2]
  have h0x : strip_0x s = s := by
    unfold strip_0x
    split
    · rfl
    · rfl
    · rfl
    · rename_i a b d r
      obtain ⟨_, _, h3, h4⟩ := hex_digit_not_sign b (hall b (by simp))
      simp [h3, h4]
  have hpos : s.length ≠ 0 := by
    cases s with
    | nil => exact absurd rfl hne
    | cons a r => simp
  have hst : strtoul s = ⟨(read_hex 0 s).1, [], false⟩ := by
    unfold strtoul
    simp only [hskip, hsign, h0x, hlen, hrest, if_neg hpos]
    rw [if_neg (by omega)]
    simp
  rw [complete_x32_eq_some]
  unfold parse_x32
  rw [if_neg hne, hst]
  simp only [Bool.false_eq_true, if_false, ne_eq, not_true_eq_false]
  rw [if_neg (by rw [Nat.mod_eq_of_lt hlt]; simp)]

theorem skip_space_append (a r : List Char) (h : skip_space a ≠ []) :
    skip_space (a ++ r) = skip_space a ++ r := by
  induction a with
  | nil => simp [skip_space] at h
  | cons x xs ih =>
    by_cases hx : isspace x = true
    · have h1 : skip_space (x :: xs) = skip_space xs := by simp [skip_space, hx]
      have h2 : skip_space (x :: (xs ++ r)) = skip_space (xs ++ r) := by simp [skip_space, hx]
      rw [h1] at h
      rw [List.cons_append, h1, h2]
      exact ih h
    · have h1 : skip_space (x :: xs) = x :: xs := by simp [skip_space, hx]
      have h2 : skip_space (x :: (xs ++ r)) = x :: (xs ++ r) := by simp [skip_space, hx]
      rw [List.cons_append, h1, h2, List.cons_append]

theorem strip_sign_append (u r : List Char) (h : u ≠ []) :
    strip_sign (u ++ r) = ((strip_sign u).1, (strip_sign u).2 ++ r) := by
  cases u with
  | nil => exact absurd rfl h
  | cons x xs =>
    simp only [strip_sign, List.cons_append]
    split_ifs <;> simp

theorem strip_0x_append_colon (u m : List Char) :
    strip_0x (u ++ ':' :: m) = strip_0x u ++ ':' :: m := by
  match u with
  | [] => cases m with
    | nil => rfl
    | cons y ys => cases ys with
      | nil => rfl
      | cons z zs => simp [strip_0x]
  | [a] => cases m with
    | nil => rfl
    | cons y ys => simp [strip_0x]
  | [a, b] =>
    have h : (hex_digit ':').isSome = false := by decide
    simp [strip_0x, h]
  | a :: b :: d :: r =>
    simp only [strip_0x, List.cons_append]
    split_ifs <;> simp

theorem read_hex_append_colon (t m : List Char) :
    ∀ acc, (read_hex acc t).2.2 = [] →
      read_hex acc (t ++ ':' :: m) = ((read_hex acc t).1, (read_hex acc t).2.1, ':' :: m) := by
  induction t with
  | nil =>
    intro acc _
    have h : hex_digit ':' = none := by decide
    simp [read_hex, h]
  | cons x xs ih =>
    intro acc h
    cases hd : hex_digit x with
    | none => simp [read_hex, hd] at h
    | some d =>
      have h1 : (read_hex (acc * 16 + d) xs).2.2 = [] := by
        simpa [read_hex, hd] using h
      have h2 := ih _ h1
      rw [List.cons_append]
      simp only [read_hex, hd, h2]

/-- A complete number followed by `:` and more text: `parse_x32` reads the
number and stops at the colon. -/
theorem parse_x32_append_colon (a m : List Char) (v : Nat) (h : complete_x32 a = some v) :
    parse_x32 (a ++ ':' :: m) = ⟨0, some (':' :: m), some v⟩ := by
  have hp := (complete_x32_eq_some a v).1 h
  have hne : a ≠ [] := by
    intro h0; subst h0; simp [parse_x32] at hp
  unfold parse_x32 at hp
  rw [if_neg hne] at hp
  by_cases he : (strtoul a).errno = true
  · rw [if_pos he] at hp; simp at hp
  rw [if_neg he] at hp
  by_cases hm : (strtoul a).val % 2 ^ 32 ≠ (strtoul a).val
  · rw [if_pos hm] at hp; simp at hp
  rw [if_neg hm] at hp
  by_cases hs : (strtoul a).stop ≠ []
  · rw [if_pos hs] at hp; simp at hp
  rw [if_neg hs] at hp
  simp only [x32_result.mk.injEq, Option.some.injEq, true_and] at hp
  have hstop : (strtoul a).stop = [] := by simpa using hs
  -- the digits of `a`
  have hdig : (read_hex 0 (strip_0x (strip_sign (skip_space a)).2)).2.1 ≠ 0 := by
    intro h0
    unfold strtoul at hstop
    simp only [h0, if_true] at hstop
    exact hne hstop
  have hrest : (read_hex 0 (strip_0x (strip_sign (skip_space a)).2)).2.2 = [] := by
    unfold strtoul at hstop
    simp only at hstop
    rw [if_neg hdig] at hstop
    split_ifs at hstop <;> exact hstop
  have hsk : skip_space a ≠ [] := by
    intro h0
    rw [h0] at hdig
    simp [strip_sign, strip_0x, read_hex] at hdig
  have hst : strtoul (a ++ ':' :: m) =
      ⟨(strtoul a).val, ':' :: m, (strtoul a).errno⟩ := by
    unfold strtoul
    simp only [skip_space_append a _ hsk, strip_sign_append _ _ hsk, strip_0x_append_colon,
      read_hex_append_colon _ m 0 hrest, if_neg hdig]
    split_ifs <;> rfl
  unfold parse_x32
  rw [if_neg (by simp), hst]
  simp only
  rw [if_neg he, if_neg hm]
  simp [hp]

theorem strchr_split_not_mem (c : Char) (s : List Char) (h : c ∉ s) :
    strchr_split c s = (s, none) := by
  induction s with
  | nil => rfl
  | cons x xs ih =>
    have hx : x ≠ c := fun h0 => h (by simp [h0])
    have hxs : c ∉ xs := fun h0 => h (List.mem_cons_of_mem _ h0)
    simp only [strchr_split, if_neg hx, ih hxs]

theorem strchr_split_append (c : Char) (pre a : List Char) (h : c ∉ pre) :
    strchr_split c (pre ++ c :: a) = (pre, some a) := by
  induction pre with
  | nil => simp [strchr_split]
  | cons x xs ih =>
    have hx : x ≠ c := fun h0 => h (by simp [h0])
    have hxs : c ∉ xs := fun h0 => h (List.mem_cons_of_mem _ h0)
    rw [List.cons_append]
    simp only [strchr_split, if_neg hx, ih hxs]

theorem split_op_append_value (pre a : List Char) (h : '=' ∉ pre) :
    (split_op (pre ++ '=' :: a)).base = (split_op pre).base
      ∧ (split_op (pre ++ '=' :: a)).offset = (split_op pre).offset
      ∧ (split_op (pre ++ '=' :: a)).width = (split_op pre).width
      ∧ (split_op (pre ++ '=' :: a)).number = (split_op pre).number
      ∧ (split_op (pre ++ '=' :: a)).value = some a
      ∧ (split_op pre).value = none := by
  simp [split_op, strchr_split_append '=' pre a h, strchr_split_not_mem '=' pre h]

theorem parse_op_assemble_append_value (pre a : List Char) (x : op_assembled)
    (heq : '=' ∉ pre) (hne : a ≠ []) (h : parse_op_assemble pre = .ok x) :
    parse_op_assemble (pre ++ '=' :: a) = .ok { x with n := 1 + a.count ',', value := some a }
      ∧ x.n = 0 ∧ x.value = none := by
  obtain ⟨hb, hof, hwd, hnu, hva, hv0⟩ := split_op_append_value pre a heq
  have hc1 : count_values (some a) = .ok (1 + a.count ',') := by
    cases a with
    | nil => exact absurd rfl hne
    | cons y ys => rfl
  unfold parse_op_assemble at h ⊢
  rw [hb, hof, hwd, hnu, hva, hc1]
  rw [hv0] at h
  simp only [count_values] at h ⊢
  cases hpw : parse_width (split_op pre).width with
  | error e => rw [hpw] at h; simp at h
  | ok w =>
    rw [hpw] at h
    simp only at h ⊢
    cases hpn : parse_number (split_op pre).number with
    | error e => rw [hpn] at h; simp at h
    | ok num =>
      rw [hpn] at h
      simp only at h ⊢
      cases hpr : parse_register
          { cap_type := 0, cap_id := 0, name := none, hdr_type_mask := 0, addr := 0,
            width := w, number := num, values := [] } (split_op pre).base with
      | error e => rw [hpr] at h; simp at h
      | ok o =>
        rw [hpr] at h
        simp only at h ⊢
        by_cases hz : o.width = 0
        · rw [if_pos hz] at h; simp at h
        · rw [if_neg hz] at h ⊢
          cases hao : add_offset o (split_op pre).offset with
          | error e => rw [hao] at h; simp at h
          | ok o2 =>
            rw [hao] at h
            simp only [Except.ok.injEq] at h ⊢
            subst h
            simp

theorem parse_op_check_one (o : op) : parse_op_check o 1 = parse_op_check o 0 := by
  simp [parse_op_check]

/-- A read token that is accepted, followed by `=` and a single element: the
token is accepted exactly when `parse_value` accepts the element. -/
theorem parse_op_single (pre e : List Char) (o : op) (hpre : parse_op pre = .ok o)
    (heq : '=' ∉ pre) (hne : e ≠ []) (hc : ',' ∉ e) :
    parse_op (pre ++ '=' :: e) =
      match parse_value o.width e with
      | .error err => .error err
      | .ok p => .ok { o with values := [p] } := by
  obtain ⟨x, vs, hx, hu, hvs, ho⟩ := parse_op_ok pre o hpre
  obtain ⟨h1, h2, h3⟩ := parse_op_assemble_append_value pre e x heq hne hx
  have hcount : e.count ',' = 0 := List.count_eq_zero_of_not_mem hc
  have hw : o.width = x.o.width := by rw [ho]
  have hpv : parse_values x.o.width (1 + 0) (some e) =
      match parse_value x.o.width e with
      | .error err => .error err
      | .ok p => .ok [p] := by
    show parse_values x.o.width (0 + 1) (some e) = _
    simp only [parse_values, strchr_split_not_mem ',' e hc]
  unfold parse_op
  rw [h1]
  simp only [hcount]
  rw [show (1 + 0 : Nat) = 1 from rfl, parse_op_check_one, ← h2, hu]
  simp only
  rw [show (1 : Nat) = 1 + 0 from rfl, hpv, hw]
  cases parse_value x.o.width e with
  | error err => rfl
  | ok p =>
    simp only
    rw [ho]

theorem parse_value_complete (w : Nat) (a : List Char) (v : Nat) (h : complete_x32 a = some v) :
    parse_value w a =
      if v > max_values w ∧ v < 0xffffffff - max_values w then .error .value_out_of_range
      else .ok ⟨v, 0xffffffff⟩ := by
  have hp := (complete_x32_eq_some a v).1 h
  unfold parse_value
  rw [hp]
  simp

theorem parse_value_masked (w : Nat) (a b : List Char) (v m : Nat)
    (ha : complete_x32 a = some v) (hb : complete_x32 b = some m) :
    parse_value w (a ++ ':' :: b) =
      if v > max_values w ∧ v < 0xffffffff - max_values w then .error .value_out_of_range
      else if m > max_values w ∧ m < 0xffffffff - max_values w then .error .mask_out_of_range
      else .ok ⟨v &&& m, m⟩ := by
  have hp := parse_x32_append_colon a b v ha
  have hq := (complete_x32_eq_some b m).1 hb
  unfold parse_value
  rw [hp]
  simp [hq]

theorem complete_x32_ne_nil (a : List Char) (v : Nat) (h : complete_x32 a = some v) : a ≠ [] := by
  intro h0
  subst h0
  simp [complete_x32, parse_x32] at h

theorem complete_x32_no_comma (a : List Char) (v : Nat) (h : complete_x32 a = some v) :
    ',' ∉ a := by
  intro hc
  have := complete_x32_numeric a v h ',' hc
  revert this
  decide

theorem parse_op_width (c : List Char) (o : op) (h : parse_op c = .ok o) :
    o.width = 1 ∨ o.width = 2 ∨ o.width = 4 := by
  obtain ⟨a, vs, ha, _, _, ho⟩ := parse_op_ok c o h
  obtain ⟨hw, _⟩ := parse_op_assemble_ok c a ha
  rw [ho]
  exact hw

/-- A read token that is accepted, followed by `=` and one value literal, or by
`=`, a value literal, `:` and a mask literal: the result of `parse_op`. -/
theorem parse_op_literal (pre : List Char) (o : op) (a b : List Char) (v m : Nat)
    (hpre : parse_op pre = .ok o) (heq : '=' ∉ pre)
    (ha : complete_x32 a = some v) (hb : complete_x32 b = some m) :
    parse_op (pre ++ '=' :: a) =
      (if v > max_values o.width ∧ v < 0xffffffff - max_values o.width then
        .error .value_out_of_range
      else .ok { o with values := [⟨v, 0xffffffff⟩] }) ∧
    parse_op (pre ++ '=' :: (a ++ ':' :: b)) =
      (if v > max_values o.width ∧ v < 0xffffffff - max_values o.width then
        .error .value_out_of_range
      else if m > max_values o.width ∧ m < 0xffffffff - max_values o.width then
        .error .mask_out_of_range
      else .ok { o with values := [⟨v &&& m, m⟩] }) := by
  have hca := complete_x32_no_comma a v ha
  have hcb := complete_x32_no_comma b m hb
  have hna := complete_x32_ne_nil a v ha
  constructor
  · rw [parse_op_single pre a o hpre heq hna hca, parse_value_complete o.width a v ha]
    split_ifs <;> rfl
  · have hc : ',' ∉ a ++ ':' :: b := by
      simp only [List.mem_append, List.mem_cons, not_or]
      exact ⟨hca, by decide, hcb⟩
    rw [parse_op_single pre (a ++ ':' :: b) o hpre heq (by simp) hc,
      parse_value_masked o.width a b v m ha hb]
    split_ifs <;> rfl

theorem parse_op_literal_iff (pre : List Char) (o : op) (a b : List Char) (v m : Nat)
    (hpre : parse_op pre = .ok o) (heq : '=' ∉ pre)
    (ha : complete_x32 a = some v) (hb : complete_x32 b = some m) :
    ((∃ o2, parse_op (pre ++ '=' :: a) = .ok o2) ↔
      (v ≤ max_values o.width ∨ v ≥ 0xffffffff - max_values o.width)) ∧
    (¬ (v ≤ max_values o.width ∨ v ≥ 0xffffffff - max_values o.width) →
      parse_op (pre ++ '=' :: a) = .error .value_out_of_range) ∧
    ((v ≤ max_values o.width ∨ v ≥ 0xffffffff - max_values o.width) →
      ((∃ o2, parse_op (pre ++ '=' :: (a ++ ':' :: b)) = .ok o2) ↔
        (m ≤ max_values o.width ∨ m ≥ 0xffffffff - max_values o.width)) ∧
      (¬ (m ≤ max_values o.width ∨ m ≥ 0xffffffff - max_values o.width) →
        parse_op (pre ++ '=' :: (a ++ ':' :: b)) = .error .mask_out_of_range)) := by
  obtain ⟨h1, h2⟩ := parse_op_literal pre o a b v m hpre heq ha hb
  by_cases hv : v > max_values o.width ∧ v < 0xffffffff - max_values o.width
  · have hnv : ¬ (v ≤ max_values o.width ∨ v ≥ 0xffffffff - max_values o.width) := by omega
    rw [if_pos hv] at h1
    refine ⟨?_, fun _ => h1, fun h => absurd h hnv⟩
    rw [h1]
    constructor
    · rintro ⟨o2, h⟩; simp at h
    · intro h; exact absurd h hnv
  · have hpv : v ≤ max_values o.width ∨ v ≥ 0xffffffff - max_values o.width := by omega
    rw [if_neg hv] at h1 h2
    refine ⟨⟨fun _ => hpv, fun _ => ⟨_, h1⟩⟩, fun h => absurd hpv h, fun _ => ?_⟩
    by_cases hm : m > max_values o.width ∧ m < 0xffffffff - max_values o.width
    · have hnm : ¬ (m ≤ max_values o.width ∨ m ≥ 0xffffffff - max_values o.width) := by omega
      rw [if_pos hm] at h2
      refine ⟨?_, fun _ => h2⟩
      rw [h2]
      constructor
      · rintro ⟨o2, h⟩; simp at h
      · intro h; exact absurd h hnm
    · have hpm : m ≤ max_values o.width ∨ m ≥ 0xffffffff - max_values o.width := by omega
      rw [if_neg hm] at h2
      exact ⟨⟨fun _ => hpm, fun _ => ⟨_, h2⟩⟩, fun h => absurd hpm h⟩

theorem max_values_pow (w : Nat) (hw : w = 1 ∨ w = 2 ∨ w = 4) :
    max_values w = 2 ^ (8 * w) - 1 ∧ 0xffffffff - max_values w = 2 ^ 32 - 2 ^ (8 * w)
      ∧ 2 ^ 32 - 2 ^ (8 * w) ≤ 2 ^ 32 - 2 ^ (8 * w - 1) := by
  rcases hw with h | h | h <;> subst h <;> decide

theorem char_eq_of_toNat (c d : Char) (h : c.toNat = d.toNat) : c = d := by
  apply Char.ext
  cases c with
  | mk cv cvalid =>
    cases d with
    | mk dv dvalid =>
      simp only [Char.toNat] at h
      simp only
      cases cv with
      | mk cf =>
        cases dv with
        | mk df =>
          simp only [UInt32.toNat] at h
          congr
          exact BitVec.eq_of_toNat_eq h

set_option maxRecDepth 100000 in
theorem width_letter (n : Nat) (hn : n < 256) :
    (n &&& 0xdf = 66 ↔ (n = 66 ∨ n = 98)) ∧ (n &&& 0xdf = 87 ↔ (n = 87 ∨ n = 119))
      ∧ (n &&& 0xdf = 76 ↔ (n = 76 ∨ n = 108)) := by
  revert n
  decide

theorem numeric_char_code (c : Char) (h : numeric_char c = true) :
    numeric_code (tolower c) = true := by
  unfold numeric_char isspace hex_digit at h
  unfold numeric_code tolower
  simp only [Bool.or_eq_true, beq_iff_eq, Bool.and_eq_true, decide_eq_true_eq] at h ⊢
  split_ifs at h ⊢ <;> simp at h <;> omega

set_option maxRecDepth 100000 in
theorem pci_reg_names_not_numeric :
    ∀ r ∈ pci_reg_names, (r.name.toList.map tolower).any (fun n => !numeric_code n) = true := by
  decide

set_option maxRecDepth 1000000 in
theorem pci_reg_names_nodup :
    (pci_reg_names.map (fun r => r.name.toList.map tolower)).Nodup := by
  decide

set_option maxRecDepth 100000 in
theorem pci_reg_names_cap : ∀ r ∈ pci_reg_names,
    (r.cap = 0 ∧ r.cap &&& 0xff0000 ≠ 0x10000 ∧ r.cap &&& 0xff0000 ≠ 0x20000) ∨
    (0x10000 ≤ r.cap ∧ r.cap ≤ 0x1ffff ∧ r.cap &&& 0xff0000 = 0x10000) ∨
    (0x20000 ≤ r.cap ∧ r.cap ≤ 0x2ffff ∧ r.cap &&& 0xff0000 = 0x20000
      ∧ r.cap &&& 0xff0000 ≠ 0x10000) := by
  decide

set_option maxRecDepth 100000 in
theorem pci_reg_names_cap_width : ∀ r ∈ pci_reg_names, r.cap ≠ 0 → r.width = 0 := by
  decide

theorem parse_width_letter (ch : Char) :
    parse_width (some [ch]) =
      if ch = 'B' ∨ ch = 'b' then .ok 1
      else if ch = 'W' ∨ ch = 'w' then .ok 2
      else if ch = 'L' ∨ ch = 'l' then .ok 4
      else .error .invalid_width := by
  have key : ∀ (k : Nat) (u l : Char), u.toNat < 256 → l.toNat < 256 →
      (∀ n, n < 256 → (n &&& 0xdf = k ↔ (n = u.toNat ∨ n = l.toNat))) →
      ((ch.toNat < 256 ∧ ch.toNat &&& 0xdf = k) ↔ (ch = u ∨ ch = l)) := by
    intro k u l hu hl hk
    constructor
    · rintro ⟨h1, h2⟩
      rcases (hk _ h1).1 h2 with h | h
      · exact Or.inl (char_eq_of_toNat _ _ h)
      · exact Or.inr (char_eq_of_toNat _ _ h)
    · rintro (h | h)
      · subst h; exact ⟨hu, (hk _ hu).2 (Or.inl rfl)⟩
      · subst h; exact ⟨hl, (hk _ hl).2 (Or.inr rfl)⟩
  have hB := key 66 'B' 'b' (by decide) (by decide) (fun n hn => (width_letter n hn).1)
  have hW := key 87 'W' 'w' (by decide) (by decide) (fun n hn => (width_letter n hn).2.1)
  have hL := key 76 'L' 'l' (by decide) (by decide) (fun n hn => (width_letter n hn).2.2)
  have e1 : 'B'.toNat = 66 := rfl
  have e2 : 'W'.toNat = 87 := rfl
  have e3 : 'L'.toNat = 76 := rfl
  simp only [parse_width, e1, e2, e3, hB, hW, hL]

theorem parse_width_long (s : List Char) (h : s.length ≠ 1) :
    parse_width (some s) = .error .invalid_width := by
  match s with
  | [] => rfl
  | [c] => simp at h
  | _ :: _ :: _ => rfl

theorem parse_register_numeric (o : op) (base : List Char) (h : (parse_x32 base).ret > 0) :
    parse_register o base =
      .ok { o with cap_type := 0, cap_id := 0, addr := (parse_x32 base).res.getD o.addr } := by
  unfold parse_register
  simp only [if_pos h]

theorem parse_register_table (o : op) (base : List Char) (r : reg_name)
    (h1 : (parse_x32 base).ret ≤ 0) (h2 : parse_reg_name base = some r) :
    parse_register o base =
      .ok { o with
        cap_type :=
          if r.cap &&& 0xff0000 = 0x10000 then PCI_CAP_NORMAL
          else if r.cap &&& 0xff0000 = 0x20000 then PCI_CAP_EXTENDED
          else 0,
        cap_id := r.cap &&& 0xffff,
        addr := r.offset,
        hdr_type_mask := r.hdr_type_mask,
        name := some r.name,
        width := if r.width ≠ 0 ∧ o.width = 0 then r.width else o.width } := by
  unfold parse_register
  simp only [if_neg (not_lt.2 h1), h2]

theorem parse_register_other (o : op) (base : List Char)
    (h1 : (parse_x32 base).ret ≤ 0) (h2 : parse_reg_name base = none) :
    parse_register o base =
      if strncasecmp_eq base ['C', 'A', 'P'] 3 then
        if (parse_x32 (base.drop 3)).ret > 0 ∧ (parse_x32 (base.drop 3)).res.getD 0 < 0x100 then
          .ok { o with cap_type := PCI_CAP_NORMAL,
                       cap_id := (parse_x32 (base.drop 3)).res.getD 0, addr := 0 }
        else .error .unknown_register
      else if strncasecmp_eq base ['E', 'C', 'A', 'P'] 4 then
        if (parse_x32 (base.drop 4)).ret > 0 ∧ (parse_x32 (base.drop 4)).res.getD 0 < 0x1000 then
          .ok { o with cap_type := PCI_CAP_EXTENDED,
                       cap_id := (parse_x32 (base.drop 4)).res.getD 0, addr := 0 }
        else .error .unknown_register
      else .error .unknown_register := by
  unfold parse_register
  simp only [if_neg (not_lt.2 h1), h2]

theorem complete_x32_iff (s : List Char) (n : Nat) :
    complete_x32 s = some n ↔ (parse_x32 s).ret > 0 ∧ (parse_x32 s).res.getD 0 = n := by
  constructor
  · intro h
    rw [(complete_x32_eq_some s n).1 h]
    simp
  · rintro ⟨h1, h2⟩
    unfold complete_x32
    rw [if_pos h1]
    rcases parse_x32_ret_cases s with ⟨h3, _, _⟩ | ⟨h3, _⟩ | ⟨_, _, v, h3⟩
    · rw [h3] at h1; simp at h1
    · rw [h3] at h1; simp at h1
    · rw [h3] at h2 ⊢
      simpa using h2

theorem find_unique {α β : Type} (f : α → β) (p : α → Bool) :
    ∀ (l : List α) (r : α), (∀ x, p x = true ↔ f x = f r) → (l.map f).Nodup → r ∈ l →
      l.find? p = some r := by
  intro l
  induction l with
  | nil => intro r _ _ hr; simp at hr
  | cons x xs ih =>
    intro r hp hn hr
    simp only [List.map_cons, List.nodup_cons] at hn
    by_cases hx : f x = f r
    · have hxr : x = r := by
        rcases List.mem_cons.1 hr with h | h
        · exact h.symm
        · exact absurd (hx ▸ List.mem_map_of_mem f h) hn.1
      rw [List.find?_cons_of_pos _ ((hp x).2 hx), hxr]
    · have hr2 : r ∈ xs := by
        rcases List.mem_cons.1 hr with h | h
        · exact absurd (h ▸ rfl) hx
        · exact h
      rw [List.find?_cons_of_neg _ (fun h => hx ((hp x).1 h))]
      exact ih r hp hn.2 hr2

/-- Every spelling of a table name, in upper or lower case, is not a complete
number and is found in the table as that entry. -/
theorem parse_reg_name_variant (r : reg_name) (hr : r ∈ pci_reg_names) (v : List Char)
    (hv : strcasecmp_eq r.name.toList v = true) :
    (parse_x32 v).ret ≤ 0 ∧ parse_reg_name v = some r := by
  have hmap : r.name.toList.map tolower = v.map tolower := by
    simpa [strcasecmp_eq] using hv
  constructor
  · rw [← complete_x32_eq_none]
    cases hc : complete_x32 v with
    | none => rfl
    | some n =>
      exfalso
      have hnum := complete_x32_numeric v n hc
      have hnot := pci_reg_names_not_numeric r hr
      rw [hmap, List.any_eq_true] at hnot
      obtain ⟨code, hmem, hcode⟩ := hnot
      obtain ⟨c, hcv, hcc⟩ := List.mem_map.1 hmem
      have := numeric_char_code c (hnum c hcv)
      rw [hcc] at this
      simp [this] at hcode
  · unfold parse_reg_name
    refine find_unique (fun q : reg_name => q.name.toList.map tolower) _ pci_reg_names r ?_
      pci_reg_names_nodup hr
    intro x
    simp only [strcasecmp_eq, beq_iff_eq, hmap]

theorem parse_op_assemble_number (c : List Char) (a : op_assembled)
    (h : parse_op_assemble c = .ok a) :
    parse_number (split_op c).number = .ok a.o.number := by
  unfold parse_op_assemble at h
  split at h
  · simp at h
  · split at h
    · simp at h
    · rename_i w hw
      split at h
      · simp at h
      · rename_i num hnum
        split at h
        · simp at h
        · rename_i o ho
          split_ifs at h with hz
          split at h
          · simp at h
          · rename_i o2 ho2
            simp only [Except.ok.injEq] at h
            subst h
            obtain ⟨_, _, hn⟩ := parse_register_width _ _ _ ho
              (by simpa using parse_width_ok _ _ hw)
            obtain ⟨_, _, hn2, _⟩ := add_offset_ok _ _ _ ho2
            simp only
            rw [hn2, hn, hnum]

theorem parse_register_width_eq (o o2 : op) (base : List Char)
    (h : parse_register o base = .ok o2) :
    (o.width ≠ 0 → o2.width = o.width) ∧
    (o.width = 0 →
      (o2.width ≠ 0 ↔
        ((parse_x32 base).ret ≤ 0 ∧ ∃ r, parse_reg_name base = some r ∧ r.width ≠ 0)) ∧
      (∀ r, (parse_x32 base).ret ≤ 0 → parse_reg_name base = some r → o2.width = r.width)) := by
  by_cases h1 : (parse_x32 base).ret > 0
  · rw [parse_register_numeric o base h1] at h
    simp only [Except.ok.injEq] at h
    subst h
    refine ⟨fun _ => rfl, fun h0 => ⟨?_, fun r h2 => absurd h1 (not_lt.2 h2)⟩⟩
    simp only [h0, ne_eq, not_true_eq_false, false_iff, not_and]
    intro h2
    exact absurd h1 (not_lt.2 h2)
  · have h1' : (parse_x32 base).ret ≤ 0 := not_lt.1 h1
    cases h2 : parse_reg_name base with
    | some r =>
      rw [parse_register_table o base r h1' h2] at h
      simp only [Except.ok.injEq] at h
      subst h
      refine ⟨fun hw => by simp [hw], fun h0 => ⟨?_, ?_⟩⟩
      · simp only [h0, and_true, ne_eq, h1', true_and, Option.some.injEq, exists_eq_left']
        by_cases hr : r.width = 0 <;> simp [hr]
      · intro r2 _ hr2
        simp only [Option.some.injEq] at hr2
        subst hr2
        by_cases hr : r.width = 0 <;> simp [hr, h0]
    | none =>
      rw [parse_register_other o base h1' h2] at h
      have hw : o2.width = o.width := by
        split_ifs at h <;> simp only [Except.ok.injEq] at h <;> subst h <;> rfl
      refine ⟨fun _ => hw, fun h0 => ⟨?_, fun r _ hr => by simp at hr⟩⟩
      rw [hw, h0]
      simp

theorem parse_op_assemble_steps (c : List Char) (n w num : Nat) (o1 : op)
    (h1 : count_values (split_op c).value = .ok n)
    (h2 : parse_width (split_op c).width = .ok w)
    (h3 : parse_number (split_op c).number = .ok num)
    (h4 : parse_register
        { cap_type := 0, cap_id := 0, name := none, hdr_type_mask := 0, addr := 0,
          width := w, number := num, values := [] } (split_op c).base = .ok o1) :
    parse_op_assemble c =
      if o1.width = 0 then .error .missing_width
      else
        match add_offset o1 (split_op c).offset with
        | .error e => .error e
        | .ok o2 => .ok { o := o2, n := n, value := (split_op c).value } := by
  unfold parse_op_assemble
  simp only [h1, h2, h3, h4]

theorem parse_op_assemble_inv (c : List Char) (a : op_assembled)
    (h : parse_op_assemble c = .ok a) :
    ∃ n w num o1, count_values (split_op c).value = .ok n
      ∧ parse_width (split_op c).width = .ok w
      ∧ parse_number (split_op c).number = .ok num
      ∧ parse_register
          { cap_type := 0, cap_id := 0, name := none, hdr_type_mask := 0, addr := 0,
            width := w, number := num, values := [] } (split_op c).base = .ok o1
      ∧ o1.width ≠ 0 ∧ add_offset o1 (split_op c).offset = .ok a.o := by
  cases h1 : count_values (split_op c).value with
  | error e => simp [parse_op_assemble, h1] at h
  | ok n =>
    cases h2 : parse_width (split_op c).width with
    | error e => simp [parse_op_assemble, h1, h2] at h
    | ok w =>
      cases h3 : parse_number (split_op c).number with
      | error e => simp [parse_op_assemble, h1, h2, h3] at h
      | ok num =>
        cases h4 : parse_register
            { cap_type := 0, cap_id := 0, name := none, hdr_type_mask := 0, addr := 0,
              width := w, number := num, values := [] } (split_op c).base with
        | error e => simp [parse_op_assemble, h1, h2, h3, h4] at h
        | ok o1 =>
          rw [parse_op_assemble_steps c n w num o1 h1 h2 h3 h4] at h
          by_cases hz : o1.width = 0
          · rw [if_pos hz] at h; simp at h
          · rw [if_neg hz] at h
            cases h5 : add_offset o1 (split_op c).offset with
            | error e => rw [h5] at h; simp at h
            | ok o2 =>
              rw [h5] at h
              simp only [Except.ok.injEq] at h
              subst h
              exact ⟨n, w, num, o1, rfl, rfl, rfl, h4, hz, h5⟩

theorem parse_op_assemble_error (c : List Char) (e : parse_error)
    (h : parse_op_assemble c = .error e) : parse_op c = .error e := by
  simp [parse_op, h]

set_option maxRecDepth 100000 in
theorem pci_reg_names_hdr_offset :
    ∀ r ∈ pci_reg_names, r.hdr_type_mask ≠ 0 → 0x0e < r.offset ∧ r.offset < 0x1000 := by
  decide

theorem parse_register_hdr_addr (o o2 : op) (base : List Char)
    (h : parse_register o base = .ok o2) (h0 : o.hdr_type_mask = 0) :
    o2.hdr_type_mask ≠ 0 → 0x0e < o2.addr ∧ o2.addr < 0x1000 := by
  intro hm
  by_cases h1 : (parse_x32 base).ret > 0
  · rw [parse_register_numeric o base h1] at h
    simp only [Except.ok.injEq] at h
    subst h
    exact absurd h0 hm
  · have h1 : (parse_x32 base).ret ≤ 0 := not_lt.1 h1
    cases h2 : parse_reg_name base with
    | some r =>
      rw [parse_register_table o base r h1 h2] at h
      simp only [Except.ok.injEq] at h
      subst h
      exact pci_reg_names_hdr_offset r (parse_reg_name_mem _ _ h2) hm
    | none =>
      rw [parse_register_other o base h1 h2] at h
      split_ifs at h <;> simp only [Except.ok.injEq] at h <;> subst h <;> exact absurd h0 hm

theorem add_offset_addr (o o2 : op) (s : Option (List Char)) (h : add_offset o s = .ok o2)
    (ha : o.addr < 0x1000) : o.addr ≤ o2.addr := by
  unfold add_offset at h
  split at h
  · simp only [Except.ok.injEq] at h
    subst h
    exact le_rfl
  · split_ifs at h with hc
    simp only [Except.ok.injEq] at h
    subst h
    simp only
    omega

/-- An operation of `parse_op` that carries a header-type mask has its register
above the header-type register. -/
theorem parse_op_hdr_addr (c : List Char) (o : op) (h : parse_op c = .ok o)
    (hm : o.hdr_type_mask ≠ 0) : 0x0e < o.addr := by
  obtain ⟨a, vs, ha, _, _, ho⟩ := parse_op_ok c o h
  obtain ⟨n, w, num, o1, _, _, _, h4, _, h6⟩ := parse_op_assemble_inv c a ha
  obtain ⟨_, _, _, hh, _⟩ := add_offset_ok _ _ _ h6
  subst ho
  simp only at hm ⊢
  rw [hh] at hm
  obtain ⟨hlo, hhi⟩ := parse_register_hdr_addr _ _ _ h4 rfl hm
  have := add_offset_addr _ _ _ h6 hhi
  omega

set_option smartUnfolding false in
theorem parse_ops_loop_cons (f : Char → List Char → Bool) (c : List Char)
    (rest : List (List Char)) (done : List group) (cur : Option group) :
    parse_ops_loop f (c :: rest) done cur =
      if c.head? = some '-' then
        match parse_filter f c rest
            (match cur with
             | none => new_group
             | some g => if g.ops ≠ [] then new_group else g) with
        | .error e => .error e
        | .ok (g2, used) =>
          if used then
            match rest with
            | [] => .error .requires_argument
            | _ :: rest2 =>
              parse_ops_loop f rest2
                (match cur with
                 | none => done
                 | some g => if g.ops ≠ [] then done ++ [g] else done) (some g2)
          else
            parse_ops_loop f rest
              (match cur with
               | none => done
               | some g => if g.ops ≠ [] then done ++ [g] else done) (some g2)
      else
        match cur with
        | none => .error .filter_expected
        | some g =>
          match parse_op c with
          | .error e => .error (.in_op e)
          | .ok o => parse_ops_loop f rest done (some { g with ops := g.ops ++ [o] }) := by
  cases rest <;> cases cur <;> rfl

/-- What `parse_ops` does guarantee: every group but the last has an
operation, since a new group is only started after a group with an
operation. -/
theorem parse_ops_loop_groups (f : Char → List Char → Bool) :
    ∀ (n : Nat) (args : List (List Char)) (done : List group) (cur : Option group)
      (gs : List group), args.length ≤ n → parse_ops_loop f args done cur = .ok gs →
      (∀ g ∈ done, g.ops ≠ []) → ∀ g ∈ gs.dropLast, g.ops ≠ [] := by
  intro n
  induction n with
  | zero =>
    intro args done cur gs hl h hd
    have : args = [] := List.length_eq_zero.1 (Nat.le_zero.1 hl)
    subst this
    cases cur with
    | none => simp [parse_ops_loop] at h
    | some g =>
      simp only [parse_ops_loop, Except.ok.injEq] at h
      subst h
      simpa using hd
  | succ n ih =>
    intro args done cur gs hl h hd
    cases args with
    | nil =>
      cases cur with
      | none => simp [parse_ops_loop] at h
      | some g =>
        simp only [parse_ops_loop, Except.ok.injEq] at h
        subst h
        simpa using hd
    | cons c rest =>
      have hr : rest.length ≤ n := by simpa using hl
      have hd2 : ∀ g ∈ (match cur with
          | none => done
          | some g => if g.ops ≠ [] then done ++ [g] else done), g.ops ≠ [] := by
        intro g hg
        cases cur with
        | none => exact hd g hg
        | some g0 =>
          simp only at hg
          split_ifs at hg with h0
          · rcases List.mem_append.1 hg with h1 | h1
            · exact hd g h1
            · rw [List.mem_singleton.1 h1]; exact h0
          · exact hd g hg
      rw [parse_ops_loop_cons] at h
      by_cases hc : c.head? = some '-'
      · rw [if_pos hc] at h
        split at h
        · simp at h
        · rename_i g2 used _
          by_cases hu : used = true
          · rw [if_pos hu] at h
            cases rest with
            | nil => simp at h
            | cons d rest2 =>
              simp only at h
              exact ih rest2 _ _ gs (by simp at hr; omega) h hd2
          · rw [if_neg hu] at h
            exact ih rest _ _ gs hr h hd2
      · rw [if_neg hc] at h
        cases cur with
        | none => simp at h
        | some g0 =>
          simp only at h
          split at h
          · simp at h
          · exact ih rest _ _ gs hr h hd

theorem parse_ops_groups (f : Char → List Char → Bool) (args : List (List Char))
    (gs : List group) (h : parse_ops f args = .ok gs) : ∀ g ∈ gs.dropLast, g.ops ≠ [] :=
  parse_ops_loop_groups f args.length args [] none gs le_rfl h (by simp)

theorem strip_0x_keeps (s : List Char) (c : Char) (hc : c ∈ s) (h0 : c ≠ '0') (hx : c ≠ 'x')
    (hX : c ≠ 'X') : c ∈ strip_0x s := by
  unfold strip_0x
  split
  · exact hc
  · exact hc
  · exact hc
  · rename_i a b d r
    split_ifs with h
    · obtain ⟨ha, hb, _⟩ := h
      simp only [List.mem_cons] at hc ⊢
      rcases hc with hc | hc | hc
      · exact absurd (hc.trans ha) h0
      · rcases hb with hb | hb
        · exact absurd (hc.trans hb) hx
        · exact absurd (hc.trans hb) hX
      · exact hc
    · exact hc

/-- What `strtoul` did on a text that `parse_x32` reads completely: something
is left after the white space, and the digits run to the end. -/
theorem complete_x32_digits (s : List Char) (n : Nat) (h : complete_x32 s = some n) :
    skip_space s ≠ [] ∧ (read_hex 0 (strip_0x (strip_sign (skip_space s)).2)).2.2 = [] := by
  have hp := (complete_x32_eq_some s n).1 h
  have hstop : (strtoul s).stop = [] ∧ s ≠ [] := by
    unfold parse_x32 at hp
    split_ifs at hp with h1 h2 h3 h4
    all_goals simp at hp
    exact ⟨by simpa using h4, h1⟩
  obtain ⟨hst, hne⟩ := hstop
  have hdig : (read_hex 0 (strip_0x (strip_sign (skip_space s)).2)).2.1 ≠ 0 := by
    intro h0
    unfold strtoul at hst
    simp only [h0, if_true] at hst
    exact hne hst
  refine ⟨?_, ?_⟩
  · intro h0
    rw [h0] at hdig
    simp [strip_sign, strip_0x, read_hex] at hdig
  · unfold strtoul at hst
    simp only at hst
    rw [if_neg hdig] at hst
    split_ifs at hst <;> exact hst

/-- A complete number followed by `+` and more text is not a complete number:
the plus sign is only a sign at the start. -/
theorem complete_x32_append_plus (n o : List Char) (k : Nat) (h : complete_x32 n = some k) :
    complete_x32 (n ++ '+' :: o) = none := by
  obtain ⟨hsk, _⟩ := complete_x32_digits n k h
  cases hc : complete_x32 (n ++ '+' :: o) with
  | none => rfl
  | some k2 =>
    obtain ⟨_, hrest⟩ := complete_x32_digits _ k2 hc
    rw [skip_space_append n _ hsk, strip_sign_append _ _ hsk] at hrest
    simp only at hrest
    have hmem : '+' ∈ strip_0x ((strip_sign (skip_space n)).2 ++ '+' :: o) :=
      strip_0x_keeps _ '+' (by simp) (by decide) (by decide) (by decide)
    have := read_hex_nil_all _ 0 hrest '+' hmem
    exact absurd this (by decide)

/-- A text with a character that `strtoul` never reads is not a complete
number. -/
theorem complete_x32_not_numeric (t : List Char) (c : Char) (hc : c ∈ t)
    (hn : numeric_char c = false) : complete_x32 t = none := by
  cases h : complete_x32 t with
  | none => rfl
  | some k =>
    have := complete_x32_numeric t k h c hc
    rw [hn] at this
    exact absurd this (by decide)

theorem strchr_split_app (c : Char) (a r : List Char) (h : c ∉ a) :
    strchr_split c (a ++ r) = (a ++ (strchr_split c r).1, (strchr_split c r).2) := by
  induction a with
  | nil => simp
  | cons x xs ih =>
    have hx : x ≠ c := fun h0 => h (by simp [h0])
    have hxs : c ∉ xs := fun h0 => h (List.mem_cons_of_mem _ h0)
    rw [List.cons_append]
    simp only [strchr_split, if_neg hx, ih hxs, List.cons_append]

theorem strchr_split_cons_ne (c x : Char) (r : List Char) (h : x ≠ c) :
    strchr_split c (x :: r) = (x :: (strchr_split c r).1, (strchr_split c r).2) := by
  simp only [strchr_split, if_neg h]

theorem strchr_split_cons_eq (c : Char) (r : List Char) :
    strchr_split c (c :: r) = ([], some r) := by
  simp only [strchr_split, if_true]

theorem parse_number_incomplete (t : List Char) (h : complete_x32 t = none) :
    parse_number (some t) = .error .invalid_number := by
  simp [parse_number, (complete_x32_eq_none t).1 h]

theorem parse_op_invalid_number (c t : List Char) (w : Nat)
    (hv : (split_op c).value = none) (hw : parse_width (split_op c).width = .ok w)
    (hn : (split_op c).number = some t) (ht : complete_x32 t = none) :
    parse_op c = .error .invalid_number := by
  apply parse_op_assemble_error
  unfold parse_op_assemble
  rw [hv]
  simp only [count_values]
  rw [hw]
  simp only
  rw [hn, parse_number_incomplete t ht]

theorem parse_op_invalid_width (c s : List Char)
    (hv : (split_op c).value = none) (hw : (split_op c).width = some s) (hs : s.length ≠ 1) :
    parse_op c = .error .invalid_width := by
  apply parse_op_assemble_error
  unfold parse_op_assemble
  rw [hv]
  simp only [count_values]
  rw [hw, parse_width_long s hs]

theorem width_letter_cases (w : Char) (wd : Nat) (h : parse_width (some [w]) = .ok wd) :
    w ≠ '=' ∧ w ≠ '@' ∧ w ≠ '.' ∧ w ≠ '+' := by
  rw [parse_width_letter] at h
  split_ifs at h with h1 h2 h3
  · rcases h1 with h1 | h1 <;> subst h1 <;> decide
  · rcases h2 with h2 | h2 <;> subst h2 <;> decide
  · rcases h3 with h3 | h3 <;> subst h3 <;> decide

theorem skip_space_eq (s : List Char) : skip_space s = s.dropWhile isspace := by
  induction s with
  | nil => rfl
  | cons x xs ih =>
    by_cases hx : isspace x = true
    · simp [skip_space, List.dropWhile, hx, ih]
    · simp [skip_space, List.dropWhile, hx]

theorem strip_sign_eq (t : List Char) :
    strip_sign t =
      (decide (t.head? = some '-'),
       if t.head? = some '-' ∨ t.head? = some '+' then t.tail else t) := by
  cases t with
  | nil => simp [strip_sign]
  | cons x xs =>
    simp only [strip_sign, List.head?_cons, Option.some.injEq, List.tail_cons]
    by_cases h1 : x = '-'
    · simp [h1]
    · by_cases h2 : x = '+'
      · subst h2
        simp
      · simp [h1, h2]

theorem read_hex_digits (d : List Char) : ∀ acc, (∀ c ∈ d, (hex_digit c).isSome = true) →
    read_hex acc d =
      (d.foldl (fun a c => a * 16 + (hex_digit c).getD 0) acc, d.length, []) := by
  induction d with
  | nil => intro acc _; rfl
  | cons x xs ih =>
    intro acc h
    have hx := h x (List.mem_cons_self _ _)
    cases hd : hex_digit x with
    | none => rw [hd] at hx; simp at hx
    | some v =>
      have h2 := ih (acc * 16 + v) (fun c hc => h c (List.mem_cons_of_mem _ hc))
      simp only [read_hex, hd, h2, List.foldl_cons, Option.getD_some, List.length_cons]

theorem spec_hex_number_iff (d : List Char) :
    spec_hex_number d = true ↔ d ≠ [] ∧ ∀ c ∈ d, (hex_digit c).isSome = true := by
  cases d with
  | nil => simp [spec_hex_number]
  | cons x xs => simp [spec_hex_number]

theorem complete_x32_of_strtoul (s : List Char) (hs : s ≠ []) (v : Nat) (st : List Char)
    (e : Bool) (h : strtoul s = ⟨v, st, e⟩) :
    complete_x32 s = if e = false ∧ v < 2 ^ 32 ∧ st = [] then some v else none := by
  have key : v % 2 ^ 32 ≠ v ↔ ¬ v < 2 ^ 32 := by
    constructor
    · intro h1 h2
      exact h1 (Nat.mod_eq_of_lt h2)
    · intro h1 h2
      apply h1
      rw [← h2]
      exact Nat.mod_lt _ (by norm_num)
  have hpx : parse_x32 s =
      if e = true then ⟨-1, none, none⟩
      else if v % 2 ^ 32 ≠ v then ⟨-1, none, none⟩
      else if st ≠ [] then ⟨0, some st, some v⟩
      else ⟨1, none, some v⟩ := by
    unfold parse_x32
    rw [if_neg hs, h]
  unfold complete_x32
  rw [hpx]
  cases e with
  | true =>
    have h1 : ¬ (true = false ∧ v < 2 ^ 32 ∧ st = []) := fun h => absurd h.1 (by decide)
    rw [if_pos rfl, if_neg h1]
    rfl
  | false =>
    have h0 : ¬ (false = true) := by decide
    rw [if_neg h0]
    by_cases hv : v < 2 ^ 32
    · have hm : ¬ (v % 2 ^ 32 ≠ v) := fun h1 => key.1 h1 hv
      rw [if_neg hm]
      by_cases hst : st = []
      · have h1 : false = false ∧ v < 2 ^ 32 ∧ st = [] := ⟨rfl, hv, hst⟩
        have h2 : ¬ (st ≠ []) := not_not.2 hst
        rw [if_neg h2, if_pos h1]
        rfl
      · have h1 : ¬ (false = false ∧ v < 2 ^ 32 ∧ st = []) := fun h => hst h.2.2
        have h2 : st ≠ [] := hst
        rw [if_pos h2, if_neg h1]
        rfl
    · have hm : v % 2 ^ 32 ≠ v := key.2 hv
      have h1 : ¬ (false = false ∧ v < 2 ^ 32 ∧ st = []) := fun h => hv h.2.1
      rw [if_pos hm, if_neg h1]
      rfl

/-- The result of `parse_x32` on a complete number, in terms of the digits that
`strtoul` reads after the white space, the sign and the `0x`. -/
theorem complete_x32_form (s : List Char) (R : Nat × Nat × List Char) (sg : Bool)
    (hR : read_hex 0 (strip_0x (strip_sign (skip_space s)).2) = R)
    (hsg : (strip_sign (skip_space s)).1 = sg) :
    complete_x32 s =
      if R.2.1 ≠ 0 ∧ R.1 < 2 ^ 64
          ∧ (if sg = true then (2 ^ 64 - R.1) % 2 ^ 64 else R.1) < 2 ^ 32 ∧ R.2.2 = [] then
        some (if sg = true then (2 ^ 64 - R.1) % 2 ^ 64 else R.1)
      else none := by
  by_cases hs : s = []
  · subst hs
    have h1 : R = (0, 0, []) := by rw [← hR]; rfl
    subst h1
    simp
    rfl
  have hst : strtoul s =
      if R.2.1 = 0 then ⟨0, s, false⟩
      else if 2 ^ 64 ≤ R.1 then ⟨2 ^ 64 - 1, R.2.2, true⟩
      else ⟨if sg = true then (2 ^ 64 - R.1) % 2 ^ 64 else R.1, R.2.2, false⟩ := by
    rw [← hR, ← hsg]
    rfl
  by_cases hc : R.2.1 = 0
  · rw [if_pos hc] at hst
    rw [complete_x32_of_strtoul s hs _ _ _ hst]
    simp [hc, hs]
  · rw [if_neg hc] at hst
    by_cases h64 : 2 ^ 64 ≤ R.1
    · rw [if_pos h64] at hst
      rw [complete_x32_of_strtoul s hs _ _ _ hst]
      have h64b : ¬ R.1 < 2 ^ 64 := not_lt.2 h64
      rw [if_neg (by simp), if_neg (fun h => h64b h.2.1)]
    · rw [if_neg h64] at hst
      rw [complete_x32_of_strtoul s hs _ _ _ hst]
      have h64b : R.1 < 2 ^ 64 := not_le.1 h64
      by_cases hcond : (if sg = true then (2 ^ 64 - R.1) % 2 ^ 64 else R.1) < 2 ^ 32 ∧ R.2.2 = []
      · have h1 : false = false ∧
            (if sg = true then (2 ^ 64 - R.1) % 2 ^ 64 else R.1) < 2 ^ 32 ∧ R.2.2 = [] :=
          ⟨rfl, hcond.1, hcond.2⟩
        have h2 : R.2.1 ≠ 0 ∧ R.1 < 2 ^ 64 ∧
            (if sg = true then (2 ^ 64 - R.1) % 2 ^ 64 else R.1) < 2 ^ 32 ∧ R.2.2 = [] :=
          ⟨hc, h64b, hcond.1, hcond.2⟩
        rw [if_pos h1, if_pos h2]
      · have h1 : ¬ (false = false ∧
            (if sg = true then (2 ^ 64 - R.1) % 2 ^ 64 else R.1) < 2 ^ 32 ∧ R.2.2 = []) :=
          fun h => hcond h.2
        have h2 : ¬ (R.2.1 ≠ 0 ∧ R.1 < 2 ^ 64 ∧
            (if sg = true then (2 ^ 64 - R.1) % 2 ^ 64 else R.1) < 2 ^ 32 ∧ R.2.2 = []) :=
          fun h => hcond h.2.2
        rw [if_neg h1, if_neg h2]

/-- The digits alone: what `read_hex` finds says the same as the plain
reading. -/
theorem number_branch_eq (neg : Prop) [Decidable neg] (d : List Char) :
    (if (read_hex 0 d).2.1 ≠ 0 ∧ (read_hex 0 d).1 < 2 ^ 64
        ∧ (if neg then (2 ^ 64 - (read_hex 0 d).1) % 2 ^ 64 else (read_hex 0 d).1) < 2 ^ 32
        ∧ (read_hex 0 d).2.2 = [] then
      some (if neg then (2 ^ 64 - (read_hex 0 d).1) % 2 ^ 64 else (read_hex 0 d).1)
    else none) =
    (if spec_hex_number d = true ∧ spec_hex_value d < 2 ^ 64
        ∧ (if neg then (2 ^ 64 - spec_hex_value d) % 2 ^ 64 else spec_hex_value d) < 2 ^ 32 then
      some (if neg then (2 ^ 64 - spec_hex_value d) % 2 ^ 64 else spec_hex_value d)
    else none) := by
  by_cases hall : ∀ c ∈ d, (hex_digit c).isSome = true
  · have hR : read_hex 0 d = (spec_hex_value d, d.length, []) := read_hex_digits d 0 hall
    rw [hR]
    simp only
    by_cases hd : d = []
    · have h1 : ¬ spec_hex_number d = true := fun h => ((spec_hex_number_iff d).1 h).1 hd
      have h2 : ¬ (d.length ≠ 0) := by simp [hd]
      rw [if_neg (fun h => h2 h.1), if_neg (fun h => h1 h.1)]
    · have h1 : spec_hex_number d = true := (spec_hex_number_iff d).2 ⟨hd, hall⟩
      have h2 : d.length ≠ 0 := fun h => hd (List.length_eq_zero.1 h)
      by_cases hc : spec_hex_value d < 2 ^ 64
          ∧ (if neg then (2 ^ 64 - spec_hex_value d) % 2 ^ 64 else spec_hex_value d) < 2 ^ 32
      · have h3 : d.length ≠ 0 ∧ spec_hex_value d < 2 ^ 64
            ∧ (if neg then (2 ^ 64 - spec_hex_value d) % 2 ^ 64 else spec_hex_value d) < 2 ^ 32
            ∧ True := ⟨h2, hc.1, hc.2, trivial⟩
        have h4 : spec_hex_number d = true ∧ spec_hex_value d < 2 ^ 64
            ∧ (if neg then (2 ^ 64 - spec_hex_value d) % 2 ^ 64 else spec_hex_value d) < 2 ^ 32 :=
          ⟨h1, hc.1, hc.2⟩
        rw [if_pos h3, if_pos h4]
      · have h3 : ¬ (d.length ≠ 0 ∧ spec_hex_value d < 2 ^ 64
            ∧ (if neg then (2 ^ 64 - spec_hex_value d) % 2 ^ 64 else spec_hex_value d) < 2 ^ 32
            ∧ True) := fun h => hc ⟨h.2.1, h.2.2.1⟩
        have h4 : ¬ (spec_hex_number d = true ∧ spec_hex_value d < 2 ^ 64
            ∧ (if neg then (2 ^ 64 - spec_hex_value d) % 2 ^ 64 else spec_hex_value d) < 2 ^ 32) :=
          fun h => hc h.2
        rw [if_neg h3, if_neg h4]
  · have h1 : ¬ spec_hex_number d = true := fun h => hall ((spec_hex_number_iff d).1 h).2
    have h2 : ¬ (read_hex 0 d).2.2 = [] := fun h => hall (read_hex_nil_all d 0 h)
    rw [if_neg (fun h => h2 h.2.2.2), if_neg (fun h => h1 h.1)]

theorem read_hex_zero_x (b : Char) (r : List Char) (hb : b = 'x' ∨ b = 'X') :
    read_hex 0 ('0' :: b :: r) = (0, 1, b :: r) := by
  have h0 : hex_digit '0' = some 0 := by decide
  have hx : hex_digit b = none := by
    rcases hb with hb | hb <;> subst hb <;> decide
  simp [read_hex, h0, hx]

/-- A text that starts with `0x` without a digit after it: the number read is
the `0`, and the `x` is left over. -/
theorem number_branch_zero_x (neg : Prop) [Decidable neg] (b : Char) (r : List Char)
    (hb : b = 'x' ∨ b = 'X') (hr : spec_hex_number r = false) :
    (if (read_hex 0 ('0' :: b :: r)).2.1 ≠ 0 ∧ (read_hex 0 ('0' :: b :: r)).1 < 2 ^ 64
        ∧ (if neg then (2 ^ 64 - (read_hex 0 ('0' :: b :: r)).1) % 2 ^ 64
           else (read_hex 0 ('0' :: b :: r)).1) < 2 ^ 32
        ∧ (read_hex 0 ('0' :: b :: r)).2.2 = [] then
      some (if neg then (2 ^ 64 - (read_hex 0 ('0' :: b :: r)).1) % 2 ^ 64
            else (read_hex 0 ('0' :: b :: r)).1)
    else none) =
    (if spec_hex_number r = true ∧ spec_hex_value r < 2 ^ 64
        ∧ (if neg then (2 ^ 64 - spec_hex_value r) % 2 ^ 64 else spec_hex_value r) < 2 ^ 32 then
      some (if neg then (2 ^ 64 - spec_hex_value r) % 2 ^ 64 else spec_hex_value r)
    else none) := by
  rw [read_hex_zero_x b r hb]
  have h1 : ¬ ((b :: r) = []) := by simp
  have h2 : ¬ spec_hex_number r = true := by simp [hr]
  rw [if_neg (fun h => h1 h.2.2.2), if_neg (fun h => h2 h.1)]

/-- The two descriptions of a number agree: a text is read completely by
`parse_x32`, with result `n`, if and only if it is a hexadecimal number in the
wide sense with value `n`. -/
theorem complete_x32_eq_wide (s : List Char) : complete_x32 s = spec_wide_hex_number s := by
  rw [complete_x32_form s _ _ rfl rfl, skip_space_eq, strip_sign_eq]
  unfold spec_wide_hex_number
  simp only [decide_eq_true_eq]
  generalize s.dropWhile isspace = t
  generalize (if t.head? = some '-' ∨ t.head? = some '+' then t.tail else t) = u
  match u with
  | [] =>
    have h1 : ¬ (([] : List Char).take 2 = ['0', 'x'] ∨ ([] : List Char).take 2 = ['0', 'X']) := by
      simp
    rw [if_neg h1]
    exact number_branch_eq _ []
  | [a] =>
    have h1 : ¬ ([a].take 2 = ['0', 'x'] ∨ [a].take 2 = ['0', 'X']) := by simp
    rw [if_neg h1]
    exact number_branch_eq _ [a]
  | [a, b] =>
    by_cases h1 : [a, b].take 2 = ['0', 'x'] ∨ [a, b].take 2 = ['0', 'X']
    · rw [if_pos h1]
      have ha : a = '0' ∧ (b = 'x' ∨ b = 'X') := by
        simp only [List.take, List.cons.injEq, and_true] at h1
        rcases h1 with ⟨h2, h3⟩ | ⟨h2, h3⟩
        · exact ⟨h2, Or.inl h3⟩
        · exact ⟨h2, Or.inr h3⟩
      obtain ⟨ha0, hb⟩ := ha
      subst ha0
      exact number_branch_zero_x _ b [] hb (by decide)
    · rw [if_neg h1]
      exact number_branch_eq _ [a, b]
  | a :: b :: c :: r =>
    by_cases h1 : (a :: b :: c :: r).take 2 = ['0', 'x'] ∨ (a :: b :: c :: r).take 2 = ['0', 'X']
    · rw [if_pos h1]
      have ha : a = '0' ∧ (b = 'x' ∨ b = 'X') := by
        simp only [List.take, List.cons.injEq, and_true] at h1
        rcases h1 with ⟨h2, h3⟩ | ⟨h2, h3⟩
        · exact ⟨h2, Or.inl h3⟩
        · exact ⟨h2, Or.inr h3⟩
      obtain ⟨ha0, hb⟩ := ha
      subst ha0
      by_cases hc : (hex_digit c).isSome = true
      · have hs : strip_0x ('0' :: b :: c :: r) = c :: r := by
          simp only [strip_0x]
          rw [if_pos ⟨trivial, hb, hc⟩]
        rw [hs]
        exact number_branch_eq _ (c :: r)
      · have hs : strip_0x ('0' :: b :: c :: r) = '0' :: b :: c :: r := by
          simp only [strip_0x]
          rw [if_neg (fun h => hc h.2.2)]
        rw [hs]
        refine number_branch_zero_x _ b (c :: r) hb ?_
        have : ¬ spec_hex_number (c :: r) = true :=
          fun h => hc (((spec_hex_number_iff _).1 h).2 c (List.mem_cons_self _ _))
        simpa using this
    · rw [if_neg h1]
      have hs : strip_0x (a :: b :: c :: r) = a :: b :: c :: r := by
        simp only [strip_0x]
        rw [if_neg]
        intro h
        apply h1
        simp only [List.take, List.cons.injEq, and_true]
        rcases h.2.1 with hb | hb
        · exact Or.inl ⟨h.1, hb⟩
        · exact Or.inr ⟨h.1, hb⟩
      rw [hs]
      exact number_branch_eq _ (a :: b :: c :: r)

/-- A plain hexadecimal number below `2 ^ 32` is a number in the wide sense,
with the value of its digits. -/
theorem spec_hex_number_wide (s : List Char) (h : spec_hex_number s = true)
    (hlt : spec_hex_value s < 2 ^ 32) : spec_wide_hex_number s = some (spec_hex_value s) := by
  obtain ⟨hne, hall⟩ := (spec_hex_number_iff s).1 h
  have hv : (read_hex 0 s).1 = spec_hex_value s := by rw [read_hex_digits s 0 hall]; rfl
  rw [← complete_x32_eq_wide, hex_digits_complete s hne hall (by rw [hv]; exact hlt), hv]

/-- The two ways in which `parse_register` takes a base that `parse_x32` does
not read completely and that is no table name: `CAP` or `ECAP`, in any case,
followed by a text that `parse_x32` reads completely. -/
theorem parse_register_cap_complete (o : op) (base : List Char)
    (hnum : complete_x32 base = none) (hname : parse_reg_name base = none) :
    (∀ o2, parse_register o base = .ok o2 ↔
      ((strncasecmp_eq base ['C', 'A', 'P'] 3 = true ∧
          ∃ n, complete_x32 (base.drop 3) = some n ∧ n < 0x100 ∧
            o2 = { o with cap_type := PCI_CAP_NORMAL, cap_id := n, addr := 0 }) ∨
       (strncasecmp_eq base ['E', 'C', 'A', 'P'] 4 = true ∧
          ∃ n, complete_x32 (base.drop 4) = some n ∧ n < 0x1000 ∧
            o2 = { o with cap_type := PCI_CAP_EXTENDED, cap_id := n, addr := 0 }))) ∧
    ((∀ o2, parse_register o base ≠ .ok o2) → parse_register o base = .error .unknown_register) ∧
    (∀ s : List Char, s ≠ [] → (∀ ch ∈ s, (hex_digit ch).isSome = true) →
      (read_hex 0 s).1 < 2 ^ 32 → complete_x32 s = some (read_hex 0 s).1) := by
  have h1 : (parse_x32 base).ret ≤ 0 := (complete_x32_eq_none base).1 hnum
  have hexcl : strncasecmp_eq base ['C', 'A', 'P'] 3 = true →
      strncasecmp_eq base ['E', 'C', 'A', 'P'] 4 = true → False := by
    intro ha hb
    simp only [strncasecmp_eq, beq_iff_eq] at ha hb
    match base, ha, hb with
    | [], ha, _ => simp at ha
    | x :: xs, ha, hb =>
      simp only [List.take_succ_cons, List.map_cons, List.cons.injEq] at ha hb
      exact absurd (ha.1.symm.trans hb.1) (by decide)
  refine ⟨?_, ?_, hex_digits_complete⟩
  · intro o2
    rw [parse_register_other o base h1 hname]
    constructor
    · intro h
      by_cases hc : strncasecmp_eq base ['C', 'A', 'P'] 3 = true
      · rw [if_pos hc] at h
        split_ifs at h with h3
        simp only [Except.ok.injEq] at h
        exact Or.inl ⟨hc, _, (complete_x32_iff _ _).2 ⟨h3.1, rfl⟩, h3.2, h.symm⟩
      · rw [if_neg hc] at h
        by_cases he : strncasecmp_eq base ['E', 'C', 'A', 'P'] 4 = true
        · rw [if_pos he] at h
          split_ifs at h with h3
          simp only [Except.ok.injEq] at h
          exact Or.inr ⟨he, _, (complete_x32_iff _ _).2 ⟨h3.1, rfl⟩, h3.2, h.symm⟩
        · rw [if_neg he] at h
          simp at h
    · rintro (⟨hc, n, hn, hlt, ho2⟩ | ⟨he, n, hn, hlt, ho2⟩)
      · obtain ⟨h3, h4⟩ := (complete_x32_iff _ _).1 hn
        rw [if_pos hc, if_pos ⟨h3, by rw [h4]; exact hlt⟩, h4, ho2]
      · obtain ⟨h3, h4⟩ := (complete_x32_iff _ _).1 hn
        have hc : ¬ strncasecmp_eq base ['C', 'A', 'P'] 3 = true := fun hc => hexcl hc he
        rw [if_neg hc, if_pos he, if_pos ⟨h3, by rw [h4]; exact hlt⟩, h4, ho2]
  · intro hno
    rw [parse_register_other o base h1 hname] at hno ⊢
    split_ifs at hno ⊢ with h2 h3 h4 h5
    · exact absurd rfl (hno _)
    · rfl
    · exact absurd rfl (hno _)
    · rfl
    · rfl

/-- The instance text is accepted when `parse_x32` reads it completely and the
number is not negative as an `int`. -/
theorem parse_number_complete (c : List Char) :
    parse_number none = .ok 0 ∧
    (∀ t k, parse_number (some t) = .ok k ↔ (complete_x32 t = some k ∧ k < 0x80000000)) ∧
    (∀ t, (¬ ∃ k, complete_x32 t = some k ∧ k < 0x80000000) →
      parse_number (some t) = .error .invalid_number) ∧
    complete_x32 [] = none ∧
    (∀ o, parse_op c = .ok o → parse_number (split_op c).number = .ok o.number) ∧
    (∀ s : List Char, s ≠ [] → (∀ ch ∈ s, (hex_digit ch).isSome = true) →
      (read_hex 0 s).1 < 2 ^ 32 → complete_x32 s = some (read_hex 0 s).1) := by
  have hint : ∀ n : Nat, n < 2 ^ 32 → (to_int n < 0 ↔ ¬ n < 0x80000000) := by
    intro n hn
    unfold to_int
    split_ifs <;> omega
  have key : ∀ t k, parse_number (some t) = .ok k ↔
      (complete_x32 t = some k ∧ k < 0x80000000) := by
    intro t k
    have hlt := parse_x32_res_lt t
    simp only [parse_number]
    constructor
    · intro h
      split_ifs at h with h1
      simp only [Except.ok.injEq] at h
      simp only [not_or, not_le] at h1
      refine ⟨(complete_x32_iff _ _).2 ⟨h1.1, h⟩, ?_⟩
      rw [← h]
      by_contra hk
      exact h1.2 ((hint _ hlt).2 hk)
    · rintro ⟨h1, h2⟩
      obtain ⟨h3, h4⟩ := (complete_x32_iff _ _).1 h1
      rw [if_neg, h4]
      simp only [not_or, not_le]
      refine ⟨h3, ?_⟩
      rw [h4] at hlt ⊢
      intro hneg
      exact (hint _ hlt).1 hneg h2
  refine ⟨rfl, key, ?_, by decide, ?_, hex_digits_complete⟩
  · intro t hno
    cases h : parse_number (some t) with
    | ok k => exact absurd ⟨k, (key t k).1 h⟩ hno
    | error e =>
      simp only [parse_number] at h
      split_ifs at h
      simp only [Except.error.injEq] at h
      rw [h]
  · intro o h
    obtain ⟨a, vs, ha, _, _, ho⟩ := parse_op_ok c o h
    rw [ho]
    exact parse_op_assemble_number c a ha

/-! ## The claims -/

/-- C1: masked write of `exec_op`.  For a width in {1, 2, 4} and a value
`(value, mask)` whose mask does not cover the width, with `value & mask == value`,
reached at state `s` after the values `pre`: `exec_op` reads `old` at the
address `addr + pre.length * width`, computes and (unless in demo mode) writes
`(old & ~mask) | value` there, and in the low `8 * width` bits every bit of the
written value inside `mask` is the bit of `value`, every bit outside is the bit
of `old`. -/
theorem exec_op_masked_write (demo : Bool) (o : op) (dev : pci_dev) (addr : Int)
    (pre post : List value) (v : value) (s : exec_state) (old : Nat)
    (hw : o.width = 1 ∨ o.width = 2 ∨ o.width = 4)
    (hvals : o.values = pre ++ v :: post)
    (haddr : exec_op_addr o dev = .ok addr)
    (hok : (exec_op demo o dev).err = none)
    (hs : s = exec_values demo (to_int o.width) ⟨dev, addr, (exec_op_hdr o dev).1⟩ pre)
    (hold : old = read_switch s.dev (to_int o.width) s.addr)
    (hmask : v.mask &&& max_values o.width ≠ max_values o.width)
    (hinv : v.value &&& v.mask = v.value) :
    s.addr = addr + (pre.length : Int) * (o.width : Int) ∧
    (exec_values demo (to_int o.width) ⟨dev, addr, (exec_op_hdr o dev).1⟩ (pre ++ [v])).log =
        s.log
          ++ [event.read s.addr o.width old,
              event.trace_masked old v.value v.mask ((old &&& not32 v.mask) ||| v.value)]
          ++ (if demo then []
              else [event.write s.addr o.width ((old &&& not32 v.mask) ||| v.value)]) ∧
    (∃ rest, (exec_op demo o dev).log =
        (exec_values demo (to_int o.width) ⟨dev, addr, (exec_op_hdr o dev).1⟩ (pre ++ [v])).log
          ++ rest) ∧
    ∀ j, j < 8 * o.width →
      ((old &&& not32 v.mask) ||| v.value).testBit j =
        if v.mask.testBit j then v.value.testBit j else old.testBit j := by
  obtain ⟨hwi, hwn, hwl⟩ := width_cases o.width hw
  have hhdr : (exec_op_hdr o dev).2 = none := ((exec_op_err_none demo o dev).1 hok).2
  have hne : o.values ≠ [] := by simp [hvals]
  refine ⟨?_, ?_, ?_, ?_⟩
  · rw [hs, exec_values_addr, hwi]
  · rw [exec_values_append, ← hs, exec_values_cons, exec_values_nil]
    simp only [exec_value, exec_x, hwn, hwl, if_neg hmask, ← hold]
  · have happ : pre ++ v :: post = (pre ++ [v]) ++ post := by simp
    rw [exec_op_log_values demo o dev addr haddr hhdr hne, hvals, happ,
      exec_values_append demo (to_int o.width) _ (pre ++ [v]) post]
    exact exec_values_log_prefix demo (to_int o.width) post _
  · intro j hj
    have hj32 : j < 32 := by
      rcases hw with h | h | h <;> rw [h] at hj <;> omega
    have hv : v.value.testBit j = (v.value.testBit j && v.mask.testBit j) := by
      rw [← Nat.testBit_and, hinv]
    rw [Nat.testBit_or, Nat.testBit_and, testBit_not32 _ _ hj32]
    cases hm : v.mask.testBit j
    · rw [hm] at hv
      simp at hv
      simp [hv]
    · simp

/-- Witness of C1: the operation parsed from `COMMAND=0100:0100`, on a device
whose word at 0x04 reads 0x0006, reads 0x0006 and writes 0x0106 at 0x04; the
word then reads 0x0106. -/
theorem exec_op_masked_write_witness :
    parse_op "COMMAND=0100:0100".toList = .ok command_op ∧
    (command_op.width = 1 ∨ command_op.width = 2 ∨ command_op.width = 4) ∧
    exec_op_addr command_op command_dev = .ok 4 ∧
    (exec_op false command_op command_dev).err = none ∧
    ((0x100 : Nat) &&& max_values command_op.width ≠ max_values command_op.width) ∧
    ((0x100 : Nat) &&& 0x100 = 0x100) ∧
    (exec_op false command_op command_dev).log =
      [event.read 4 2 6, event.trace_masked 6 0x100 0x100 0x106, event.write 4 2 0x106] ∧
    pci_read_word (exec_op false command_op command_dev).dev 4 = 0x106 ∧
    ((4 : Int) = 4 + (([] : List value).length : Int) * (command_op.width : Int) ∧
     (exec_values false (to_int command_op.width)
        ⟨command_dev, 4, (exec_op_hdr command_op command_dev).1⟩ ([] ++ [⟨0x100, 0x100⟩])).log =
        ([] : List event)
          ++ [event.read 4 command_op.width 6,
              event.trace_masked 6 0x100 0x100 ((6 &&& not32 0x100) ||| 0x100)]
          ++ (if false = true then []
              else [event.write 4 command_op.width ((6 &&& not32 0x100) ||| 0x100)]) ∧
     (∃ rest, (exec_op false command_op command_dev).log =
        (exec_values false (to_int command_op.width)
          ⟨command_dev, 4, (exec_op_hdr command_op command_dev).1⟩ ([] ++ [⟨0x100, 0x100⟩])).log
          ++ rest) ∧
     ∀ j, j < 8 * command_op.width →
      ((6 &&& not32 0x100) ||| 0x100).testBit j =
        if (0x100 : Nat).testBit j then (0x100 : Nat).testBit j else (6 : Nat).testBit j) :=
  ⟨rfl, by decide, rfl, by decide, by decide, by decide, by decide, by decide,
   exec_op_masked_write false command_op command_dev 4 [] [] ⟨0x100, 0x100⟩ ⟨command_dev, 4, []⟩ 6
     (by decide) rfl rfl (by decide) rfl rfl (by decide) (by decide)⟩

/-- C2: full-mask bypass of `exec_op`.  For a value whose mask covers the
width of the operation, reached at state `s` after the values `pre`, the events
of that value are the trace of `value` and (unless in demo mode) the write of
`value`, unchanged, at `addr + pre.length * width`: no register is read. -/
theorem exec_op_full_mask_bypass (demo : Bool) (o : op) (dev : pci_dev) (addr : Int)
    (pre post : List value) (v : value) (s : exec_state)
    (hw : o.width = 1 ∨ o.width = 2 ∨ o.width = 4)
    (hvals : o.values = pre ++ v :: post)
    (haddr : exec_op_addr o dev = .ok addr)
    (hok : (exec_op demo o dev).err = none)
    (hs : s = exec_values demo (to_int o.width) ⟨dev, addr, (exec_op_hdr o dev).1⟩ pre)
    (hmask : v.mask &&& max_values o.width = max_values o.width) :
    s.addr = addr + (pre.length : Int) * (o.width : Int) ∧
    (exec_values demo (to_int o.width) ⟨dev, addr, (exec_op_hdr o dev).1⟩ (pre ++ [v])).log =
        s.log ++ [event.trace_value v.value]
          ++ (if demo then [] else [event.write s.addr o.width v.value]) ∧
    (∃ rest, (exec_op demo o dev).log =
        (exec_values demo (to_int o.width) ⟨dev, addr, (exec_op_hdr o dev).1⟩ (pre ++ [v])).log
          ++ rest) := by
  obtain ⟨hwi, hwn, hwl⟩ := width_cases o.width hw
  have hhdr : (exec_op_hdr o dev).2 = none := ((exec_op_err_none demo o dev).1 hok).2
  have hne : o.values ≠ [] := by simp [hvals]
  refine ⟨?_, ?_, ?_⟩
  · rw [hs, exec_values_addr, hwi]
  · rw [exec_values_append, ← hs, exec_values_cons, exec_values_nil]
    simp only [exec_value, exec_x, hwn, hwl, if_pos hmask]
  · have happ : pre ++ v :: post = (pre ++ [v]) ++ post := by simp
    rw [exec_op_log_values demo o dev addr haddr hhdr hne, hvals, happ,
      exec_values_append demo (to_int o.width) _ (pre ++ [v]) post]
    exact exec_values_log_prefix demo (to_int o.width) post _

/-- Witness of C2: the second value of `ECAP_VNDR+8.L=0,0,0` (default mask) on a
device with the capability at 0xff0 is written at 0xffc without a read. -/
theorem exec_op_full_mask_bypass_witness :
    (vndr_op.width = 1 ∨ vndr_op.width = 2 ∨ vndr_op.width = 4) ∧
    vndr_op.values = [⟨0, 0xffffffff⟩] ++ ⟨0, 0xffffffff⟩ :: [⟨0, 0xffffffff⟩] ∧
    exec_op_addr vndr_op vndr_dev = .ok 0xff8 ∧
    (exec_op false vndr_op vndr_dev).err = none ∧
    ((0xffffffff : Nat) &&& max_values vndr_op.width = max_values vndr_op.width) ∧
    ((0xffc : Int) = 0xff8 + (([⟨0, 0xffffffff⟩] : List value).length : Int) * (vndr_op.width : Int) ∧
     (exec_values false (to_int vndr_op.width) ⟨vndr_dev, 0xff8, (exec_op_hdr vndr_op vndr_dev).1⟩
        ([⟨0, 0xffffffff⟩] ++ [⟨0, 0xffffffff⟩])).log =
        [event.trace_value 0, event.write 0xff8 4 0] ++ [event.trace_value 0]
          ++ (if false = true then [] else [event.write 0xffc vndr_op.width 0]) ∧
     (∃ rest, (exec_op false vndr_op vndr_dev).log =
        (exec_values false (to_int vndr_op.width) ⟨vndr_dev, 0xff8, (exec_op_hdr vndr_op vndr_dev).1⟩
          ([⟨0, 0xffffffff⟩] ++ [⟨0, 0xffffffff⟩])).log ++ rest)) :=
  ⟨by decide, rfl, rfl, by decide, by decide,
   exec_op_full_mask_bypass false vndr_op vndr_dev 0xff8 [⟨0, 0xffffffff⟩] [⟨0, 0xffffffff⟩]
     ⟨0, 0xffffffff⟩
     ⟨pci_write_long vndr_dev 0xff8 0, 0xffc, [event.trace_value 0, event.write 0xff8 4 0]⟩
     (by decide) rfl rfl (by decide) rfl (by decide)⟩

/-- C3, evaluated at the failing input: the token `ECAP_VNDR+8.L=0,0,0` is
accepted by `parse_op`; on a device whose vendor-specific extended capability is
at 0xff0 `exec_op` does not abort and issues a long write at 0x1000, one past
the end of the 4096-byte register space. -/
theorem exec_op_write_past_end :
    parse_op "ECAP_VNDR+8.L=0,0,0".toList = .ok vndr_op ∧
    (exec_op false vndr_op vndr_dev).err = none ∧
    (exec_op false vndr_op vndr_dev).log =
      [event.trace_value 0, event.write 0xff8 4 0, event.trace_value 0, event.write 0xffc 4 0,
       event.trace_value 0, event.write 0x1000 4 0] ∧
    ¬ ((0x1000 : Int) + 4 ≤ 0x1000) :=
  ⟨rfl, by decide, by decide, by decide⟩

/-- C4: alignment at execution.  For a width `w` in {1, 2, 4}: when `exec_op`
does not abort, every register access in its log other than the header-type
read is of width `w`, at `addr + i * w` for an `i` below the number of values
(`i = 0` for a read), and at a multiple of `w`; after a successful capability
lookup with base `base` (0 without a capability), `exec_op` dies with the
unaligned-access message exactly when `base + op.addr` is not a multiple of
`w`; after a failed lookup it dies with the lookup's message. -/
theorem exec_op_alignment (demo : Bool) (o : op) (dev : pci_dev)
    (hw : o.width = 1 ∨ o.width = 2 ∨ o.width = 4) :
    (∀ addr, exec_op_addr o dev = .ok addr → (exec_op demo o dev).err = none →
      ∀ e ∈ (exec_op demo o dev).log, ∀ pos len, e.access = some (pos, len) →
        e ∈ (exec_op_hdr o dev).1 ∨
        (len = o.width ∧ (∃ i : Nat, i < max o.num_values 1 ∧ pos = addr + (i : Int) * o.width)
          ∧ (o.width : Int) ∣ pos)) ∧
    (∀ base, exec_op_cap o dev = .ok base →
      ((∃ w a, (exec_op demo o dev).err = some (.unaligned w a)) ↔
        ¬ ((o.width : Int) ∣ base + o.addr))) ∧
    (∀ e, exec_op_cap o dev = .error e →
      (exec_op demo o dev).err = some e ∧ ∀ w a, e ≠ .unaligned w a) := by
  obtain ⟨hwi, hwn, hwl⟩ := width_cases o.width hw
  refine ⟨?_, ?_, ?_⟩
  · intro addr haddr hok e he pos len hacc
    have hhdr : (exec_op_hdr o dev).2 = none := ((exec_op_err_none demo o dev).1 hok).2
    obtain ⟨base, _, _, hal, _⟩ := exec_op_addr_ok o dev addr haddr
    have hdvd : (o.width : Int) ∣ addr := (to_uint_and_width o.width addr hw).1 hal
    have key : e ∈ (exec_op_hdr o dev).1 ∨
        ∃ i : Nat, i < max o.num_values 1 ∧ e.access = some (addr + (i : Int) * o.width, o.width) := by
      by_cases hn : o.values = []
      · rw [exec_op_log_read demo o dev addr haddr hhdr hn, hwl, hwi] at he
        simp only [List.mem_append, List.mem_cons, List.mem_singleton, List.not_mem_nil,
          or_false] at he
        rcases he with he | he | he
        · exact Or.inl he
        · subst he
          right
          exact ⟨0, by simp, by simp [event.access]⟩
        · subst he
          simp [event.access] at hacc
      · rw [exec_op_log_values demo o dev addr haddr hhdr hn] at he
        rcases exec_values_access demo _ _ _ e he with h1 | h1 | ⟨i, hi, h1⟩
        · exact Or.inl h1
        · rw [h1] at hacc; simp at hacc
        · right
          refine ⟨i, ?_, ?_⟩
          · simp only [op.num_values]; omega
          · rw [h1, hwl, hwi]
    rcases key with h1 | ⟨i, hi, h1⟩
    · exact Or.inl h1
    · right
      rw [h1] at hacc
      simp only [Option.some.injEq, Prod.mk.injEq] at hacc
      obtain ⟨hp, hl⟩ := hacc
      subst hp hl
      exact ⟨rfl, ⟨i, hi, rfl⟩, Dvd.dvd.add hdvd (Dvd.intro_left _ rfl)⟩
  · intro base hbase
    rw [← to_int_add_dvd o.width base o.addr hw, ← to_uint_and_width o.width _ hw]
    have h1 := exec_op_addr_of_cap o dev base hbase
    constructor
    · rintro ⟨w, a, herr⟩
      intro hz
      rw [if_neg (by simpa using hz)] at h1
      split at h1
      · rw [(exec_op_addr_error demo o dev _ h1).1] at herr
        simp at herr
      · rw [exec_op_addr_ok_err demo o dev _ h1] at herr
        rcases exec_op_hdr_err o dev with h2 | h2 <;> rw [h2] at herr <;> simp at herr
    · intro hz
      rw [if_pos hz] at h1
      exact ⟨_, _, (exec_op_addr_error demo o dev _ h1).1⟩
  · intro e he
    obtain ⟨h1, h2, _⟩ := exec_op_cap_error o dev e he
    exact ⟨(exec_op_addr_error demo o dev e h1).1, h2⟩

/-- Witness of C4: `COMMAND=0100:0100` (width 2 at 0x04) is aligned and does
not die; the same operation moved to address 5 dies with the unaligned-access
message. -/
theorem exec_op_alignment_witness :
    (command_op.width = 1 ∨ command_op.width = 2 ∨ command_op.width = 4) ∧
    exec_op_cap command_op command_dev = .ok 0 ∧
    (exec_op false command_op command_dev).err = none ∧
    (exec_op false { command_op with addr := 5 } command_dev).err = some (.unaligned 2 5) ∧
    ((∃ w a, (exec_op false command_op command_dev).err = some (.unaligned w a)) ↔
        ¬ ((command_op.width : Int) ∣ 0 + command_op.addr)) :=
  ⟨by decide, rfl, by decide, by decide,
   (exec_op_alignment false command_op command_dev (by decide)).2.1 0 rfl⟩

/-- C5: validation in `parse_op`.  For a token (shorter than `2 ^ 29`
characters, so that the `unsigned int` arithmetic on the number of values does
not wrap): if it is accepted, the operation has `addr < 0x1000`,
`addr + width * max (num_values, 1) ≤ 0x1000` and `addr % width = 0`; and if the
operation assembled from it violates one of the three, the token is rejected
with the out-of-range or the unaligned-address parse error. -/
theorem parse_op_validation (c : List Char) (hlen : c.length < 2 ^ 29) :
    (∀ o, parse_op c = .ok o →
      o.addr < 0x1000 ∧ o.addr + o.width * max o.num_values 1 ≤ 0x1000 ∧ o.addr % o.width = 0) ∧
    (∀ a, parse_op_assemble c = .ok a →
      ¬ (a.o.addr < 0x1000 ∧ a.o.addr + a.o.width * max a.n 1 ≤ 0x1000
          ∧ a.o.addr % a.o.width = 0) →
      parse_op c = .error .register_out_of_range ∨ parse_op c = .error .unaligned_register) := by
  constructor
  · intro o h
    obtain ⟨a, vs, ha, hu, hvs, ho⟩ := parse_op_ok c o h
    obtain ⟨hw, _, _, hn⟩ := parse_op_assemble_ok c a ha
    have hc := ((parse_op_check_ok a.o a.n hw (by omega)).1).1 hu
    have hl := (parse_values_ok _ _ _ _ hvs).1
    subst ho
    simpa [op.num_values, hl] using hc
  · intro a ha hviol
    obtain ⟨hw, _, _, hn⟩ := parse_op_assemble_ok c a ha
    obtain ⟨hiff, hcases⟩ := parse_op_check_ok a.o a.n hw (by omega)
    rcases hcases with h1 | h1 | h1
    · exact absurd (hiff.1 h1) hviol
    · left; simp [parse_op, ha, h1]
    · right; simp [parse_op, ha, h1]

/-- Witness of C5: `3.L` (address 3, width 4) and `FFE.L` (0xffe + 4 > 0x1000)
are rejected; `COMMAND=0100:0100` is accepted and satisfies the three
conditions. -/
theorem parse_op_validation_witness :
    "3.L".toList.length < 2 ^ 29 ∧
    parse_op "3.L".toList = .error .unaligned_register ∧
    parse_op "FFE.L".toList = .error .register_out_of_range ∧
    (command_op.addr < 0x1000 ∧ command_op.addr + command_op.width * max command_op.num_values 1
        ≤ 0x1000 ∧ command_op.addr % command_op.width = 0) ∧
    (parse_op "3.L".toList = .error .register_out_of_range
      ∨ parse_op "3.L".toList = .error .unaligned_register) :=
  ⟨by decide, rfl, rfl,
   (parse_op_validation "COMMAND=0100:0100".toList (by decide)).1 command_op rfl,
   (parse_op_validation "3.L".toList (by decide)).2
     { o := { cap_type := 0, cap_id := 0, name := none, hdr_type_mask := 0, addr := 3,
              width := 4, number := 0, values := [] },
       n := 0, value := none } rfl (by decide)⟩

/-- C6: capability instance resolution.  For an operation that references a
capability, with `N` the number of capabilities of that type and id on the
device and `k = op.number`: if `k < N` the lookup yields the base of the `k`-th
such capability (0-based, device order) and the final address is that base plus
`op.addr` (as a C `int`; the plain sum when it is below `2 ^ 31`); if `k ≥ N`,
`exec_op` dies before any register access, with the "no capabilities" message
if and only if `N = 0` and with the "there is/are only N" message if and only
if `N > 0`, worded in the singular exactly when `N = 1`. -/
theorem exec_op_capability_instance (demo : Bool) (o : op) (dev : pci_dev)
    (hcap : o.cap_type ≠ 0) :
    (∀ h : o.number < (matching_caps dev o.cap_id o.cap_type).length,
      exec_op_cap o dev =
        .ok (to_int ((matching_caps dev o.cap_id o.cap_type).get ⟨o.number, h⟩).addr) ∧
      ∀ a, exec_op_addr o dev = .ok a →
        a = to_int (((matching_caps dev o.cap_id o.cap_type).get ⟨o.number, h⟩).addr + o.addr) ∧
        (((matching_caps dev o.cap_id o.cap_type).get ⟨o.number, h⟩).addr + o.addr < 2 ^ 31 →
          a = ((((matching_caps dev o.cap_id o.cap_type).get ⟨o.number, h⟩).addr + o.addr : Nat)
                : Int))) ∧
    ((matching_caps dev o.cap_id o.cap_type).length ≤ o.number →
      (exec_op demo o dev).log = [] ∧
      ((matching_caps dev o.cap_id o.cap_type).length = 0 ↔
        (exec_op demo o dev).err = some (.no_caps o.number
          (if o.cap_type = PCI_CAP_NORMAL then "Capability" else "Extended capability")
          o.cap_id)) ∧
      (0 < (matching_caps dev o.cap_id o.cap_type).length ↔
        (exec_op demo o dev).err = some (.only_caps o.number
          (if o.cap_type = PCI_CAP_NORMAL then "Capability" else "Extended capability") o.cap_id
          (if (matching_caps dev o.cap_id o.cap_type).length = 1 then "is" else "are")
          (matching_caps dev o.cap_id o.cap_type).length
          (if (matching_caps dev o.cap_id o.cap_type).length = 1 then "capability"
           else "capabilities")))) := by
  constructor
  · intro h
    have hc : exec_op_cap o dev =
        .ok (to_int ((matching_caps dev o.cap_id o.cap_type).get ⟨o.number, h⟩).addr) := by
      simp [exec_op_cap, hcap, pci_find_cap_nr, List.getElem?_eq_getElem h]
    refine ⟨hc, ?_⟩
    intro a ha
    obtain ⟨base, hb, hab, _, _⟩ := exec_op_addr_ok o dev a ha
    rw [hc] at hb
    simp only [Except.ok.injEq] at hb
    rw [← hb, to_int_to_uint_add] at hab
    refine ⟨hab, ?_⟩
    intro hlt
    rw [hab]
    unfold to_int
    split_ifs <;> omega
  · intro h
    have hnone : (matching_caps dev o.cap_id o.cap_type)[o.number]? = none :=
      List.getElem?_eq_none h
    by_cases hN : (matching_caps dev o.cap_id o.cap_type).length = 0
    · have hc : exec_op_cap o dev = .error (.no_caps o.number
          (if o.cap_type = PCI_CAP_NORMAL then "Capability" else "Extended capability")
          o.cap_id) := by
        simp [exec_op_cap, hcap, pci_find_cap_nr, hnone, hN]
      obtain ⟨h1, _⟩ := exec_op_cap_error o dev _ hc
      obtain ⟨h2, h3⟩ := exec_op_addr_error demo o dev _ h1
      refine ⟨h3, ?_, ?_⟩
      · simp [hN, h2]
      · rw [h2]; simp [hN]
    · have hc : exec_op_cap o dev = .error (.only_caps o.number
          (if o.cap_type = PCI_CAP_NORMAL then "Capability" else "Extended capability") o.cap_id
          (if (matching_caps dev o.cap_id o.cap_type).length = 1 then "is" else "are")
          (matching_caps dev o.cap_id o.cap_type).length
          (if (matching_caps dev o.cap_id o.cap_type).length = 1 then "capability"
           else "capabilities")) := by
        simp [exec_op_cap, hcap, pci_find_cap_nr, hnone, hN]
      obtain ⟨h1, _⟩ := exec_op_cap_error o dev _ hc
      obtain ⟨h2, h3⟩ := exec_op_addr_error demo o dev _ h1
      refine ⟨h3, ?_, ?_⟩
      · rw [h2]; simp [hN]
      · rw [h2]; simp; omega

/-- Witness of C6: `CAP_PM+4.B@1` on a device with two Power-Management
capabilities (at 0x40 and 0x50) reads the byte at 0x54; instance 2 does not
exist and the message says "there are only 2 capabilities". -/
theorem exec_op_capability_instance_witness :
    parse_op "CAP_PM+4.B@1".toList = .ok pm_op ∧
    pm_op.cap_type ≠ 0 ∧
    matching_caps pm_dev pm_op.cap_id pm_op.cap_type = [⟨1, 1, 0x40⟩, ⟨1, 1, 0x50⟩] ∧
    exec_op_addr pm_op pm_dev = .ok 0x54 ∧
    (exec_op false pm_op pm_dev).log = [event.read 0x54 1 0xab, event.print 1 0xab] ∧
    (exec_op false { pm_op with number := 2 } pm_dev).err =
      some (.only_caps 2 "Capability" 1 "are" 2 "capabilities") ∧
    exec_op_cap pm_op pm_dev =
      .ok (to_int ((matching_caps pm_dev pm_op.cap_id pm_op.cap_type).get
        ⟨pm_op.number, by decide⟩).addr) :=
  ⟨rfl, by decide, by decide, rfl, by decide, by decide,
   ((exec_op_capability_instance false pm_op pm_dev (by decide)).1 (by decide)).1⟩

/-- C7: header-type test of `exec_op`.  For an operation that reaches the test
(capability found, final address aligned and in range), with `h` the byte read
at 0x0e and `t = h & 0x7f`: when `hdr_type_mask` is not 0, `exec_op` first
reads that byte and dies with "Does not have register" if and only if `t > 2` or
bit `t` of the mask is clear; when `hdr_type_mask` is 0 it neither reads the
byte nor dies: its events are those of the read or of the loop over the values
alone. -/
theorem exec_op_header_gate (demo : Bool) (o : op) (dev : pci_dev) (addr : Int)
    (haddr : exec_op_addr o dev = .ok addr) :
    (o.hdr_type_mask ≠ 0 →
      (∃ rest, (exec_op demo o dev).log =
        event.read 0x0e 1 (pci_read_byte dev 0x0e) :: rest) ∧
      ((exec_op demo o dev).err = some (.no_register o.name) ↔
        (pci_read_byte dev 0x0e &&& 0x7f > 2 ∨
          o.hdr_type_mask.testBit (pci_read_byte dev 0x0e &&& 0x7f) = false))) ∧
    (o.hdr_type_mask = 0 →
      (exec_op demo o dev).err = none ∧
      (exec_op demo o dev).log =
        if o.values = [] then
          [event.read addr (switch_len (to_int o.width)) (read_switch dev (to_int o.width) addr),
           event.print (to_int o.width) (read_switch dev (to_int o.width) addr)]
        else (exec_values demo (to_int o.width) ⟨dev, addr, []⟩ o.values).log) := by
  constructor
  · intro hm
    have herr := exec_op_addr_ok_err demo o dev addr haddr
    by_cases hc : pci_read_byte dev 0x0e &&& 0x7f > 2 ∨
        o.hdr_type_mask.testBit (pci_read_byte dev 0x0e &&& 0x7f) = false
    · have hh : exec_op_hdr o dev =
          ([.read 0x0e 1 (pci_read_byte dev 0x0e)], some (.no_register o.name)) := by
        have hc2 : pci_read_byte dev 0x0e &&& 0x7f > 2 ∨
            (1 <<< (pci_read_byte dev 0x0e &&& 0x7f)) &&& o.hdr_type_mask = 0 := by
          rw [one_shiftLeft_and_eq_zero]; exact hc
        unfold exec_op_hdr PCI_HEADER_TYPE
        rw [if_pos hm, if_pos hc2]
      refine ⟨⟨[], ?_⟩, ?_⟩
      · simp [exec_op, haddr, hh]
      · rw [herr, hh]; simp [hc]
    · have hh : exec_op_hdr o dev = ([.read 0x0e 1 (pci_read_byte dev 0x0e)], none) := by
        have hc2 : ¬ (pci_read_byte dev 0x0e &&& 0x7f > 2 ∨
            (1 <<< (pci_read_byte dev 0x0e &&& 0x7f)) &&& o.hdr_type_mask = 0) := by
          rw [one_shiftLeft_and_eq_zero]; exact hc
        unfold exec_op_hdr PCI_HEADER_TYPE
        rw [if_pos hm, if_neg hc2]
      refine ⟨?_, ?_⟩
      · by_cases hn : o.values = []
        · rw [exec_op_log_read demo o dev addr haddr (by rw [hh]) hn, hh]
          exact ⟨_, rfl⟩
        · rw [exec_op_log_values demo o dev addr haddr (by rw [hh]) hn, hh]
          obtain ⟨r, hr⟩ := exec_values_log_prefix demo (to_int o.width) o.values
            ⟨dev, addr, [.read 0x0e 1 (pci_read_byte dev 0x0e)]⟩
          rw [hr]
          exact ⟨r, rfl⟩
      · rw [herr, hh]; simp [hc]
  · intro hm
    have hh : exec_op_hdr o dev = ([], none) := by
      simp [exec_op_hdr, hm]
    refine ⟨?_, ?_⟩
    · rw [exec_op_addr_ok_err demo o dev addr haddr, hh]
    · by_cases hn : o.values = []
      · rw [exec_op_log_read demo o dev addr haddr (by rw [hh]) hn, hh, if_pos hn]
        rfl
      · rw [exec_op_log_values demo o dev addr haddr (by rw [hh]) hn, hh, if_neg hn]

/-- Witness of C7: `BASE_ADDRESS_2` (valid for header type 0 only) on a
multi-function bridge, whose header-type register reads 0x81, dies with "Does
not have register" after reading that byte. -/
theorem exec_op_header_gate_witness :
    parse_op "BASE_ADDRESS_2".toList = .ok bar2_op ∧
    exec_op_addr bar2_op bridge_dev = .ok 0x18 ∧
    bar2_op.hdr_type_mask ≠ 0 ∧
    (exec_op false bar2_op bridge_dev).log = [event.read 0x0e 1 0x81] ∧
    (exec_op false bar2_op bridge_dev).err = some (.no_register (some "BASE_ADDRESS_2")) ∧
    ((∃ rest, (exec_op false bar2_op bridge_dev).log =
        event.read 0x0e 1 (pci_read_byte bridge_dev 0x0e) :: rest) ∧
      ((exec_op false bar2_op bridge_dev).err = some (.no_register bar2_op.name) ↔
        (pci_read_byte bridge_dev 0x0e &&& 0x7f > 2 ∨
          bar2_op.hdr_type_mask.testBit (pci_read_byte bridge_dev 0x0e &&& 0x7f) = false))) :=
  ⟨rfl, rfl, by decide, by decide, by decide,
   (exec_op_header_gate false bar2_op bridge_dev 0x18 rfl).1 (by decide)⟩

/-- C8: demo mode.  For a width in {1, 2, 4} and a device that is a plain
register map: with `demo_mode` set `exec_op` issues no write and leaves the
registers as they are, and its events are those of the run with `demo_mode`
clear from the same device with the writes taken out: the same reads returning
the same values, the same traces of the computed values `x`, the same printed
value, in the same order; it dies with the same error, if any. -/
theorem exec_op_demo_mode (o : op) (dev : pci_dev)
    (hw : o.width = 1 ∨ o.width = 2 ∨ o.width = 4) :
    (∀ e ∈ (exec_op true o dev).log, e.writes = false) ∧
    (exec_op true o dev).log = (exec_op false o dev).log.filter (fun e => !e.writes) ∧
    (exec_op true o dev).err = (exec_op false o dev).err ∧
    (exec_op true o dev).dev.cfg = dev.cfg := by
  obtain ⟨hwi, hwn, hwl⟩ := width_cases o.width hw
  have hlog : (exec_op true o dev).log =
      (exec_op false o dev).log.filter (fun e => !e.writes) := by
    cases h1 : exec_op_addr o dev with
    | error e => simp [exec_op, h1]
    | ok a =>
      have hh : (exec_op_hdr o dev).1 = (exec_op_hdr o dev).1.filter (fun e => !e.writes) := by
        unfold exec_op_hdr
        split
        · split <;> simp [event.writes]
        · simp
      cases h2 : (exec_op_hdr o dev).2 with
      | some e =>
        simp only [exec_op, h1, h2]
        exact hh
      | none =>
        by_cases hn : o.values = []
        · rw [exec_op_log_read true o dev a h1 h2 hn, exec_op_log_read false o dev a h1 h2 hn,
            List.filter_append, ← hh]
          simp [event.writes]
        · rw [exec_op_log_values true o dev a h1 h2 hn, exec_op_log_values false o dev a h1 h2 hn,
            hwi]
          exact exec_values_demo_sim o.width hw o.values _ _ rfl (fun _ _ => rfl) hh
  refine ⟨?_, hlog, ?_, ?_⟩
  · intro e he
    rw [hlog, List.mem_filter] at he
    simpa using he.2
  · cases h1 : exec_op_addr o dev with
    | error e => rw [(exec_op_addr_error true o dev e h1).1, (exec_op_addr_error false o dev e h1).1]
    | ok a => rw [exec_op_addr_ok_err true o dev a h1, exec_op_addr_ok_err false o dev a h1]
  · unfold exec_op
    cases h1 : exec_op_addr o dev with
    | error e => rfl
    | ok a =>
      cases h2 : (exec_op_hdr o dev).2 with
      | some e => rfl
      | none =>
        by_cases h3 : o.num_values ≠ 0
        · simp only [h3, if_true, ne_eq, not_false_eq_true]
          rw [exec_values_demo_dev]
        · simp only [h3, if_false]

/-- Witness of C8: `COMMAND=0100:0100` in demo mode reads 0x0006, reports
0x0106 and writes nothing; the normal run has the same events and the write. -/
theorem exec_op_demo_mode_witness :
    (command_op.width = 1 ∨ command_op.width = 2 ∨ command_op.width = 4) ∧
    (exec_op true command_op command_dev).log =
      [event.read 4 2 6, event.trace_masked 6 0x100 0x100 0x106] ∧
    (exec_op false command_op command_dev).log =
      [event.read 4 2 6, event.trace_masked 6 0x100 0x100 0x106, event.write 4 2 0x106] ∧
    ((∀ e ∈ (exec_op true command_op command_dev).log, e.writes = false) ∧
     (exec_op true command_op command_dev).log =
       (exec_op false command_op command_dev).log.filter (fun e => !e.writes) ∧
     (exec_op true command_op command_dev).err = (exec_op false command_op command_dev).err ∧
     (exec_op true command_op command_dev).dev.cfg = command_dev.cfg) :=
  ⟨by decide, by decide, by decide, exec_op_demo_mode command_op command_dev (by decide)⟩

/-- C9: value pairs are pre-masked.  Every value of an operation accepted by
`parse_op`, written with or without a `:mask`, satisfies
`value & mask == value`. -/
theorem parse_op_value_premasked (c : List Char) (o : op) (h : parse_op c = .ok o) :
    ∀ v ∈ o.values, v.value &&& v.mask = v.value := by
  obtain ⟨a, vs, _, _, hvs, ho⟩ := parse_op_ok c o h
  subst ho
  intro v hv
  obtain ⟨e, he⟩ := (parse_values_ok _ _ _ _ hvs).2 v hv
  exact (parse_value_ok _ e v he).1

/-- Witness of C9: `0.W=1234:ff,5678` stores `(0x34, 0xff)` and
`(0x5678, 0xffffffff)`. -/
theorem parse_op_value_premasked_witness :
    parse_op "0.W=1234:ff,5678".toList =
      .ok { cap_type := 0, cap_id := 0, name := none, hdr_type_mask := 0, addr := 0, width := 2,
            number := 0, values := [⟨0x34, 0xff⟩, ⟨0x5678, 0xffffffff⟩] } ∧
    ∀ v ∈ [(⟨0x34, 0xff⟩ : value), ⟨0x5678, 0xffffffff⟩], v.value &&& v.mask = v.value :=
  ⟨rfl, parse_op_value_premasked "0.W=1234:ff,5678".toList
    { cap_type := 0, cap_id := 0, name := none, hdr_type_mask := 0, addr := 0, width := 2,
      number := 0, values := [⟨0x34, 0xff⟩, ⟨0x5678, 0xffffffff⟩] } rfl⟩

/-- C10 fails as stated: the token `0.B=1` is accepted with width 1, its value
has no `:mask` part, and the stored mask is 0xffffffff, not 0xff. -/
theorem parse_op_default_mask_not_width :
    parse_op "0.B=1".toList =
      .ok { cap_type := 0, cap_id := 0, name := none, hdr_type_mask := 0, addr := 0, width := 1,
            number := 0, values := [⟨1, 0xffffffff⟩] } ∧
    (split_op "0.B=1".toList).value = some ['1'] ∧
    ':' ∉ ['1'] ∧
    max_values 1 = 0xff ∧
    (⟨1, 0xffffffff⟩ : value).mask ≠ max_values 1 :=
  ⟨rfl, rfl, by decide, rfl, by decide⟩

/-- C10, amended: for an accepted token with a value list `text`, the
operation has one value for each element of the list, and the value of an
element written without a `:mask` part has the mask 0xffffffff, all 32 bits,
whatever the width; restricted to the width it is the all-ones value of the
width (`mask & max_values[width] == max_values[width]`). -/
theorem parse_op_default_mask (c : List Char) (o : op) (text : List Char)
    (h : parse_op c = .ok o) (ht : (split_op c).value = some text) :
    o.values.length = (value_elems text).length ∧
    ∀ (j : Nat) (h1 : j < (value_elems text).length) (h2 : j < o.values.length),
      ':' ∉ (value_elems text).get ⟨j, h1⟩ →
        (o.values.get ⟨j, h2⟩).mask = 0xffffffff ∧
        (o.values.get ⟨j, h2⟩).mask &&& max_values o.width = max_values o.width := by
  obtain ⟨a, vs, ha, _, hvs, ho⟩ := parse_op_ok c o h
  obtain ⟨hw, hval, hcount, _⟩ := parse_op_assemble_ok c a ha
  subst ho
  rw [hval, ht] at hvs
  rw [ht] at hcount
  have hn : a.n = text.count ',' + 1 := by
    rcases count_values_ok _ _ hcount with ⟨h0, _⟩ | ⟨t, ht2, hn⟩
    · simp at h0
    · simp only [Option.some.injEq] at ht2
      subst ht2
      omega
  have hall := parse_values_elems a.o.width a.n text vs hvs hn
  refine ⟨hall.length_eq.symm, ?_⟩
  intro j h1 h2 hcolon
  have hj := hall.get h1 h2
  have hm := (parse_value_ok _ _ _ hj).2.1 hcolon
  refine ⟨hm, ?_⟩
  simp only at hm ⊢
  rw [hm]
  rcases hw with hw | hw | hw <;> rw [hw] <;> decide

/-- Witness of C10 as amended: in `0.B=1,2:f` the first element has no mask and
gets 0xffffffff. -/
theorem parse_op_default_mask_witness :
    parse_op "0.B=1,2:f".toList =
      .ok { cap_type := 0, cap_id := 0, name := none, hdr_type_mask := 0, addr := 0, width := 1,
            number := 0, values := [⟨1, 0xffffffff⟩, ⟨2, 0xf⟩] } ∧
    (split_op "0.B=1,2:f".toList).value = some "1,2:f".toList ∧
    value_elems "1,2:f".toList = ["1".toList, "2:f".toList] ∧
    ([(⟨1, 0xffffffff⟩ : value), ⟨2, 0xf⟩].length = (value_elems "1,2:f".toList).length ∧
     ∀ (j : Nat) (h1 : j < (value_elems "1,2:f".toList).length)
        (h2 : j < [(⟨1, 0xffffffff⟩ : value), ⟨2, 0xf⟩].length),
      ':' ∉ (value_elems "1,2:f".toList).get ⟨j, h1⟩ →
        ([(⟨1, 0xffffffff⟩ : value), ⟨2, 0xf⟩].get ⟨j, h2⟩).mask = 0xffffffff ∧
        ([(⟨1, 0xffffffff⟩ : value), ⟨2, 0xf⟩].get ⟨j, h2⟩).mask &&& max_values 1
          = max_values 1) :=
  ⟨rfl, rfl, by decide,
   parse_op_default_mask "0.B=1,2:f".toList
    { cap_type := 0, cap_id := 0, name := none, hdr_type_mask := 0, addr := 0, width := 1,
      number := 0, values := [⟨1, 0xffffffff⟩, ⟨2, 0xf⟩] } "1,2:f".toList rfl rfl⟩

/-- C11 fails as stated: with width 1 the value literal 0xffffff00 is accepted
(token `0.B=ffffff00`), although it is above 0xff and is not the sign extension
of a negative byte (it is below `2 ^ 32 - 2 ^ 7`). -/
theorem parse_op_literal_not_sign_extension :
    parse_op "0.B=ffffff00".toList =
      .ok { cap_type := 0, cap_id := 0, name := none, hdr_type_mask := 0, addr := 0, width := 1,
            number := 0, values := [⟨0xffffff00, 0xffffffff⟩] } ∧
    complete_x32 "ffffff00".toList = some 0xffffff00 ∧
    ¬ ((0xffffff00 : Nat) ≤ max_values 1) ∧
    ¬ ((0xffffff00 : Nat) ≥ 2 ^ 32 - 2 ^ (8 * 1 - 1)) :=
  ⟨rfl, by decide, by decide, by decide⟩

/-- C11, amended: for an accepted read token of width `w` followed by `=` and a
value literal `v`, or by `=`, a value literal in range, `:` and a mask literal
`m`: the literal is accepted if and only if it is at most `max_values[w]` or
all its bits above the width are 1 (`v ≥ 2 ^ 32 - 2 ^ (8 * w)`), whatever the
sign bit of the width; every other literal is rejected as out of range; in
particular every sign extension of a negative `w`-byte value
(`v ≥ 2 ^ 32 - 2 ^ (8 * w - 1)`) is accepted. -/
theorem parse_op_literal_range_rule (pre : List Char) (o : op) (a b : List Char) (v m : Nat)
    (hpre : parse_op pre = .ok o) (heq : '=' ∉ pre)
    (ha : complete_x32 a = some v) (hb : complete_x32 b = some m) :
    ((∃ o2, parse_op (pre ++ '=' :: a) = .ok o2) ↔
      (v ≤ max_values o.width ∨ 2 ^ 32 - 2 ^ (8 * o.width) ≤ v)) ∧
    (¬ (v ≤ max_values o.width ∨ 2 ^ 32 - 2 ^ (8 * o.width) ≤ v) →
      parse_op (pre ++ '=' :: a) = .error .value_out_of_range) ∧
    (2 ^ 32 - 2 ^ (8 * o.width - 1) ≤ v → ∃ o2, parse_op (pre ++ '=' :: a) = .ok o2) ∧
    ((v ≤ max_values o.width ∨ 2 ^ 32 - 2 ^ (8 * o.width) ≤ v) →
      ((∃ o2, parse_op (pre ++ '=' :: (a ++ ':' :: b)) = .ok o2) ↔
        (m ≤ max_values o.width ∨ 2 ^ 32 - 2 ^ (8 * o.width) ≤ m)) ∧
      (¬ (m ≤ max_values o.width ∨ 2 ^ 32 - 2 ^ (8 * o.width) ≤ m) →
        parse_op (pre ++ '=' :: (a ++ ':' :: b)) = .error .mask_out_of_range)) := by
  obtain ⟨h1, h2, h3⟩ := parse_op_literal_iff pre o a b v m hpre heq ha hb
  obtain ⟨_, hk, hs⟩ := max_values_pow o.width (parse_op_width pre o hpre)
  rw [hk] at h1 h2 h3
  refine ⟨h1, h2, ?_, h3⟩
  intro h
  exact h1.2 (Or.inr (le_trans hs h))

/-- Witness of C11 as amended: after `0.B`, the literal 0xffffff00 is accepted
and 0xfffffeff is rejected; 0xffffff80, the sign extension of -128, is
accepted. -/
theorem parse_op_literal_range_rule_witness :
    parse_op "0.B".toList =
      .ok { cap_type := 0, cap_id := 0, name := none, hdr_type_mask := 0, addr := 0, width := 1,
            number := 0, values := [] } ∧
    '=' ∉ "0.B".toList ∧
    complete_x32 "ffffff80".toList = some 0xffffff80 ∧
    complete_x32 "0f".toList = some 0x0f ∧
    parse_op "0.B=ffffff80:0f".toList =
      .ok { cap_type := 0, cap_id := 0, name := none, hdr_type_mask := 0, addr := 0, width := 1,
            number := 0, values := [⟨0, 0x0f⟩] } ∧
    parse_op "0.B=fffffeff".toList = .error .value_out_of_range ∧
    ((∃ o2, parse_op ("0.B".toList ++ '=' :: "ffffff80".toList) = .ok o2) ↔
      (0xffffff80 ≤ max_values 1 ∨ 2 ^ 32 - 2 ^ (8 * 1) ≤ 0xffffff80)) :=
  ⟨rfl, by decide, by decide, by decide, rfl, rfl,
   (parse_op_literal_range_rule "0.B".toList
      { cap_type := 0, cap_id := 0, name := none, hdr_type_mask := 0, addr := 0, width := 1,
        number := 0, values := [] }
      "ffffff80".toList "0f".toList 0xffffff80 0x0f rfl (by decide) (by decide) (by decide)).1⟩

/-- C12: width selection in `parse_op`.  A one-letter suffix B, W or L, in
either case, gives width 1, 2 or 4, and any other, longer or empty suffix is
rejected; a token with an accepted suffix that `parse_op` accepts has that
width, whatever the table says.  Without a suffix an accepted token has the
non-zero width of the table entry its base resolves to; and a token without
suffix whose value count, number and register are read without error, but
whose base is not a table entry of non-zero width (a number, `CAP`/`ECAP` with
a number, or an entry of width 0, as every entry of a capability is), is
rejected with `Missing width`. -/
theorem parse_op_width_selection (c : List Char) :
    (∀ ch, parse_width (some [ch]) =
      if ch = 'B' ∨ ch = 'b' then .ok 1
      else if ch = 'W' ∨ ch = 'w' then .ok 2
      else if ch = 'L' ∨ ch = 'l' then .ok 4
      else .error .invalid_width) ∧
    (∀ s, s.length ≠ 1 → parse_width (some s) = .error .invalid_width) ∧
    (∀ s e, (split_op c).width = some s → parse_width (some s) = .error e →
      ∃ e2, parse_op c = .error e2) ∧
    (∀ s w o, (split_op c).width = some s → parse_width (some s) = .ok w →
      parse_op c = .ok o → o.width = w) ∧
    ((split_op c).width = none → ∀ o, parse_op c = .ok o →
      (parse_x32 (split_op c).base).ret ≤ 0 ∧
      ∃ r, parse_reg_name (split_op c).base = some r ∧ r.width ≠ 0 ∧ o.width = r.width) ∧
    ((split_op c).width = none → ∀ n num o1,
      count_values (split_op c).value = .ok n →
      parse_number (split_op c).number = .ok num →
      parse_register
        { cap_type := 0, cap_id := 0, name := none, hdr_type_mask := 0, addr := 0,
          width := 0, number := num, values := [] } (split_op c).base = .ok o1 →
      ¬ ((parse_x32 (split_op c).base).ret ≤ 0 ∧
          ∃ r, parse_reg_name (split_op c).base = some r ∧ r.width ≠ 0) →
      parse_op c = .error .missing_width) ∧
    (∀ r ∈ pci_reg_names, r.cap ≠ 0 → r.width = 0) := by
  refine ⟨parse_width_letter, parse_width_long, ?_, ?_, ?_, ?_, pci_reg_names_cap_width⟩
  · intro s e hs he
    cases h : parse_op c with
    | error e2 => exact ⟨e2, rfl⟩
    | ok o =>
      obtain ⟨a, _, ha, _⟩ := parse_op_ok c o h
      obtain ⟨_, w, _, _, _, hw, _⟩ := parse_op_assemble_inv c a ha
      rw [hs, he] at hw
      simp at hw
  · intro s w o hs hw h
    obtain ⟨a, vs, ha, _, _, ho⟩ := parse_op_ok c o h
    obtain ⟨_, w2, _, o1, _, hw2, _, hreg, hz, hoff⟩ := parse_op_assemble_inv c a ha
    rw [hs, hw] at hw2
    simp only [Except.ok.injEq] at hw2
    subst hw2
    have hw0 : w ≠ 0 := by
      intro h0
      subst h0
      cases s with
      | nil => simp [parse_width] at hw
      | cons x xs =>
        cases xs with
        | nil =>
          rw [parse_width_letter] at hw
          split_ifs at hw <;> simp at hw
        | cons y ys => simp [parse_width] at hw
    have h1 := (parse_register_width_eq _ _ _ hreg).1 hw0
    obtain ⟨h2, _⟩ := add_offset_ok _ _ _ hoff
    rw [ho]
    simp only at h1 ⊢
    rw [h2, h1]
  · intro hs o h
    obtain ⟨a, vs, ha, _, _, ho⟩ := parse_op_ok c o h
    obtain ⟨_, w2, _, o1, _, hw2, _, hreg, hz, hoff⟩ := parse_op_assemble_inv c a ha
    rw [hs] at hw2
    simp only [parse_width, Except.ok.injEq] at hw2
    subst hw2
    obtain ⟨h1, h2⟩ := (parse_register_width_eq _ _ _ hreg).2 rfl
    obtain ⟨hret, r, hr, hrw⟩ := h1.1 hz
    obtain ⟨h3, _⟩ := add_offset_ok _ _ _ hoff
    refine ⟨hret, r, hr, hrw, ?_⟩
    rw [ho]
    simp only
    rw [h3, h2 r hret hr]
  · intro hs n num o1 hn hnum hreg hnot
    have hw : parse_width (split_op c).width = .ok 0 := by rw [hs]; rfl
    have hz : o1.width = 0 := by
      by_contra hne
      exact hnot (((parse_register_width_eq _ _ _ hreg).2 rfl).1.1 hne)
    apply parse_op_assemble_error
    rw [parse_op_assemble_steps c n 0 num o1 hn hw hnum hreg, if_pos hz]

/-- Witness of C12: `COMMAND.L` has width 4 though the table gives 2,
`COMMAND` has the table width 2, and `10`, `CAP_PM` and `CAP10` are rejected
with `Missing width`; `10.Q` and `10.BB` are rejected. -/
theorem parse_op_width_selection_witness :
    (parse_op "COMMAND.L".toList).toOption.map (fun o => o.width) = some 4 ∧
    (parse_op "command.b".toList).toOption.map (fun o => o.width) = some 1 ∧
    (parse_op "COMMAND".toList).toOption.map (fun o => o.width) = some 2 ∧
    parse_op "10".toList = .error .missing_width ∧
    parse_op "CAP_PM".toList = .error .missing_width ∧
    parse_op "CAP10".toList = .error .missing_width ∧
    parse_op "10.Q".toList = .error .invalid_width ∧
    parse_op "10.BB".toList = .error .invalid_width ∧
    (split_op "COMMAND.L".toList).width = some ['L'] ∧
    parse_width (some ['L']) = .ok 4 ∧
    (∀ o, parse_op "COMMAND.L".toList = .ok o → o.width = 4) ∧
    (split_op "CAP_PM".toList).width = none ∧
    parse_op "CAP_PM".toList = .error .missing_width :=
  ⟨rfl, rfl, rfl, rfl, rfl, rfl, rfl, rfl, rfl, rfl,
   fun o h => (parse_op_width_selection "COMMAND.L".toList).2.2.2.1 ['L'] 4 o rfl rfl h,
   rfl,
   (parse_op_width_selection "CAP_PM".toList).2.2.2.2.2.1 rfl 0 0
     { cap_type := 1, cap_id := 1, name := some "CAP_PM", hdr_type_mask := 0, addr := 0,
       width := 0, number := 0, values := [] } rfl rfl rfl (by decide)⟩

/-- C13: symbolic-name resolution.  For every entry of the register table and
every spelling `v` of its name in upper or lower case, `parse_register` yields
the entry's offset as address, its header-type mask, the id `cap & 0xffff` and
the capability type: none for `cap = 0`, normal for `cap` in 0x10000..0x1ffff,
extended for `cap` in 0x20000..0x2ffff (every entry is in one of the three
ranges); the width is the entry's when it is not 0 and no suffix gave one.  The
address that the first, numeric attempt stored for a hexadecimal prefix of the
name is overwritten. -/
theorem parse_register_table_name (r : reg_name) (hr : r ∈ pci_reg_names) (v : List Char)
    (hv : strcasecmp_eq r.name.toList v = true) (o : op) :
    parse_register o v =
      .ok { o with
        cap_type :=
          if r.cap = 0 then 0
          else if 0x10000 ≤ r.cap ∧ r.cap ≤ 0x1ffff then PCI_CAP_NORMAL
          else PCI_CAP_EXTENDED,
        cap_id := r.cap &&& 0xffff,
        addr := r.offset,
        hdr_type_mask := r.hdr_type_mask,
        name := some r.name,
        width := if r.width ≠ 0 ∧ o.width = 0 then r.width else o.width } ∧
    (r.cap = 0 ∨ (0x10000 ≤ r.cap ∧ r.cap ≤ 0x1ffff) ∨ (0x20000 ≤ r.cap ∧ r.cap ≤ 0x2ffff)) := by
  obtain ⟨h1, h2⟩ := parse_reg_name_variant r hr v hv
  rw [parse_register_table o v r h1 h2]
  rcases pci_reg_names_cap r hr with ⟨h0, ha, hb⟩ | ⟨hlo, hhi, ha⟩ | ⟨hlo, hhi, hb, ha⟩
  · refine ⟨?_, Or.inl h0⟩
    rw [if_neg ha, if_neg hb, if_pos h0]
  · refine ⟨?_, Or.inr (Or.inl ⟨hlo, hhi⟩)⟩
    have hne : ¬ r.cap = 0 := by omega
    have hin : 0x10000 ≤ r.cap ∧ r.cap ≤ 0x1ffff := ⟨hlo, hhi⟩
    rw [if_pos ha, if_neg hne, if_pos hin]
  · refine ⟨?_, Or.inr (Or.inr ⟨hlo, hhi⟩)⟩
    have hne : ¬ r.cap = 0 := by omega
    have hn2 : ¬ (0x10000 ≤ r.cap ∧ r.cap ≤ 0x1ffff) := by omega
    rw [if_neg ha, if_pos hb, if_neg hne, if_neg hn2]

/-- Witness of C13: `CAP_PM+4.B@1` parses to a read of width 1 at address 4 of
instance 1 of the normal capability 0x01; `device_id`, whose first two letters
are hexadecimal digits, resolves to offset 2. -/
theorem parse_register_table_name_witness :
    parse_op "CAP_PM+4.B@1".toList =
      .ok { cap_type := PCI_CAP_NORMAL, cap_id := 0x01, name := some "CAP_PM",
            hdr_type_mask := 0, addr := 4, width := 1, number := 1, values := [] } ∧
    (parse_x32 "device_id".toList).res = some 0xde ∧
    reg_name.mk 0 0x02 2 0x0 "DEVICE_ID" ∈ pci_reg_names ∧
    strcasecmp_eq "DEVICE_ID".toList "device_id".toList = true ∧
    parse_register
        { cap_type := 0, cap_id := 0, name := none, hdr_type_mask := 0, addr := 0, width := 0,
          number := 0, values := [] } "device_id".toList =
      .ok { cap_type := 0, cap_id := 0, name := some "DEVICE_ID", hdr_type_mask := 0, addr := 2,
            width := 2, number := 0, values := [] } :=
  ⟨rfl, by decide, by decide, by decide,
   (parse_register_table_name (reg_name.mk 0 0x02 2 0x0 "DEVICE_ID") (by decide)
      "device_id".toList (by decide)
      { cap_type := 0, cap_id := 0, name := none, hdr_type_mask := 0, addr := 0, width := 0,
        number := 0, values := [] }).1⟩

/-- C14 fails as stated: after `CAP` the parser takes more than a hexadecimal
number.  The bases `CAP 5`, `cap0x1f` and `CAP-ffffffffffffffff` are neither
plain hexadecimal numbers nor table names, the texts ` 5`, `0x1f` and
`-ffffffffffffffff` after `CAP` are no plain hexadecimal numbers, and
`parse_register` takes the three bases as the normal capabilities 5, 0x1f and
1. -/
theorem parse_register_cap_not_plain :
    (spec_hex_number "CAP 5".toList = false ∧ parse_reg_name "CAP 5".toList = none ∧
      spec_hex_number " 5".toList = false ∧
      parse_register
          { cap_type := 0, cap_id := 0, name := none, hdr_type_mask := 0, addr := 0, width := 1,
            number := 0, values := [] } "CAP 5".toList =
        .ok { cap_type := PCI_CAP_NORMAL, cap_id := 5, name := none, hdr_type_mask := 0,
              addr := 0, width := 1, number := 0, values := [] }) ∧
    (spec_hex_number "cap0x1f".toList = false ∧ parse_reg_name "cap0x1f".toList = none ∧
      spec_hex_number "0x1f".toList = false ∧
      parse_register
          { cap_type := 0, cap_id := 0, name := none, hdr_type_mask := 0, addr := 0, width := 1,
            number := 0, values := [] } "cap0x1f".toList =
        .ok { cap_type := PCI_CAP_NORMAL, cap_id := 0x1f, name := none, hdr_type_mask := 0,
              addr := 0, width := 1, number := 0, values := [] }) ∧
    (spec_hex_number "CAP-ffffffffffffffff".toList = false ∧
      parse_reg_name "CAP-ffffffffffffffff".toList = none ∧
      spec_hex_number "-ffffffffffffffff".toList = false ∧
      parse_register
          { cap_type := 0, cap_id := 0, name := none, hdr_type_mask := 0, addr := 0, width := 1,
            number := 0, values := [] } "CAP-ffffffffffffffff".toList =
        .ok { cap_type := PCI_CAP_NORMAL, cap_id := 1, name := none, hdr_type_mask := 0,
              addr := 0, width := 1, number := 0, values := [] }) ∧
    parse_op "CAP 5.B".toList =
      .ok { cap_type := PCI_CAP_NORMAL, cap_id := 5, name := none, hdr_type_mask := 0,
            addr := 0, width := 1, number := 0, values := [] } :=
  ⟨⟨by decide, by decide, by decide, rfl⟩, ⟨by decide, by decide, by decide, rfl⟩,
   ⟨by decide, by decide, by decide, rfl⟩, rfl⟩

/-- C14, amended: numeric capability references, with the number read in the
wide sense (white space, an optional sign, an optional `0x`, then hexadecimal
digits to the end; `spec_wide_hex_number`).  For a base that is neither a number in
the wide sense nor a table name, `parse_register` succeeds if and only if the
base is `CAP`, in any case, followed by a number `n < 0x100` in the wide sense,
giving the normal capability `n` at address 0, or `ECAP`, in any case, followed
by a number `n < 0x1000` in the wide sense, giving the extended capability `n`
at address 0; otherwise it ends in the unknown-register error.  A plain
hexadecimal number below `2 ^ 32` is a number in the wide sense, with the value
of its digits. -/
theorem parse_register_cap_wide (o : op) (base : List Char)
    (hnum : spec_wide_hex_number base = none) (hname : parse_reg_name base = none) :
    (∀ o2, parse_register o base = .ok o2 ↔
      ((strncasecmp_eq base ['C', 'A', 'P'] 3 = true ∧
          ∃ n, spec_wide_hex_number (base.drop 3) = some n ∧ n < 0x100 ∧
            o2 = { o with cap_type := PCI_CAP_NORMAL, cap_id := n, addr := 0 }) ∨
       (strncasecmp_eq base ['E', 'C', 'A', 'P'] 4 = true ∧
          ∃ n, spec_wide_hex_number (base.drop 4) = some n ∧ n < 0x1000 ∧
            o2 = { o with cap_type := PCI_CAP_EXTENDED, cap_id := n, addr := 0 }))) ∧
    ((∀ o2, parse_register o base ≠ .ok o2) → parse_register o base = .error .unknown_register) ∧
    (∀ s : List Char, spec_hex_number s = true → spec_hex_value s < 2 ^ 32 →
      spec_wide_hex_number s = some (spec_hex_value s)) := by
  have hc : complete_x32 base = none := by rw [complete_x32_eq_wide]; exact hnum
  obtain ⟨h1, h2, _⟩ := parse_register_cap_complete o base hc hname
  refine ⟨?_, h2, spec_hex_number_wide⟩
  intro o2
  have h3 := h1 o2
  simp only [complete_x32_eq_wide] at h3
  exact h3

/-- Witness of C14 as amended: `cap10` is the normal capability 0x10 and
`ECAP1e` the extended capability 0x1e; `CAP 5` is the normal capability 5, the
text ` 5` being the number 5 in the wide sense; `CAP100` and `CAPX` are unknown
registers. -/
theorem parse_register_cap_wide_witness :
    spec_wide_hex_number "CAP 5".toList = none ∧ parse_reg_name "CAP 5".toList = none ∧
    spec_wide_hex_number " 5".toList = some 5 ∧
    spec_wide_hex_number "10".toList = some 0x10 ∧
    spec_wide_hex_number "-ffffffffffffffff".toList = some 1 ∧
    parse_op "cap10.W".toList =
      .ok { cap_type := PCI_CAP_NORMAL, cap_id := 0x10, name := none, hdr_type_mask := 0,
            addr := 0, width := 2, number := 0, values := [] } ∧
    parse_op "ECAP1e.L".toList =
      .ok { cap_type := PCI_CAP_EXTENDED, cap_id := 0x1e, name := none, hdr_type_mask := 0,
            addr := 0, width := 4, number := 0, values := [] } ∧
    parse_op "CAP100.B".toList = .error .unknown_register ∧
    parse_op "CAPX.B".toList = .error .unknown_register ∧
    (∀ o2, parse_register
        { cap_type := 0, cap_id := 0, name := none, hdr_type_mask := 0, addr := 0, width := 2,
          number := 0, values := [] } "CAP 5".toList = .ok o2 ↔
      ((strncasecmp_eq "CAP 5".toList ['C', 'A', 'P'] 3 = true ∧
          ∃ n, spec_wide_hex_number ("CAP 5".toList.drop 3) = some n ∧ n < 0x100 ∧
            o2 = { cap_type := PCI_CAP_NORMAL, cap_id := n, name := none, hdr_type_mask := 0,
                   addr := 0, width := 2, number := 0, values := [] }) ∨
       (strncasecmp_eq "CAP 5".toList ['E', 'C', 'A', 'P'] 4 = true ∧
          ∃ n, spec_wide_hex_number ("CAP 5".toList.drop 4) = some n ∧ n < 0x1000 ∧
            o2 = { cap_type := PCI_CAP_EXTENDED, cap_id := n, name := none, hdr_type_mask := 0,
                   addr := 0, width := 2, number := 0, values := [] }))) :=
  ⟨by decide, by decide, by decide, by decide, by decide, rfl, rfl, rfl, rfl,
   (parse_register_cap_wide
      { cap_type := 0, cap_id := 0, name := none, hdr_type_mask := 0, addr := 0, width := 2,
        number := 0, values := [] } "CAP 5".toList (by decide) (by decide)).1⟩

/-- C15: consecutive registers.  For an operation of width `w` in {1, 2, 4}
with at least one value, final address `A`, on which `exec_op` does not abort:
in either mode the loop reaches the `i`-th value (0-based) with the address
`A + i * w`; in normal mode the write events are exactly as many as the values,
and the `i`-th write event is the write of width `w` at `A + i * w` of the
value computed for the `i`-th value of the list at the state left by the values
before it. -/
theorem exec_op_consecutive_registers (o : op) (dev : pci_dev) (addr : Int)
    (hw : o.width = 1 ∨ o.width = 2 ∨ o.width = 4)
    (hn : o.values ≠ [])
    (haddr : exec_op_addr o dev = .ok addr)
    (hok : (exec_op false o dev).err = none) :
    (∀ (demo : Bool) (i : Nat), i ≤ o.values.length →
      (exec_values demo (to_int o.width) ⟨dev, addr, (exec_op_hdr o dev).1⟩
        (o.values.take i)).addr = addr + (i : Int) * (o.width : Int)) ∧
    ((exec_op false o dev).log.filter (fun e => e.writes)).length = o.num_values ∧
    ∀ (i : Nat) (v : value), o.values[i]? = some v →
      ((exec_op false o dev).log.filter (fun e => e.writes))[i]? =
        some (event.write (addr + (i : Int) * (o.width : Int)) o.width
          (exec_x (to_int o.width)
            (exec_values false (to_int o.width) ⟨dev, addr, (exec_op_hdr o dev).1⟩
              (o.values.take i)) v)) := by
  obtain ⟨hwi, hwn, hwl⟩ := width_cases o.width hw
  have hhdr : (exec_op_hdr o dev).2 = none := ((exec_op_err_none false o dev).1 hok).2
  obtain ⟨L, hL, hlen, hget⟩ :=
    exec_values_writes (to_int o.width) o.values ⟨dev, addr, (exec_op_hdr o dev).1⟩
  rw [exec_op_log_values false o dev addr haddr hhdr hn, hL]
  simp only [exec_op_hdr_no_write, List.nil_append]
  refine ⟨?_, ?_, ?_⟩
  · intro demo i hi
    rw [exec_values_addr, hwi, List.length_take, min_eq_left hi]
  · rw [hlen]; rfl
  · intro i v hv
    rw [hget i v hv, hwl, hwi]

/-- Witness of C15: `40.W=1,2:ff,3` writes the words at 0x40, 0x42 and 0x44, in
this order; the second value, which has a mask, keeps the high byte 0x12 of the
word it replaces. -/
theorem exec_op_consecutive_registers_witness :
    parse_op "40.W=1,2:ff,3".toList = .ok words_op ∧
    (words_op.width = 1 ∨ words_op.width = 2 ∨ words_op.width = 4) ∧
    words_op.values ≠ [] ∧
    exec_op_addr words_op words_dev = .ok 0x40 ∧
    (exec_op false words_op words_dev).err = none ∧
    (exec_op false words_op words_dev).log.filter (fun e => e.writes) =
      [event.write 0x40 2 1, event.write 0x42 2 0x1202, event.write 0x44 2 3] ∧
    ((exec_op false words_op words_dev).log.filter (fun e => e.writes)).length =
      words_op.num_values ∧
    ((exec_op false words_op words_dev).log.filter (fun e => e.writes))[1]? =
      some (event.write (0x40 + ((1 : Nat) : Int) * (words_op.width : Int)) words_op.width
        (exec_x (to_int words_op.width)
          (exec_values false (to_int words_op.width)
            ⟨words_dev, 0x40, (exec_op_hdr words_op words_dev).1⟩ (words_op.values.take 1))
          ⟨2, 0xff⟩)) :=
  ⟨rfl, by decide, by decide, rfl, by decide, by decide,
   (exec_op_consecutive_registers words_op words_dev 0x40 (by decide) (by decide) rfl
      (by decide)).2.1,
   (exec_op_consecutive_registers words_op words_dev 0x40 (by decide) (by decide) rfl
      (by decide)).2.2 1 ⟨2, 0xff⟩ (by decide)⟩

/-- C16: read operation.  For an operation built by `parse_op` that has no
value, with final address `A` and width `w`, on which `exec_op` does not abort:
the events of `exec_op` are the events of the header-type test (none, or the
read of the byte at 0x0e when the operation has a header-type mask) followed by
one read of width `w` at `A` and the print of the value read; exactly one event
is an access of width `w` at `A`, and it is that read; no event is a write; the
device is left as it was; and the text printed is the value as `2 * w`
hexadecimal digits (2, 4 or 8 for width 1, 2 or 4) and a newline, the digits
reading back as the value. -/
theorem exec_op_read_operation (demo : Bool) (c : List Char) (o : op) (dev : pci_dev)
    (addr : Int)
    (hp : parse_op c = .ok o)
    (hn : o.values = [])
    (haddr : exec_op_addr o dev = .ok addr)
    (hok : (exec_op demo o dev).err = none) :
    (o.width = 1 ∨ o.width = 2 ∨ o.width = 4) ∧
    (exec_op demo o dev).log = (exec_op_hdr o dev).1 ++
      [event.read addr o.width (read_switch dev (to_int o.width) addr),
       event.print (to_int o.width) (read_switch dev (to_int o.width) addr)] ∧
    (exec_op_hdr o dev).1 =
      (if o.hdr_type_mask ≠ 0 then
        [event.read PCI_HEADER_TYPE 1 (pci_read_byte dev PCI_HEADER_TYPE)]
       else []) ∧
    (exec_op demo o dev).log.filter (fun e => decide (e.access = some (addr, o.width))) =
      [event.read addr o.width (read_switch dev (to_int o.width) addr)] ∧
    (∀ e ∈ (exec_op demo o dev).log, e.writes = false) ∧
    (exec_op demo o dev).dev = dev ∧
    print_text (to_int o.width) (read_switch dev (to_int o.width) addr) =
      some (hex_fixed (2 * o.width) (read_switch dev (to_int o.width) addr) ++ ['\n']) ∧
    (hex_fixed (2 * o.width) (read_switch dev (to_int o.width) addr)).length = 2 * o.width ∧
    (∀ ch ∈ hex_fixed (2 * o.width) (read_switch dev (to_int o.width) addr),
      (hex_digit ch).isSome = true) ∧
    read_hex 0 (hex_fixed (2 * o.width) (read_switch dev (to_int o.width) addr)) =
      (read_switch dev (to_int o.width) addr, 2 * o.width, []) := by
  have hw := parse_op_width c o hp
  obtain ⟨hwi, hwn, hwl⟩ := width_cases o.width hw
  have hhdr : (exec_op_hdr o dev).2 = none := ((exec_op_err_none demo o dev).1 hok).2
  have hlog := exec_op_log_read demo o dev addr haddr hhdr hn
  rw [hwl] at hlog
  have hh1 : (exec_op_hdr o dev).1 =
      (if o.hdr_type_mask ≠ 0 then
        [event.read PCI_HEADER_TYPE 1 (pci_read_byte dev PCI_HEADER_TYPE)]
       else []) := by
    unfold exec_op_hdr
    split_ifs <;> rfl
  have hlt := read_switch_lt dev o.width hw addr
  rw [← hwi] at hlt
  refine ⟨hw, hlog, hh1, ?_, ?_, ?_, ?_, hex_fixed_length _ _, hex_fixed_digits _ _, ?_⟩
  · rw [hlog, hh1]
    by_cases hm : o.hdr_type_mask ≠ 0
    · have h1 := (parse_op_reaches_hdr_test c o dev hp hm).2
      have h2 := parse_op_hdr_addr c o hp hm
      rw [haddr] at h1
      simp only [Except.ok.injEq] at h1
      have h3 : addr ≠ 0x0e := by omega
      simp [hm, event.access, PCI_HEADER_TYPE, h3.symm]
    · simp [hm, event.access]
  · intro e he
    rw [hlog, hh1] at he
    simp only [List.mem_append, List.mem_cons, List.mem_singleton, List.not_mem_nil,
      or_false] at he
    rcases he with he | he | he
    · split_ifs at he
      · simp only [List.mem_singleton] at he
        subst he
        rfl
      · simp at he
    · subst he
      rfl
    · subst he
      rfl
  · have h3 : ¬ (o.num_values ≠ 0) := by simp [op.num_values, hn]
    simp only [exec_op, haddr, hhdr, if_neg h3]
  · have t1 : to_int 1 = 1 := by decide
    have t2 : to_int 2 = 2 := by decide
    have t4 : to_int 4 = 4 := by decide
    unfold print_text formats
    rcases hw with h | h | h <;> rw [h] at hlt ⊢
    · rw [t1] at hlt ⊢
      simp [printf_x_fits 2 (by norm_num) _ hlt]
    · rw [t2] at hlt ⊢
      simp [printf_x_fits 4 (by norm_num) _ hlt]
    · rw [t4] at hlt ⊢
      simp [printf_x_fits 8 (by norm_num) _ hlt]
  · rw [read_hex_hex_fixed, Nat.mod_eq_of_lt hlt]
    simp

/-- Witness of C16: `CAP_PM+4.B@1` on a device whose second Power-Management
capability is at 0x50 and whose byte at 0x54 reads 0xab: one read of that byte,
no write, and the text `ab` and a newline. -/
theorem exec_op_read_operation_witness :
    parse_op "CAP_PM+4.B@1".toList = .ok pm_op ∧
    pm_op.values = [] ∧
    exec_op_addr pm_op pm_dev = .ok 0x54 ∧
    (exec_op false pm_op pm_dev).err = none ∧
    (exec_op false pm_op pm_dev).log = [event.read 0x54 1 0xab, event.print 1 0xab] ∧
    print_text 1 0xab = some ['a', 'b', '\n'] ∧
    print_text (to_int pm_op.width) (read_switch pm_dev (to_int pm_op.width) 0x54) =
      some (hex_fixed (2 * pm_op.width) (read_switch pm_dev (to_int pm_op.width) 0x54)
        ++ ['\n']) :=
  ⟨rfl, rfl, rfl, by decide, by decide, by decide,
   (exec_op_read_operation false "CAP_PM+4.B@1".toList pm_op pm_dev 0x54 rfl rfl rfl
      (by decide)).2.2.2.2.2.2.1⟩

/-- C17, evaluated at the failing input: with an access library that accepts
the filter texts, `parse_ops` accepts the command line `-s 00:01.0`, and the
only group of the result has no operation; it accepts
`-s 00:01.0 COMMAND -d 8086:`, and the last group of the result has no
operation.  Without any argument it reports "No operation specified", and an
operation before any filter is "Filter specification expected". -/
theorem parse_ops_dangling_filter :
    parse_ops any_filter ["-s".toList, "00:01.0".toList] =
      .ok [{ filter := [('s', "00:01.0".toList)], ops := [] }] ∧
    parse_ops any_filter
        ["-s".toList, "00:01.0".toList, "COMMAND".toList, "-d".toList, "8086:".toList] =
      .ok [{ filter := [('s', "00:01.0".toList)],
             ops := [{ cap_type := 0, cap_id := 0, name := some "COMMAND", hdr_type_mask := 0,
                       addr := 4, width := 2, number := 0, values := [] }] },
           { filter := [('d', "8086:".toList)], ops := [] }] ∧
    parse_ops any_filter [] = .error .no_operation ∧
    parse_ops any_filter ["COMMAND".toList] = .error .filter_expected :=
  ⟨rfl, rfl, rfl, rfl⟩

/-- C18: the acceptance boundary of value and mask literals as the code
computes it.  For an accepted read token of width `w` followed by `=` and a
value literal `v`, or by `=`, a value literal in range, `:` and a mask literal
`m`: the literal is accepted if and only if it is at most `max_values[w]` or at
least `0xFFFFFFFF - max_values[w]`; with width 4 every literal is accepted. -/
theorem parse_op_literal_boundary (pre : List Char) (o : op) (a b : List Char) (v m : Nat)
    (hpre : parse_op pre = .ok o) (heq : '=' ∉ pre)
    (ha : complete_x32 a = some v) (hb : complete_x32 b = some m) :
    ((∃ o2, parse_op (pre ++ '=' :: a) = .ok o2) ↔
      (v ≤ max_values o.width ∨ v ≥ 0xFFFFFFFF - max_values o.width)) ∧
    ((v ≤ max_values o.width ∨ v ≥ 0xFFFFFFFF - max_values o.width) →
      ((∃ o2, parse_op (pre ++ '=' :: (a ++ ':' :: b)) = .ok o2) ↔
        (m ≤ max_values o.width ∨ m ≥ 0xFFFFFFFF - max_values o.width))) ∧
    (o.width = 4 →
      (∃ o2, parse_op (pre ++ '=' :: a) = .ok o2) ∧
      (∃ o2, parse_op (pre ++ '=' :: (a ++ ':' :: b)) = .ok o2)) := by
  obtain ⟨h1, _, h3⟩ := parse_op_literal_iff pre o a b v m hpre heq ha hb
  refine ⟨h1, fun h => (h3 h).1, ?_⟩
  intro hw
  have hv : v ≤ max_values o.width ∨ v ≥ 0xFFFFFFFF - max_values o.width := by
    right; rw [hw]; simp [max_values]
  have hm : m ≤ max_values o.width ∨ m ≥ 0xFFFFFFFF - max_values o.width := by
    right; rw [hw]; simp [max_values]
  exact ⟨h1.2 hv, ((h3 hv).1).2 hm⟩

/-- Witness of C18: the boundary vectors.  Width 1 accepts 0xff and 0xffffff00
and rejects 0x100 and 0xfffffeff; width 2 accepts 0xffff and 0xffff0000 and
rejects 0x10000 and 0xfffeffff; width 4 accepts 0x80000000. -/
theorem parse_op_literal_boundary_witness :
    (parse_op "0.B=ff".toList).toOption.map (fun o => o.values) = some [⟨0xff, 0xffffffff⟩] ∧
    (parse_op "0.B=ffffff00".toList).toOption.map (fun o => o.values)
      = some [⟨0xffffff00, 0xffffffff⟩] ∧
    parse_op "0.B=100".toList = .error .value_out_of_range ∧
    parse_op "0.B=fffffeff".toList = .error .value_out_of_range ∧
    (parse_op "0.W=ffff".toList).toOption.map (fun o => o.values) = some [⟨0xffff, 0xffffffff⟩] ∧
    (parse_op "0.W=ffff0000".toList).toOption.map (fun o => o.values)
      = some [⟨0xffff0000, 0xffffffff⟩] ∧
    parse_op "0.W=10000".toList = .error .value_out_of_range ∧
    parse_op "0.W=fffeffff".toList = .error .value_out_of_range ∧
    (parse_op "0.L=80000000".toList).toOption.map (fun o => o.values)
      = some [⟨0x80000000, 0xffffffff⟩] ∧
    parse_op "0.B=0:100".toList = .error .mask_out_of_range ∧
    parse_op "0.W".toList =
      .ok { cap_type := 0, cap_id := 0, name := none, hdr_type_mask := 0, addr := 0, width := 2,
            number := 0, values := [] } ∧
    '=' ∉ "0.W".toList ∧
    complete_x32 "ffff0000".toList = some 0xffff0000 ∧
    ((∃ o2, parse_op ("0.W".toList ++ '=' :: "ffff0000".toList) = .ok o2) ↔
      (0xffff0000 ≤ max_values 2 ∨ 0xffff0000 ≥ 0xFFFFFFFF - max_values 2)) :=
  ⟨rfl, rfl, rfl, rfl, rfl, rfl, rfl, rfl, rfl, rfl, rfl, by decide, by decide,
   (parse_op_literal_boundary "0.W".toList
      { cap_type := 0, cap_id := 0, name := none, hdr_type_mask := 0, addr := 0, width := 2,
        number := 0, values := [] }
      "ffff0000".toList "ffff0000".toList 0xffff0000 0xffff0000 rfl (by decide) (by decide)
      (by decide)).1⟩

/-- C19, evaluated at the failing input: the token `FFFFFFFF+1.L` has the
numeric base 0xffffffff and the offset 1; it is accepted, with address 0. -/
theorem parse_op_offset_wraps :
    parse_op "FFFFFFFF+1.L".toList =
      .ok { cap_type := 0, cap_id := 0, name := none, hdr_type_mask := 0, addr := 0, width := 4,
            number := 0, values := [] } ∧
    (split_op "FFFFFFFF+1.L".toList).base = "FFFFFFFF".toList ∧
    (split_op "FFFFFFFF+1.L".toList).offset = some "1".toList ∧
    complete_x32 "FFFFFFFF".toList = some 0xFFFFFFFF ∧
    complete_x32 "1".toList = some 1 ∧
    (0xFFFFFFFF + 1 : Nat) ≠ 0 ∧
    ¬ ((0xFFFFFFFF + 1 : Nat) < 0x1000) :=
  ⟨rfl, by decide, by decide, by decide, by decide, by decide, by decide⟩

/-- C20 fails as stated: after `@` the parser takes more than a hexadecimal
number.  The texts ` 0x2`, `-0` and `-ffffffffffffffff` are no plain
hexadecimal numbers, and they are accepted as the instances 2, 0 and 1. -/
theorem parse_number_not_plain :
    spec_hex_number " 0x2".toList = false ∧
    parse_number (some " 0x2".toList) = .ok 2 ∧
    (parse_op "CAP_PM.B@ 0x2".toList).toOption.map (fun o => o.number) = some 2 ∧
    spec_hex_number "-0".toList = false ∧
    parse_number (some "-0".toList) = .ok 0 ∧
    (parse_op "CAP_PM.B@-0".toList).toOption.map (fun o => o.number) = some 0 ∧
    spec_hex_number "-ffffffffffffffff".toList = false ∧
    parse_number (some "-ffffffffffffffff".toList) = .ok 1 ∧
    (parse_op "CAP_PM.B@-ffffffffffffffff".toList).toOption.map (fun o => o.number) = some 1 :=
  ⟨by decide, rfl, rfl, by decide, rfl, rfl, by decide, rfl, rfl⟩

/-- C20, amended: the instance suffix, with the number read in the wide sense
(white space, an optional sign, an optional `0x`, then hexadecimal digits to
the end; `spec_wide_hex_number`).  Without `@` the instance is 0.  The text `t`
after `@` is accepted if and only if it is a number in the wide sense below
0x80000000 (the empty text is none), and every other text is rejected with
`Invalid number`; the instance of an accepted token is the number read.  A
plain hexadecimal number below `2 ^ 32` is a number in the wide sense, with the
value of its digits. -/
theorem parse_number_wide (c : List Char) :
    parse_number none = .ok 0 ∧
    (∀ t k, parse_number (some t) = .ok k ↔ (spec_wide_hex_number t = some k ∧ k < 0x80000000)) ∧
    (∀ t, (¬ ∃ k, spec_wide_hex_number t = some k ∧ k < 0x80000000) →
      parse_number (some t) = .error .invalid_number) ∧
    spec_wide_hex_number [] = none ∧
    (∀ o, parse_op c = .ok o → parse_number (split_op c).number = .ok o.number) ∧
    (∀ s : List Char, spec_hex_number s = true → spec_hex_value s < 2 ^ 32 →
      spec_wide_hex_number s = some (spec_hex_value s)) := by
  obtain ⟨h1, h2, h3, _, h5, _⟩ := parse_number_complete c
  simp only [complete_x32_eq_wide] at h2 h3
  exact ⟨h1, h2, h3, by decide, h5, spec_hex_number_wide⟩

/-- Witness of C20 as amended: `CAP_PM+4.B@1` has instance 1, `COMMAND` has
instance 0, `@ 0x2` is instance 2; `@80000000`, `@` and `@1z` are rejected with
`Invalid number`. -/
theorem parse_number_wide_witness :
    (parse_op "CAP_PM+4.B@1".toList).toOption.map (fun o => o.number) = some 1 ∧
    (parse_op "COMMAND".toList).toOption.map (fun o => o.number) = some 0 ∧
    (parse_op "CAP_PM.B@7fffffff".toList).toOption.map (fun o => o.number) = some 0x7fffffff ∧
    parse_op "CAP_PM.B@80000000".toList = .error .invalid_number ∧
    parse_op "CAP_PM.B@".toList = .error .invalid_number ∧
    parse_op "CAP_PM.B@1z".toList = .error .invalid_number ∧
    spec_wide_hex_number " 0x2".toList = some 2 ∧
    spec_wide_hex_number "80000000".toList = some 0x80000000 ∧
    spec_wide_hex_number "1z".toList = none ∧
    (split_op "CAP_PM+4.B@1".toList).number = some ['1'] ∧
    parse_number (split_op "CAP_PM+4.B@1".toList).number = .ok pm_op.number ∧
    (parse_number (some " 0x2".toList) = .ok 2 ↔
      (spec_wide_hex_number " 0x2".toList = some 2 ∧ 2 < 0x80000000)) :=
  ⟨rfl, rfl, rfl, rfl, rfl, rfl, by decide, by decide, by decide, rfl,
   (parse_number_wide "CAP_PM+4.B@1".toList).2.2.2.2.1 pm_op rfl,
   (parse_number_wide "CAP_PM+4.B@1".toList).2.1 " 0x2".toList 2⟩

/-- C21 fails as stated: `10+4.B@1` is accepted as the byte at 0x14 with
instance 1, while `10.B+4@1` is rejected with `Invalid width` (the width text
is `B+4`) and `10@1.B+4` is rejected with `Invalid number` (the number text is
`1.B+4`). -/
theorem parse_op_suffix_order_matters :
    parse_op "10+4.B@1".toList =
      .ok { cap_type := 0, cap_id := 0, name := none, hdr_type_mask := 0, addr := 0x14, width := 1,
            number := 1, values := [] } ∧
    (split_op "10.B+4@1".toList).width = some "B+4".toList ∧
    parse_op "10.B+4@1".toList = .error .invalid_width ∧
    (split_op "10@1.B+4".toList).number = some "1.B+4".toList ∧
    parse_op "10@1.B+4".toList = .error .invalid_number :=
  ⟨rfl, by decide, rfl, by decide, rfl⟩

/-- C21, amended: the suffixes are recognised in one order only, `+offset`,
then `.width`, then `@instance`.  For a base `b` without `=`, `@`, `.`, `+`, an
offset text `o` without `=`, `@`, `.`, a width letter `w` and an instance text
`n` that is a complete hexadecimal number `k`: the token `b+o.w@n` splits into
exactly these pieces, and when it is accepted the operation is the one that
`parse_register` and `add_offset` build from `b`, `o`, the width of `w` and the
instance `k`; each of the five other orders of the three suffixes is rejected,
with `Invalid width` for `b.w+o@n` and with `Invalid number` for the four
others. -/
theorem parse_op_suffix_order (b o n : List Char) (w : Char) (wd k : Nat)
    (hb : '=' ∉ b ∧ '@' ∉ b ∧ '.' ∉ b ∧ '+' ∉ b)
    (ho : '=' ∉ o ∧ '@' ∉ o ∧ '.' ∉ o)
    (hw : parse_width (some [w]) = .ok wd)
    (hn : complete_x32 n = some k) :
    split_op (b ++ '+' :: (o ++ '.' :: w :: '@' :: n)) =
      { base := b, offset := some o, width := some [w], value := none, number := some n } ∧
    (∀ p, parse_op (b ++ '+' :: (o ++ '.' :: w :: '@' :: n)) = .ok p →
      ∃ o1, parse_register
          { cap_type := 0, cap_id := 0, name := none, hdr_type_mask := 0, addr := 0,
            width := wd, number := k, values := [] } b = .ok o1 ∧
        add_offset o1 (some o) = .ok p) ∧
    parse_op (b ++ '+' :: (o ++ '@' :: (n ++ '.' :: [w]))) = .error .invalid_number ∧
    parse_op (b ++ '.' :: w :: '+' :: (o ++ '@' :: n)) = .error .invalid_width ∧
    parse_op (b ++ '.' :: w :: '@' :: (n ++ '+' :: o)) = .error .invalid_number ∧
    parse_op (b ++ '@' :: (n ++ '+' :: (o ++ '.' :: [w]))) = .error .invalid_number ∧
    parse_op (b ++ '@' :: (n ++ '.' :: w :: '+' :: o)) = .error .invalid_number := by
  obtain ⟨hb1, hb2, hb3, hb4⟩ := hb
  obtain ⟨ho1, ho2, ho3⟩ := ho
  obtain ⟨hw1, hw2, hw3, hw4⟩ := width_letter_cases w wd hw
  have hnum := complete_x32_numeric n k hn
  have hn1 : '=' ∉ n := fun h => absurd (hnum _ h) (by decide)
  have hn2 : '@' ∉ n := fun h => absurd (hnum _ h) (by decide)
  have hn3 : '.' ∉ n := fun h => absurd (hnum _ h) (by decide)
  have e1 : ('+' : Char) ≠ '=' := by decide
  have e2 : ('+' : Char) ≠ '@' := by decide
  have e3 : ('+' : Char) ≠ '.' := by decide
  have e4 : ('.' : Char) ≠ '=' := by decide
  have e5 : ('.' : Char) ≠ '@' := by decide
  have e6 : ('@' : Char) ≠ '=' := by decide
  have e7 : ('.' : Char) ≠ '+' := by decide
  have hdot : numeric_char '.' = false := by decide
  have hsplit : split_op (b ++ '+' :: (o ++ '.' :: w :: '@' :: n)) =
      { base := b, offset := some o, width := some [w], value := none, number := some n } := by
    simp [split_op, strchr_split_app, strchr_split_cons_ne, strchr_split_cons_eq,
      strchr_split_not_mem, hb1, hb2, hb3, hb4, ho1, ho2, ho3, hn1, hw1, hw2, e1, e2, e4, e6]
  refine ⟨hsplit, ?_, ?_, ?_, ?_, ?_, ?_⟩
  · intro p hp
    obtain ⟨a, vs, ha, _, hvs, hpa⟩ := parse_op_ok _ p hp
    obtain ⟨n2, w2, num, o1, hcount, hwidth, hnumber, hreg, _, hoff⟩ :=
      parse_op_assemble_inv _ a ha
    obtain ⟨_, hval, hcnt, _⟩ := parse_op_assemble_ok _ a ha
    rw [hsplit] at hcount hwidth hnumber hreg hoff hval hcnt
    simp only at hcount hwidth hnumber hreg hoff hval hcnt
    rw [hw] at hwidth
    simp only [Except.ok.injEq] at hwidth
    subst hwidth
    have hk : num = k := by
      simp only [parse_number] at hnumber
      split_ifs at hnumber
      simp only [Except.ok.injEq] at hnumber
      rw [← hnumber]
      exact ((complete_x32_iff n k).1 hn).2
    subst hk
    have hn0 : a.n = 0 := by
      simp only [count_values, Except.ok.injEq] at hcnt
      exact hcnt.symm
    rw [hn0] at hvs
    simp only [parse_values, Except.ok.injEq] at hvs
    have hv1 := (parse_register_width _ _ _ hreg (by
      have := parse_width_ok _ _ hw
      simpa using this)).2.1
    have hv2 := (add_offset_ok _ _ _ hoff).2.1
    refine ⟨o1, hreg, ?_⟩
    rw [hoff, hpa, ← hvs]
    have : a.o.values = [] := by rw [hv2, hv1]
    rw [← this]
  · apply parse_op_invalid_number _ (n ++ '.' :: [w]) 0
    · simp [split_op, strchr_split_app, strchr_split_cons_ne, strchr_split_cons_eq,
        strchr_split_not_mem, hb1, ho1, hn1, hw1, e1, e4, e6]
    · simp [split_op, strchr_split_app, strchr_split_cons_ne, strchr_split_cons_eq,
        strchr_split_not_mem, hb1, hb2, hb3, ho1, ho2, ho3, hn1, hw1, e1, e2, e3, e4, e6,
        parse_width]
    · simp [split_op, strchr_split_app, strchr_split_cons_ne, strchr_split_cons_eq,
        strchr_split_not_mem, hb1, hb2, ho1, ho2, hn1, hw1, e1, e2, e4, e6]
    · exact complete_x32_not_numeric _ '.' (by simp) hdot
  · apply parse_op_invalid_width _ (w :: '+' :: o)
    · simp [split_op, strchr_split_app, strchr_split_cons_ne, strchr_split_cons_eq,
        strchr_split_not_mem, hb1, ho1, hn1, hw1, e1, e4, e6]
    · simp [split_op, strchr_split_app, strchr_split_cons_ne, strchr_split_cons_eq,
        strchr_split_not_mem, hb1, hb2, hb3, ho1, ho2, hn1, hw1, hw2, e1, e2, e4, e5, e6]
    · simp
  · apply parse_op_invalid_number _ (n ++ '+' :: o) wd
    · simp [split_op, strchr_split_app, strchr_split_cons_ne, strchr_split_cons_eq,
        strchr_split_not_mem, hb1, ho1, hn1, hw1, e1, e4, e6]
    · simp [split_op, strchr_split_app, strchr_split_cons_ne, strchr_split_cons_eq,
        strchr_split_not_mem, hb1, hb2, hb3, ho1, hn1, hw1, hw2, e1, e4, e5, e6, hw]
    · simp [split_op, strchr_split_app, strchr_split_cons_ne, strchr_split_cons_eq,
        strchr_split_not_mem, hb1, hb2, ho1, hn1, hw1, hw2, e1, e4, e5, e6]
    · exact complete_x32_append_plus n o k hn
  · apply parse_op_invalid_number _ (n ++ '+' :: (o ++ '.' :: [w])) 0
    · simp [split_op, strchr_split_app, strchr_split_cons_ne, strchr_split_cons_eq,
        strchr_split_not_mem, hb1, ho1, hn1, hw1, e1, e4, e6]
    · simp [split_op, strchr_split_app, strchr_split_cons_ne, strchr_split_cons_eq,
        strchr_split_not_mem, hb1, hb2, hb3, ho1, hn1, hw1, e1, e4, e6, parse_width]
    · simp [split_op, strchr_split_app, strchr_split_cons_ne, strchr_split_cons_eq,
        strchr_split_not_mem, hb1, hb2, ho1, hn1, hw1, e1, e4, e6]
    · exact complete_x32_append_plus n _ k hn
  · apply parse_op_invalid_number _ (n ++ '.' :: w :: '+' :: o) 0
    · simp [split_op, strchr_split_app, strchr_split_cons_ne, strchr_split_cons_eq,
        strchr_split_not_mem, hb1, ho1, hn1, hw1, e1, e4, e6]
    · simp [split_op, strchr_split_app, strchr_split_cons_ne, strchr_split_cons_eq,
        strchr_split_not_mem, hb1, hb2, hb3, ho1, hn1, hw1, e1, e4, e6, parse_width]
    · simp [split_op, strchr_split_app, strchr_split_cons_ne, strchr_split_cons_eq,
        strchr_split_not_mem, hb1, hb2, ho1, hn1, hw1, e1, e4, e6]
    · exact complete_x32_not_numeric _ '.' (by simp) hdot

/-- Witness of C21 as amended: base `10`, offset `4`, width letter `B`,
instance `1`.  Only `10+4.B@1` is accepted; the five other orders are
rejected. -/
theorem parse_op_suffix_order_witness :
    ('=' ∉ "10".toList ∧ '@' ∉ "10".toList ∧ '.' ∉ "10".toList ∧ '+' ∉ "10".toList) ∧
    ('=' ∉ "4".toList ∧ '@' ∉ "4".toList ∧ '.' ∉ "4".toList) ∧
    parse_width (some ['B']) = .ok 1 ∧
    complete_x32 "1".toList = some 1 ∧
    parse_op "10+4.B@1".toList =
      .ok { cap_type := 0, cap_id := 0, name := none, hdr_type_mask := 0, addr := 0x14, width := 1,
            number := 1, values := [] } ∧
    parse_op "10+4@1.B".toList = .error .invalid_number ∧
    parse_op "10.B+4@1".toList = .error .invalid_width ∧
    parse_op "10.B@1+4".toList = .error .invalid_number ∧
    parse_op "10@1+4.B".toList = .error .invalid_number ∧
    parse_op "10@1.B+4".toList = .error .invalid_number ∧
    split_op ("10".toList ++ '+' :: ("4".toList ++ '.' :: 'B' :: '@' :: "1".toList)) =
      { base := "10".toList, offset := some "4".toList, width := some ['B'], value := none,
        number := some "1".toList } :=
  ⟨by decide, by decide, rfl, by decide, rfl, rfl, rfl, rfl, rfl, rfl,
   (parse_op_suffix_order "10".toList "4".toList "1".toList 'B' 1 1 (by decide) (by decide) rfl
      (by decide)).1⟩

/-- C22: per-operation atomicity of failure.  `exec_op` runs to its end if and
only if the four tests pass: the capability instance is found (base 0 without
capability), the final address `A` is aligned to the width, `A + width` is at
most 0x1000, and the header-type test does not fail.  When it aborts, no event
of the operation is a write and the device is left as it was.  When the tests
pass, it does not abort, and for a non-empty value list its events and the
device it leaves are those of the loop over the whole list of values, which in
normal mode issues one write for each value. -/
theorem exec_op_failure_atomic (demo : Bool) (o : op) (dev : pci_dev) :
    ((exec_op demo o dev).err = none ↔
      ∃ base, exec_op_cap o dev = .ok base ∧
        to_uint (to_int (to_uint base + o.addr)) &&& to_uint (to_int o.width - 1) = 0 ∧
        to_int (to_uint base + o.addr) + to_int o.width ≤ 0x1000 ∧
        (exec_op_hdr o dev).2 = none) ∧
    (∀ e, (exec_op demo o dev).err = some e →
      (∀ ev ∈ (exec_op demo o dev).log, ev.writes = false) ∧ (exec_op demo o dev).dev = dev) ∧
    (∀ addr, exec_op_addr o dev = .ok addr → (exec_op_hdr o dev).2 = none →
      (exec_op demo o dev).err = none ∧
      (o.values ≠ [] →
        (exec_op demo o dev).log =
          (exec_values demo (to_int o.width) ⟨dev, addr, (exec_op_hdr o dev).1⟩ o.values).log ∧
        (exec_op demo o dev).dev =
          (exec_values demo (to_int o.width) ⟨dev, addr, (exec_op_hdr o dev).1⟩ o.values).dev ∧
        (demo = false →
          ((exec_op demo o dev).log.filter (fun ev => ev.writes)).length = o.num_values))) := by
  refine ⟨?_, ?_, ?_⟩
  · rw [exec_op_err_none]
    constructor
    · rintro ⟨⟨a, ha⟩, hh⟩
      obtain ⟨base, hc, hab, hal, hr⟩ := exec_op_addr_ok o dev a ha
      subst hab
      exact ⟨base, hc, hal, hr, hh⟩
    · rintro ⟨base, hc, hal, hr, hh⟩
      refine ⟨⟨to_int (to_uint base + o.addr), ?_⟩, hh⟩
      rw [exec_op_addr_of_cap o dev base hc, if_neg (not_not.2 hal), if_neg (not_lt.2 hr)]
  · intro e he
    cases ha : exec_op_addr o dev with
    | error e2 =>
      have hlog := (exec_op_addr_error demo o dev e2 ha).2
      refine ⟨?_, by simp [exec_op, ha]⟩
      intro ev hev
      rw [hlog] at hev
      simp at hev
    | ok a =>
      have herr := exec_op_addr_ok_err demo o dev a ha
      rw [he] at herr
      have hlog : (exec_op demo o dev).log = (exec_op_hdr o dev).1 := by
        simp [exec_op, ha, ← herr]
      refine ⟨?_, by simp [exec_op, ha, ← herr]⟩
      intro ev hev
      rw [hlog] at hev
      have hnw := exec_op_hdr_no_write o dev
      by_contra hw
      have hmem : ev ∈ (exec_op_hdr o dev).1.filter (fun e => e.writes) :=
        List.mem_filter.2 ⟨hev, by simpa using hw⟩
      rw [hnw] at hmem
      simp at hmem
  · intro addr ha hh
    have hok : (exec_op demo o dev).err = none :=
      (exec_op_err_none demo o dev).2 ⟨⟨addr, ha⟩, hh⟩
    refine ⟨hok, ?_⟩
    intro hn
    have hlog := exec_op_log_values demo o dev addr ha hh hn
    have h3 : o.num_values ≠ 0 := by simpa [op.num_values] using hn
    refine ⟨hlog, by simp [exec_op, ha, hh, h3], ?_⟩
    intro hd
    subst hd
    obtain ⟨L, hL, hlen, _⟩ :=
      exec_values_writes (to_int o.width) o.values ⟨dev, addr, (exec_op_hdr o dev).1⟩
    rw [hlog, hL]
    simp only [exec_op_hdr_no_write, List.nil_append]
    rw [hlen]
    rfl

/-- Witness of C22: `BASE_ADDRESS_2` on a bridge aborts at the header-type test
after one read and no write; `CAP_PM+4.B@1` asked for instance 2 on a device
with two such capabilities aborts with no event at all; `40.W=1,2:ff,3` passes
the tests and issues its three writes. -/
theorem exec_op_failure_atomic_witness :
    (exec_op false bar2_op bridge_dev).err = some (.no_register (some "BASE_ADDRESS_2")) ∧
    (exec_op false bar2_op bridge_dev).log = [event.read 0x0e 1 0x81] ∧
    (exec_op false { pm_op with number := 2 } pm_dev).err =
      some (.only_caps 2 "Capability" 1 "are" 2 "capabilities") ∧
    (exec_op false { pm_op with number := 2 } pm_dev).log = [] ∧
    exec_op_addr words_op words_dev = .ok 0x40 ∧
    (exec_op_hdr words_op words_dev).2 = none ∧
    (exec_op false words_op words_dev).log.filter (fun ev => ev.writes) =
      [event.write 0x40 2 1, event.write 0x42 2 0x1202, event.write 0x44 2 3] ∧
    ((∀ ev ∈ (exec_op false bar2_op bridge_dev).log, ev.writes = false) ∧
      (exec_op false bar2_op bridge_dev).dev = bridge_dev) ∧
    (exec_op false words_op words_dev).err = none :=
  ⟨by decide, by decide, by decide, by decide, rfl, by decide, by decide,
   (exec_op_failure_atomic false bar2_op bridge_dev).2.1
     (.no_register (some "BASE_ADDRESS_2")) (by decide),
   ((exec_op_failure_atomic false words_op words_dev).2.2 0x40 rfl (by decide)).1⟩

end Setpci
